import Mathlib

/-!
# Elliptics transport and transaction layer

A shallow embedding of `src/trans.c` (transaction registry, reply correlation,
forwarding) and of the framed I/O, the file transfer and the worker loop of
`src/library/net.c` (`dnet_wait_fd`, `dnet_send`, `dnet_recv`,
`dnet_sendfile_data`, `dnet_net_reconnect`, `dnet_state_process`).

Conventions of the embedding

* Pointers to peer states and callbacks are natural numbers, `0` is `NULL`.
* Unsigned machine integers are natural numbers; where the C type narrows or
  wraps the embedding reduces modulo `2^32` or `2^64` explicitly. The results
  of `send` and `recv` are narrowed to the `int` the transfer loops keep them
  in (`to_int`).
* What the outside world does during a call (results of `poll`, `send`,
  `recv`, `malloc`, the routing lookup, the callbacks) is an explicit input.
  A call that is still inside a transfer loop when the known socket outcomes
  end has return value `none`.
* Everything a call does that is visible outside the registry is appended to
  the node's `trace`, the peer locks taken and released included.
-/

namespace Elliptics

/-! ## Constants -/

/-- Value of errno `EIO`. -/
def EIO : Int := 5

/-- Value of errno `EAGAIN`. -/
def EAGAIN : Int := 11

/-- Value of errno `ENOMEM`. -/
def ENOMEM : Int := 12

/-- Value of errno `EEXIST`. -/
def EEXIST : Int := 17

/-- Value of errno `EINVAL`. -/
def EINVAL : Int := 22

/-- Value of errno `ECONNRESET`. -/
def ECONNRESET : Int := 104

/-- Modelled from the spec: `packet.h` is not part of the sources; the spec gives
`trans u64 — bit63 = REPLY`. -/
def DNET_TRANS_REPLY : Nat := 2 ^ 63

/-- Modelled from the spec: `packet.h` is not part of the sources; the spec gives
`flags u32 — bit0 MORE`. -/
def DNET_FLAGS_MORE : Nat := 1

/-- The 64-bit complement `~DNET_TRANS_REPLY`. -/
def DNET_TRANS_MASK : Nat := 2 ^ 64 - 1 - DNET_TRANS_REPLY

/-- Modelled from the spec: `sizeof(struct el_cmd)` for the wire layout of the
spec, a 64-byte id followed by `size` (8), `trans` (8), `flags` (4) and
`status` (4). -/
def sizeof_el_cmd : Nat := 88

/-! ## Data model -/

/-- Command header `struct el_cmd`. -/
structure el_cmd where
  id : Nat
  size : Nat
  trans : Nat
  flags : Nat
  status : Int
deriving DecidableEq

/-- Transaction `struct dnet_trans`. `rb_parent_color` is the field of the
embedded `trans_entry`: zero exactly when the transaction is not linked into
the index. `data` is `none` for `NULL` and `some k` for a buffer of `k` bytes
(the payload bytes themselves are opaque to this layer). -/
structure dnet_trans where
  rb_parent_color : Nat
  trans : Nat
  recv_trans : Nat
  st : Nat
  cmd : el_cmd
  data : Option Nat
  priv : Nat
  complete : Nat
deriving DecidableEq

/-- The index `struct rb_root`: a binary tree of transactions. -/
inductive rb_node where
  | nil : rb_node
  | node : rb_node → dnet_trans → rb_node → rb_node
deriving DecidableEq

/-- The buffer a `dnet_send` call transmits from: a command header or a
transaction's payload buffer of the given length. -/
inductive buf where
  | cmd : el_cmd → buf
  | data : Option Nat → buf
deriving DecidableEq

/-- Externally visible actions, in the order they happen. -/
inductive event where
  | lock : Nat → event
  | unlock : Nat → event
  | rx : Nat → Nat → Nat → event
  | tx : Nat → buf → Nat → Nat → event
  | complete : dnet_trans → event
  | process_cmd : Nat → el_cmd → Option Nat → event
  | free_trans : dnet_trans → event
  | free_state : Nat → event
deriving DecidableEq

/-- The part of `struct dnet_node` the transaction layer uses: the counter
`trans`, the index `trans_root`, the self entry `st`, the reference counts of
the peer states, and the trace of actions so far. -/
structure dnet_node where
  trans : Nat
  trans_root : rb_node
  st : Nat
  refcnt : Nat → Int
  trace : List event

/-- One round of a transfer loop as the outside world decides it: the return
value of `poll`, whether `pfd.revents & events` is non-zero, the value of
`need_exit` read after the wait, the return value of `send` or `recv` when it
is called, and `errno` after it. -/
structure io_outcome where
  poll : Int
  revents : Bool
  need_exit : Bool
  ret : Int
  errno : Int
deriving DecidableEq

/-- Result of `dnet_send` or `dnet_recv`: the return value (`none` while the
loop is still running when the known outcomes end), the outcomes not yet
consumed, and the `(offset, count)` of every `send` or `recv` that the loop
takes as successful: its result, as `int err` holds it, is positive, and the
loop moves its cursor by that count. -/
structure io_result where
  ret : Option Int
  rest : List io_outcome
  log : List (Nat × Nat)
deriving DecidableEq

/-- What the outside world does during one `dnet_trans_process` call. -/
structure env where
  cmd : el_cmd
  rx : List io_outcome
  tx : List io_outcome
  malloc_trans : Bool
  malloc_data : Bool
  route : Nat
  process_cmd : Int
  complete : Int

/-- State after a call and its return value (`none`: the call has not
returned within the known socket outcomes). -/
structure result where
  n : dnet_node
  ret : Option Int

/-! ## Framed I/O (`src/library/net.c`) -/

/-- The function `dnet_wait_fd`. -/
def dnet_wait_fd (o : io_outcome) : Int :=
  if o.poll < 0 then o.poll
  else if o.poll = 0 then -EAGAIN
  else if o.revents then 0
  else -EINVAL

/-- The statement `size -= err` on an `unsigned int`. -/
def u32_sub (size : Nat) (err : Int) : Nat :=
  (((size : Int) - err) % 4294967296).toNat

/-- The value an `int` holds after the result of `send` or `recv`, an
`ssize_t`, is assigned to it: the low 32 bits, read as a signed number. Both
transfer loops keep the result in `int err`. -/
def to_int (x : Int) : Int :=
  (x + 2147483648) % 4294967296 - 2147483648

/-- The loop of `dnet_send` from label `again`, with `size` bytes left and the
cursor `off` bytes into the buffer. -/
def dnet_send_at (orig_size : Nat) : List io_outcome → Nat → Nat → io_result
  | [], size, _ => if size = 0 then ⟨some 0, [], []⟩ else ⟨none, [], []⟩
  | o :: os, size, off =>
    if size = 0 then ⟨some 0, o :: os, []⟩
    else
      let err := dnet_wait_fd o
      if o.need_exit then dnet_send_at orig_size os orig_size 0
      else if err = -EAGAIN then dnet_send_at orig_size os size off
      else if err < 0 then dnet_send_at orig_size os orig_size 0
      else
        let err := to_int o.ret
        if err < 0 then
          if -o.errno = 0 then ⟨some 0, os, []⟩
          else dnet_send_at orig_size os orig_size 0
        else if err = 0 then dnet_send_at orig_size os orig_size 0
        else
          let r := dnet_send_at orig_size os (u32_sub size err) (off + err.toNat)
          ⟨r.ret, r.rest, (off, err.toNat) :: r.log⟩

/-- The function `dnet_send`; `size` is an `unsigned int` parameter. -/
def dnet_send (os : List io_outcome) (size : Nat) : io_result :=
  dnet_send_at (size % 4294967296) os (size % 4294967296) 0

/-- The loop of `dnet_recv` with `size` bytes left and the cursor `off` bytes
into the buffer. -/
def dnet_recv_at : List io_outcome → Nat → Nat → io_result
  | [], size, _ => if size = 0 then ⟨some 0, [], []⟩ else ⟨none, [], []⟩
  | o :: os, size, off =>
    if size = 0 then ⟨some 0, o :: os, []⟩
    else
      let err := dnet_wait_fd o
      if o.need_exit then ⟨some (- EIO), os, []⟩
      else if err = -EAGAIN then dnet_recv_at os size off
      else if err < 0 then ⟨some err, os, []⟩
      else
        let err := to_int o.ret
        if err < 0 then ⟨some err, os, []⟩
        else if err = 0 then ⟨some (-ECONNRESET), os, []⟩
        else
          let r := dnet_recv_at os (u32_sub size err) (off + err.toNat)
          ⟨r.ret, r.rest, (off, err.toNat) :: r.log⟩

/-- The function `dnet_recv`; `size` is an `unsigned int` parameter. -/
def dnet_recv (os : List io_outcome) (size : Nat) : io_result :=
  dnet_recv_at os (size % 4294967296) 0

/-! ## Transaction registry (`src/trans.c`) -/

/-- The function `dnet_trans_cmp`. -/
def dnet_trans_cmp (old new : Nat) : Int :=
  if old > new then 1
  else if old < new then -1
  else 0

/-- The function `dnet_trans_search`: the walk from the root, left when the
node's number is smaller than the one looked for, right when it is larger. -/
def dnet_trans_search : rb_node → Nat → Option dnet_trans
  | rb_node.nil, _ => none
  | rb_node.node l t r, key =>
    if dnet_trans_cmp t.trans key < 0 then dnet_trans_search l key
    else if dnet_trans_cmp t.trans key > 0 then dnet_trans_search r key
    else some t

/-- The function `dnet_trans_insert_raw`: the same walk; at the empty slot the
transaction is linked in (`rb_link_node`, `rb_insert_color`). The rbtree
library is not part of the sources. Modelled from the spec: the index is a set
of transactions keyed by number, so recolouring and rotations, which keep the
in-order sequence, are left out and a linked node has `rb_parent_color = 1`
(any non-zero value: the parent pointer and the colour bit, black for the
root). Returns the error code and the new tree. -/
def dnet_trans_insert_raw : rb_node → dnet_trans → Int × rb_node
  | rb_node.nil, a => (0, rb_node.node rb_node.nil { a with rb_parent_color := 1 } rb_node.nil)
  | rb_node.node l t r, a =>
    if dnet_trans_cmp t.trans a.trans < 0 then
      ((dnet_trans_insert_raw l a).1, rb_node.node (dnet_trans_insert_raw l a).2 t r)
    else if dnet_trans_cmp t.trans a.trans > 0 then
      ((dnet_trans_insert_raw r a).1, rb_node.node l t (dnet_trans_insert_raw r a).2)
    else (-EEXIST, rb_node.node l t r)

/-- The function `dnet_trans_insert` on the node `t->st->n`: returns the error
code, the node and the transaction as the call leaves them. The counter is a
`__u64`. -/
def dnet_trans_insert (n : dnet_node) (t : dnet_trans) : Int × dnet_node × dnet_trans :=
  let t1 := { t with trans := n.trans &&& DNET_TRANS_MASK }
  let r := dnet_trans_insert_raw n.trans_root t1
  (r.1,
   { n with trans := (n.trans + 1) % 2 ^ 64, trans_root := r.2 },
   if r.1 = 0 then { t1 with rb_parent_color := 1 } else t1)

/-- Hang the tree `r` below the right-most node of `l`. -/
def rb_join : rb_node → rb_node → rb_node
  | rb_node.nil, r => r
  | rb_node.node a t b, r => rb_node.node a t (rb_join b r)

/-- Modelled from the spec: `rb_erase` of the rbtree library, which is not part
of the sources, unlinks the node of the transaction from the index and keeps
the in-order sequence of the others. The node is located by its number. -/
def rb_erase : rb_node → Nat → rb_node
  | rb_node.nil, _ => rb_node.nil
  | rb_node.node l t r, key =>
    if dnet_trans_cmp t.trans key < 0 then rb_node.node (rb_erase l key) t r
    else if dnet_trans_cmp t.trans key > 0 then rb_node.node l t (rb_erase r key)
    else rb_join l r

/-- Write-through of a linked transaction: the C code changes a transaction
through the pointer the index holds, so the node with this number is
overwritten by the current value. -/
def rb_store : rb_node → dnet_trans → rb_node
  | rb_node.nil, _ => rb_node.nil
  | rb_node.node l t r, a =>
    if dnet_trans_cmp t.trans a.trans < 0 then rb_node.node (rb_store l a) t r
    else if dnet_trans_cmp t.trans a.trans > 0 then rb_node.node l t (rb_store r a)
    else rb_node.node l a r

/-- Append actions to the trace. -/
def dnet_node.emit (n : dnet_node) (es : List event) : dnet_node :=
  { n with trace := n.trace ++ es }

/-- A field of the transaction `t` was assigned: a linked transaction is the
node of the index, an unlinked one is private to the caller. -/
def dnet_node.store (n : dnet_node) (t : dnet_trans) : dnet_node :=
  if t.rb_parent_color = 0 then n else { n with trans_root := rb_store n.trans_root t }

/-- The function `dnet_trans_remove_nolock`: returns the index and the
transaction as the call leaves them. -/
def dnet_trans_remove_nolock (root : rb_node) (t : dnet_trans) : rb_node × dnet_trans :=
  if t.rb_parent_color = 0 then (root, t)
  else (rb_erase root t.trans, { t with rb_parent_color := 0 })

/-- The function `dnet_trans_remove` on the node `t->st->n`. -/
def dnet_trans_remove (n : dnet_node) (t : dnet_trans) : dnet_node × dnet_trans :=
  ({ n with trans_root := (dnet_trans_remove_nolock n.trans_root t).1 },
   (dnet_trans_remove_nolock n.trans_root t).2)

/-- Modelled from the spec: `dnet_state_get` is declared in `elliptics.h`, which
is not part of the sources; `acquire(peer)` increments the refcount under the
peer's lock, which is taken and released around the increment. -/
def dnet_state_get (n : dnet_node) (st : Nat) : dnet_node :=
  { n with
    refcnt := Function.update n.refcnt st (n.refcnt st + 1)
    trace := n.trace ++ [event.lock st, event.unlock st] }

/-- The function `dnet_state_put`: nothing for `NULL`; otherwise the refcount
drops by one under the peer's lock, which is taken and released around the
decrement, and at zero the state is torn down and freed. -/
def dnet_state_put (n : dnet_node) (st : Nat) : dnet_node :=
  if st = 0 then n
  else
    let n1 := { n with
      refcnt := Function.update n.refcnt st (n.refcnt st - 1)
      trace := n.trace ++ [event.lock st, event.unlock st] }
    if n.refcnt st - 1 = 0 then n1.emit [event.free_state st] else n1

/-- Modelled from the spec: `dnet_state_search` is not part of the sources;
routing lookups acquire a reference on the peer they return. The peer found
is an input, `0` when there is none. -/
def dnet_state_search (n : dnet_node) (route : Nat) : dnet_node :=
  if route = 0 then n else dnet_state_get n route

/-- The function `dnet_trans_destroy`; `none` is a `NULL` transaction. Every
peer state points to its node, so `t->st->n` is non-`NULL` whenever `t->st`
is. The completion call is compiled out (block under `if 0`). -/
def dnet_trans_destroy (n : dnet_node) : Option dnet_trans → dnet_node
  | none => n
  | some t =>
    let r := if t.rb_parent_color ≠ 0 ∧ t.st ≠ 0 then dnet_trans_remove n t else (n, t)
    (dnet_state_put r.1 t.st).emit [event.free_trans r.2]

/-- Modelled from the spec: `el_convert_cmd` is declared in `packet.h`, which is
not part of the sources; the wire is little-endian, and on a little-endian
host the conversion leaves the header as it is. -/
def el_convert_cmd (c : el_cmd) : el_cmd := c

/-- Trace of the `send` calls of one `dnet_send` on peer `st` from buffer `b`. -/
def tx_events (st : Nat) (b : buf) (log : List (Nat × Nat)) : List event :=
  log.map (fun p => event.tx st b p.1 p.2)

/-- Trace of the `recv` calls of one `dnet_recv` on peer `st`. -/
def rx_events (st : Nat) (log : List (Nat × Nat)) : List event :=
  log.map (fun p => event.rx st p.1 p.2)

/-- The function `dnet_trans_forward`: header and payload of `t` are sent to
`st` under its lock; `os` are the outcomes on the socket of `st`. -/
def dnet_trans_forward (n : dnet_node) (os : List io_outcome) (t : dnet_trans) (st : Nat) :
    result :=
  let size := t.cmd.size % 4294967296
  let c := el_convert_cmd t.cmd
  let n1 := n.emit [event.lock st]
  let r1 := dnet_send os sizeof_el_cmd
  let n2 := n1.emit (tx_events st (buf.cmd c) r1.log)
  match r1.ret with
  | none => ⟨n2, none⟩
  | some err1 =>
    if err1 = 0 then
      let r2 := dnet_send r1.rest size
      let n3 := n2.emit (tx_events st (buf.data t.data) r2.log)
      match r2.ret with
      | none => ⟨n3, none⟩
      | some err2 => ⟨n3.emit [event.unlock st], some err2⟩
    else ⟨n2.emit [event.unlock st], some err1⟩

/-- Label `err_out_destroy` of `dnet_trans_process`. -/
def err_out_destroy (n : dnet_node) (t : Option dnet_trans) (err : Int) : result :=
  ⟨dnet_trans_destroy n t, some err⟩

/-- Label `err_out_unlock` of `dnet_trans_process`. -/
def err_out_unlock (st : Nat) (n : dnet_node) (t : Option dnet_trans) (err : Int) : result :=
  err_out_destroy (n.emit [event.unlock st]) t err

/-- A transaction fresh from `malloc` and `memset(t, 0, ...)`. -/
def dnet_trans_zero : dnet_trans :=
  ⟨0, 0, 0, 0, ⟨0, 0, 0, 0, 0⟩, none, 0, 0⟩

/-- Lines 196 to 209 of `dnet_trans_process`: a reply whose transaction `t` was
found and whose payload has been read. -/
def process_reply_done (st : Nat) (E : env) (cmd : el_cmd) (n : dnet_node) (t : dnet_trans) :
    result :=
  let n1 := n.emit [event.unlock st]
  let t1 := { t with cmd := { cmd with trans := t.recv_trans ||| DNET_TRANS_REPLY } }
  let n2 := n1.store t1
  let r : result :=
    if t1.complete ≠ 0 then ⟨n2.emit [event.complete t1], some E.complete⟩
    else dnet_trans_forward n2 E.tx t1 t1.st
  match r.ret with
  | none => r
  | some _ =>
    if cmd.flags &&& DNET_FLAGS_MORE = 0 then ⟨dnet_trans_destroy r.n (some t1), some 0⟩
    else ⟨r.n, some 0⟩

/-- Lines 173 to 210 of `dnet_trans_process`: a reply whose transaction `t` was
found by the search. `err0` is the function's variable `err`, which holds the
result of the header read: the block declares an `err` of its own, so what it
assigns is not what label `err_out_unlock` returns. -/
def process_reply (st : Nat) (E : env) (rx : List io_outcome) (cmd : el_cmd) (err0 : Int)
    (n : dnet_node) (t : dnet_trans) : result :=
  let p := if cmd.flags &&& DNET_FLAGS_MORE = 0 then dnet_trans_remove_nolock n.trans_root t
           else (n.trans_root, t)
  let n1 := { n with trans_root := p.1 }
  if cmd.size ≠ 0 then
    if E.malloc_data then
      let t1 := { p.2 with data := some cmd.size }
      let n2 := n1.store t1
      let r := dnet_recv rx cmd.size
      let n3 := n2.emit (rx_events st r.log)
      match r.ret with
      | none => ⟨n3, none⟩
      | some e => if e < 0 then err_out_unlock st n3 (some t1) err0
                  else process_reply_done st E cmd n3 t1
    else
      let t1 := { p.2 with data := none }
      err_out_unlock st (n1.store t1) (some t1) err0
  else process_reply_done st E cmd n1 p.2

/-- Lines 237 to 284 of `dnet_trans_process`: the payload has been read into
the fresh transaction `t`. -/
def process_request_done (st : Nat) (E : env) (cmd : el_cmd) (need_drop : Bool)
    (n : dnet_node) (t : dnet_trans) : result :=
  let n1 := n.emit [event.unlock st]
  if need_drop then ⟨dnet_trans_destroy n1 (some t), some 0⟩
  else
    let n2 := dnet_state_search n1 E.route
    let t1 := { t with st := E.route, cmd := cmd }
    if t1.st = 0 ∨ t1.st = st ∨ t1.st = n2.st then
      let n3 := n2.emit [event.process_cmd st t1.cmd t1.data]
      if E.process_cmd ≠ 0 then err_out_destroy n3 (some t1) E.process_cmd
      else ⟨dnet_trans_destroy n3 (some t1), some 0⟩
    else
      let tmp := t1.st
      let t2 := { t1 with st := st }
      let i := dnet_trans_insert (dnet_state_get n2 st) t2
      if i.1 ≠ 0 then err_out_destroy (dnet_state_put i.2.1 tmp) (some i.2.2) i.1
      else
        let t3 := { i.2.2 with recv_trans := i.2.2.cmd.trans }
        let t4 := { t3 with cmd := { t3.cmd with trans := t3.trans } }
        let r := dnet_trans_forward (i.2.1.store t4) E.tx t4 tmp
        match r.ret with
        | none => r
        | some err =>
          if err ≠ 0 then err_out_destroy (dnet_state_put r.n tmp) (some t4) err
          else ⟨dnet_state_put r.n tmp, some 0⟩

/-- Lines 217 to 284 of `dnet_trans_process`: a request, or a reply without a
transaction (`need_drop`). -/
def process_request (st : Nat) (E : env) (rx : List io_outcome) (cmd : el_cmd)
    (need_drop : Bool) (n : dnet_node) : result :=
  if E.malloc_trans then
    if cmd.size ≠ 0 then
      if E.malloc_data then
        let t1 := { dnet_trans_zero with data := some cmd.size }
        let r := dnet_recv rx cmd.size
        let n1 := n.emit (rx_events st r.log)
        match r.ret with
        | none => ⟨n1, none⟩
        | some e => if e < 0 then err_out_unlock st n1 (some t1) e
                    else process_request_done st E cmd need_drop n1 t1
      else err_out_unlock st n (some dnet_trans_zero) (-ENOMEM)
    else process_request_done st E cmd need_drop n dnet_trans_zero
  else err_out_unlock st n none (-ENOMEM)

/-- The function `dnet_trans_process` for the peer `st`. The first outcome of
`E.rx` is the wait of `dnet_wait`, the following ones belong to the header
read and then to the payload read; `E.cmd` is the header the bytes of the
first read hold. -/
def dnet_trans_process (st : Nat) (E : env) (n : dnet_node) : result :=
  match E.rx with
  | [] => ⟨n, none⟩
  | o :: rx =>
    if dnet_wait_fd o ≠ 0 then ⟨n, some (dnet_wait_fd o)⟩
    else
      let n1 := n.emit [event.lock st]
      let r := dnet_recv rx sizeof_el_cmd
      let n2 := n1.emit (rx_events st r.log)
      match r.ret with
      | none => ⟨n2, none⟩
      | some err =>
        if err < 0 then err_out_unlock st n2 none err
        else
          let cmd := el_convert_cmd E.cmd
          if cmd.trans &&& DNET_TRANS_REPLY ≠ 0 then
            match dnet_trans_search n2.trans_root (cmd.trans &&& DNET_TRANS_MASK) with
            | some t => process_reply st E r.rest cmd err n2 t
            | none => process_request st E r.rest cmd true n2
          else process_request st E r.rest cmd false n2

/-! ## File transfer and the worker loop (`src/library/net.c`) -/

/-- The statement `size -= err` on a `size_t`. -/
def u64_sub (size : Nat) (err : Int) : Nat :=
  (((size : Int) - err) % 18446744073709551616).toNat

/-- The bytes the `send` calls of `log` take from `buffer`, in the order they
reach the socket. -/
def log_data (buffer : List Nat) : List (Nat × Nat) → List Nat
  | [] => []
  | p :: log => (buffer.drop p.1).take p.2 ++ log_data buffer log

/-- Result of `dnet_sendfile_data`: the return value (`none` while a loop is
still running when the known outcomes end), the outcomes not yet consumed and
the bytes written to the socket, in order. -/
structure sendfile_result where
  ret : Option Int
  rest : List io_outcome
  wire : List Nat
deriving DecidableEq

/-- How the body loop of `dnet_sendfile_data` is left: still inside it when the
known outcomes end, by `goto err_out_unlock` with the value of `err`, or past
its end (the loop condition fails or a `break` is taken) with `size` bytes not
yet sent. -/
inductive body_exit where
  | running : body_exit
  | unlock : Int → body_exit
  | padding : Nat → body_exit
deriving DecidableEq

/-- The body loop of `dnet_sendfile_data`, lines 406 to 436, for the file
content `file`: what leaves the loop, the outcomes not yet consumed and the
bytes written. A `sendfile` that returns `err > 0` has copied `err` bytes of
the file from `offset` to the socket and advanced `offset` by them. -/
def sendfile_loop (file : List Nat) : List io_outcome → Nat → Nat →
    body_exit × List io_outcome × List Nat
  | [], _, size =>
    if size = 0 then (body_exit.padding 0, [], []) else (body_exit.running, [], [])
  | o :: os, offset, size =>
    if size = 0 then (body_exit.padding 0, o :: os, [])
    else
      let err := dnet_wait_fd o
      if o.need_exit then (body_exit.padding size, os, [])
      else if err = -EAGAIN then sendfile_loop file os offset size
      else if err < 0 then (body_exit.padding size, os, [])
      else
        let err := o.ret
        if err < 0 then (body_exit.unlock err, os, [])
        else if err = 0 then (body_exit.padding size, os, [])
        else
          let r := sendfile_loop file os (offset + err.toNat) (u64_sub size err)
          (r.1, r.2.1, (file.drop offset).take err.toNat ++ r.2.2)

/-- The padding loop of `dnet_sendfile_data`, lines 447 to 457: `sz` is an
`unsigned int` capped at the 4096 zero bytes of `buf`. The first argument
bounds the number of passes; a pass with `sz = 0` changes nothing, so the loop
then runs for ever and the result is `none`. -/
def sendfile_pad : Nat → List io_outcome → Nat → sendfile_result
  | 0, os, size => if size = 0 then ⟨some 0, os, []⟩ else ⟨none, os, []⟩
  | fuel + 1, os, size =>
    if size = 0 then ⟨some 0, os, []⟩
    else
      let sz := if size % 4294967296 > 4096 then 4096 else size % 4294967296
      let s := dnet_send os sz
      let w := log_data (List.replicate 4096 0) s.log
      match s.ret with
      | none => ⟨none, s.rest, w⟩
      | some err =>
        if err ≠ 0 then ⟨some err, s.rest, w⟩
        else
          let r := sendfile_pad fuel s.rest (size - sz)
          ⟨r.ret, r.rest, w ++ r.wire⟩

/-- The function `dnet_sendfile_data` for a file with content `file`; `hsize`
is an `unsigned int`, `size` a `size_t`. The peer lock, taken first and
released on both exits, has no effect on what is written and is left out. -/
def dnet_sendfile_data (os : List io_outcome) (file : List Nat) (offset size : Nat)
    (header : List Nat) (hsize : Nat) : sendfile_result :=
  let h := dnet_send os hsize
  let w := log_data header h.log
  match h.ret with
  | none => ⟨none, h.rest, w⟩
  | some err =>
    if err ≠ 0 then ⟨some err, h.rest, w⟩
    else
      let b := sendfile_loop file h.rest offset size
      match b.1 with
      | body_exit.running => ⟨none, b.2.1, w ++ b.2.2⟩
      | body_exit.unlock e => ⟨some e, b.2.1, w ++ b.2.2⟩
      | body_exit.padding left =>
        let p := sendfile_pad left b.2.1 left
        ⟨p.ret, p.rest, w ++ b.2.2 ++ p.wire⟩

/-- Modelled from the spec: the join states of a peer are declared in
`elliptics.h`, which is not part of the sources; the spec gives
`join_state ∈ {CLIENT, JOINED, REJOIN}`. -/
inductive dnet_join_state where
  | DNET_CLIENT : dnet_join_state
  | DNET_JOINED : dnet_join_state
  | DNET_REJOIN : dnet_join_state
deriving DecidableEq

/-- What the worker of a peer does besides the work of `dnet_trans_process`,
in the order it happens: a `dnet_trans_process` call that returned `err`, the
peer lock taken and released around the reconnect, `dnet_net_reconnect`
returning `err`, the old socket closed, `sleep(seconds)`, and the final
`dnet_state_put`. -/
inductive worker_event where
  | process : Int → worker_event
  | lock : worker_event
  | reconnect : Int → worker_event
  | unlock : worker_event
  | close : Int → worker_event
  | sleep : Nat → worker_event
  | put : worker_event
deriving DecidableEq

/-- The worker of a peer: the node, the fields `s` and `join_state` of the
peer's `struct dnet_net_state`, the node's `join_state`, and what the worker
has done so far. -/
structure worker where
  n : dnet_node
  s : Int
  join_state : dnet_join_state
  n_join_state : dnet_join_state
  log : List worker_event

/-- One pass of the worker loop as the outside world decides it: the value of
`need_exit` at the loop test, what happens during `dnet_trans_process`, and
the return value of `dnet_socket_create_addr` if the worker reconnects. -/
structure worker_round where
  need_exit : Bool
  E : env
  connect : Int

/-- The function `dnet_net_reconnect`; `connect` is the return value of
`dnet_socket_create_addr`. -/
def dnet_net_reconnect (w : worker) (connect : Int) : Int × worker :=
  if w.join_state = dnet_join_state.DNET_CLIENT then (-EINVAL, w)
  else if connect < 0 then (connect, w)
  else
    (0, { w with
      s := connect
      join_state := dnet_join_state.DNET_REJOIN
      n_join_state := dnet_join_state.DNET_REJOIN
      log := w.log ++ (if w.s > 0 then [worker_event.close w.s] else []) })

/-- The end of `dnet_state_process`, lines 301 to 306. -/
def worker_exit (st : Nat) (w : worker) : worker :=
  { w with n := dnet_state_put w.n st, log := w.log ++ [worker_event.put] }

/-- The function `dnet_state_process` for the peer `st`: the worker when the
function returns, `none` when it is still in its loop, or inside a
`dnet_trans_process` call, when the known rounds end. -/
def dnet_state_process (st : Nat) : List worker_round → worker → Option worker
  | [], _ => none
  | r :: rs, w =>
    if r.need_exit then some (worker_exit st w)
    else
      match (dnet_trans_process st r.E w.n).ret with
      | none => none
      | some err =>
        let w1 := { w with
          n := (dnet_trans_process st r.E w.n).n
          log := w.log ++ [worker_event.process err] }
        if err < 0 ∧ err ≠ -EAGAIN then
          if w1.join_state = dnet_join_state.DNET_CLIENT then some (worker_exit st w1)
          else
            let c := dnet_net_reconnect { w1 with log := w1.log ++ [worker_event.lock] }
              r.connect
            let w2 := { c.2 with
              log := c.2.log ++ [worker_event.reconnect c.1, worker_event.unlock] }
            if c.1 ≠ 0 then
              dnet_state_process st rs { w2 with log := w2.log ++ [worker_event.sleep 1] }
            else dnet_state_process st rs w2
        else dnet_state_process st rs w1

/-! ## Predicates used to state the results -/

/-- Every transaction of the tree satisfies `p`. -/
def rb_all (p : dnet_trans → Bool) : rb_node → Bool
  | rb_node.nil => true
  | rb_node.node l t r => rb_all p l && p t && rb_all p r

/-- Search-tree order of the index as the walks of `dnet_trans_search` and
`dnet_trans_insert_raw` need it: larger numbers to the left, smaller to the
right. -/
def rb_ordered : rb_node → Bool
  | rb_node.nil => true
  | rb_node.node l t r =>
    rb_all (fun x => decide (t.trans < x.trans)) l && rb_all (fun x => decide (x.trans < t.trans)) r
      && rb_ordered l && rb_ordered r

/-- The transactions of the index, in-order. -/
def rb_list : rb_node → List dnet_trans
  | rb_node.nil => []
  | rb_node.node l t r => rb_list l ++ t :: rb_list r

/-- Well-formed registry: the index is a search tree and every transaction in
it is marked as linked and has a peer (`dnet_trans_insert` reads `t->st->n`). -/
def registry_wf (root : rb_node) : Bool :=
  rb_ordered root && rb_all (fun x => decide (x.rb_parent_color ≠ 0) && decide (x.st ≠ 0)) root

/-- The completions invoked in a trace, in order. -/
def completions : List event → List dnet_trans
  | [] => []
  | event.complete t :: es => t :: completions es
  | _ :: es => completions es

/-- The transactions freed in a trace, in order. -/
def freed : List event → List dnet_trans
  | [] => []
  | event.free_trans t :: es => t :: freed es
  | _ :: es => freed es

/-- The local request handler calls in a trace. -/
def handler_calls : List event → Nat
  | [] => 0
  | event.process_cmd _ _ _ :: es => handler_calls es + 1
  | _ :: es => handler_calls es

/-- The `send` calls in a trace: peer, buffer, offset, count. -/
def sends : List event → List (Nat × buf × Nat × Nat)
  | [] => []
  | event.tx p b off k :: es => (p, b, off, k) :: sends es
  | _ :: es => sends es

/-- Bytes taken from the socket of peer `st` in a trace. -/
def rx_bytes (st : Nat) : List event → Nat
  | [] => 0
  | event.rx p _ k :: es => (if p = st then k else 0) + rx_bytes st es
  | _ :: es => rx_bytes st es

/-- Bytes of `log` in total. -/
def log_bytes (log : List (Nat × Nat)) : Nat :=
  (log.map (fun p => p.2)).sum

/-- A run of `dnet_trans_insert` calls on one node: the node after the run and
the `(returned error, assigned number)` of every call, in order. -/
def insert_run : dnet_node → List dnet_trans → dnet_node × List (Int × Nat)
  | n, [] => (n, [])
  | n, t :: ts =>
    let i := dnet_trans_insert n t
    ((insert_run i.2.1 ts).1, (i.1, i.2.2.trans) :: (insert_run i.2.1 ts).2)

/-- The wait of the round timed out (`-EAGAIN`) with `need_exit` clear. -/
def send_again (o : io_outcome) : Bool :=
  !o.need_exit && decide (dnet_wait_fd o = -EAGAIN)

/-- The round ends a pass of `dnet_send` with an error while `need_exit` is
clear: the wait fails (not with `-EAGAIN`), or `send` fails (`err`, the `int`
that holds its result, is negative) with a non-zero `errno`, or `err` is 0
(connection dropped). -/
def send_fails (o : io_outcome) : Bool :=
  !o.need_exit &&
    ((decide (dnet_wait_fd o < 0) && decide (dnet_wait_fd o ≠ -EAGAIN)) ||
     (decide (dnet_wait_fd o = 0) &&
       ((decide (to_int o.ret < 0) && decide (o.errno ≠ 0)) || decide (to_int o.ret = 0))))

/-- The round transmits `k` bytes: the wait succeeds with `need_exit` clear and
`err`, the `int` that holds the result of `send`, is `k`. -/
def send_moves (o : io_outcome) (k : Nat) : Bool :=
  !o.need_exit && decide (dnet_wait_fd o = 0) && decide (to_int o.ret = (k : Int))

/-- The header read of a `dnet_trans_process` call: the `dnet_recv` that
follows the wait. -/
def header_read (E : env) : io_result :=
  dnet_recv E.rx.tail sizeof_el_cmd

/-- The wait of `dnet_wait` succeeds and the header read returns 0. -/
def header_ok (E : env) : Bool :=
  match E.rx with
  | [] => false
  | o :: _ => decide (dnet_wait_fd o = 0) && decide ((header_read E).ret = some 0)

/-- The payload read of a `dnet_trans_process` call: the `dnet_recv` of
`cmd.size` bytes that follows the header read. -/
def payload_read (E : env) : io_result :=
  dnet_recv (header_read E).rest E.cmd.size

/-- The payload is read successfully: there is none, or its buffer is
allocated and the read returns 0. -/
def payload_ok (E : env) : Bool :=
  decide (E.cmd.size = 0) || (E.malloc_data && decide ((payload_read E).ret = some 0))

/-- Reading the payload fails: there is one, and its buffer cannot be
allocated or the read returns an error. -/
def payload_fails (E : env) : Bool :=
  decide (E.cmd.size ≠ 0) &&
    (!E.malloc_data ||
      match (payload_read E).ret with
      | some e => decide (e < 0)
      | none => false)

/-- The node once the header has been read: the peer lock is taken and the
header bytes are consumed. -/
def after_header (st : Nat) (E : env) (n : dnet_node) : dnet_node :=
  (n.emit [event.lock st]).emit (rx_events st (header_read E).log)

/-- The transaction `t` as a successfully read reply with header `cmd` leaves
it: the payload buffer is replaced when there is a payload, the header is the
received one with `trans` set to `recv_trans | REPLY`, and the transaction is
unlinked when MORE is clear. -/
def reply_view (t : dnet_trans) (cmd : el_cmd) : dnet_trans :=
  { t with
    rb_parent_color := if cmd.flags &&& DNET_FLAGS_MORE = 0 then 0 else t.rb_parent_color
    data := if cmd.size = 0 then t.data else some cmd.size
    cmd := { cmd with trans := t.recv_trans ||| DNET_TRANS_REPLY } }

/-- Successive `dnet_trans_process` calls of the worker of peer `st`, each
starting in the state the one before left: the node after the calls and their
return values. -/
def process_seq (st : Nat) : List env → dnet_node → dnet_node × List (Option Int)
  | [], n => (n, [])
  | E :: Es, n =>
    ((process_seq st Es (dnet_trans_process st E n).n).1,
     (dnet_trans_process st E n).ret :: (process_seq st Es (dnet_trans_process st E n).n).2)

/-- No `recv` of a `dnet_recv` for `size` bytes that the loop takes as
successful (`err`, the `int` that holds its result, is positive) returns more
than the length it was called with (the guarantee of `recv(2)`). A `recv` of
`2^31` bytes or more is not among them: its result is negative as an `int`. -/
def recv_bounded : List io_outcome → Nat → Bool
  | [], _ => true
  | o :: os, size =>
    if size = 0 then true
    else if o.need_exit then true
    else if dnet_wait_fd o = -EAGAIN then recv_bounded os size
    else if dnet_wait_fd o < 0 then true
    else if to_int o.ret ≤ 0 then true
    else
      decide (to_int o.ret ≤ (size : Int)) && recv_bounded os (size - (to_int o.ret).toNat)

/-- The two `dnet_send` calls of `dnet_trans_forward` in a call that forwards
the received packet: header and payload. -/
def forward_header (E : env) : io_result :=
  dnet_send E.tx sizeof_el_cmd

/-- The payload send of `dnet_trans_forward`, see `forward_header`. -/
def forward_payload (E : env) : io_result :=
  dnet_send (forward_header E).rest (E.cmd.size % 4294967296)

/-- The forward send succeeds: both `dnet_send` calls return 0. -/
def forward_ok (E : env) : Bool :=
  decide ((forward_header E).ret = some 0) && decide ((forward_payload E).ret = some 0)

/-- The forwarding transaction `dnet_trans_process` registers for a request
with header `E.cmd` received from peer `st` when the node counter is `c`. -/
def forward_trans (st : Nat) (E : env) (c : Nat) : dnet_trans :=
  { dnet_trans_zero with
    rb_parent_color := 1
    trans := c &&& DNET_TRANS_MASK
    recv_trans := E.cmd.trans
    st := st
    cmd := { E.cmd with trans := c &&& DNET_TRANS_MASK }
    data := if E.cmd.size = 0 then none else some E.cmd.size }

/-- The request is for another node: the routing lookup returns a peer that is
neither the node's self entry nor the peer `st` the request arrived on. -/
def routed_on (st : Nat) (E : env) (n : dnet_node) : Bool :=
  decide (E.route ≠ 0) && decide (E.route ≠ st) && decide (E.route ≠ n.st)

/-- The node as `dnet_trans_process` has it when it calls `dnet_trans_forward`
for a request it has read completely and registered: lines 145 to 266. -/
def before_forward (st : Nat) (E : env) (n : dnet_node) : dnet_node :=
  let n1 := (after_header st E n).emit
    (if E.cmd.size = 0 then [] else rx_events st (payload_read E).log)
  let n2 := dnet_state_get (dnet_state_search (n1.emit [event.unlock st]) E.route) st
  let t := { dnet_trans_zero with
    st := st, cmd := E.cmd, data := if E.cmd.size = 0 then none else some E.cmd.size }
  (dnet_trans_insert n2 t).2.1.store (forward_trans st E n.trans)

/-- The `send` calls of `log` are one pass over the `size` bytes that start at
offset `off`: each call starts where the one before ended, moves at least one
byte, and together they move exactly `size` bytes. -/
def covers : Nat → Nat → List (Nat × Nat) → Bool
  | _, size, [] => decide (size = 0)
  | off, size, p :: log =>
    decide (p.1 = off) && decide (0 < p.2) && decide (p.2 ≤ size) &&
      covers (off + p.2) (size - p.2) log

/-- The rounds of a `dnet_send` with `size` bytes left respect send(2): a
`send` returns no more than the length it was called with, and a `send` that
fails sets `errno`. Success and failure are what the loop sees in `err`, the
`int` that holds the result. `orig` is the length of the whole buffer. -/
def send_bounded (orig : Nat) : List io_outcome → Nat → Bool
  | [], _ => true
  | o :: os, size =>
    if size = 0 then true
    else if o.need_exit then send_bounded orig os orig
    else if dnet_wait_fd o = -EAGAIN then send_bounded orig os size
    else if dnet_wait_fd o < 0 then send_bounded orig os orig
    else if to_int o.ret < 0 then decide (o.errno ≠ 0) && send_bounded orig os orig
    else if to_int o.ret = 0 then send_bounded orig os orig
    else
      decide (to_int o.ret ≤ (size : Int)) &&
        send_bounded orig os (size - (to_int o.ret).toNat)

/-- No round of a `dnet_send` with `size` bytes left ends the pass: every wait
succeeds or times out with `need_exit` clear, and every `send` moves at least
one byte and no more than the length it was called with (as `err`, the `int`
that holds its result, has it). -/
def send_clean : List io_outcome → Nat → Bool
  | [], _ => true
  | o :: os, size =>
    if size = 0 then true
    else if send_again o then send_clean os size
    else
      !o.need_exit && decide (dnet_wait_fd o = 0) && decide (0 < to_int o.ret) &&
        decide (to_int o.ret ≤ (size : Int)) && send_clean os (size - (to_int o.ret).toNat)

/-- The lock of peer `st` as the worker of `st` holds it (`held`) when one
action happens: the state of the lock afterwards, or `none` when the action
breaks the discipline. Taking a lock (that of `st`, or in `dnet_trans_forward`
that of the peer written to) and calling a completion or the local request
handler need the lock of `st` free; a release of it and a `recv` on `st` need
it held; a `send` to `st` needs it held and a `send` to another peer needs it
free. -/
def lock_step (st : Nat) (held : Bool) : event → Option Bool
  | event.lock p => if held then none else some (decide (p = st))
  | event.unlock p => if p = st then (if held then some false else none) else some held
  | event.rx p _ _ => if p = st then (if held then some true else none) else some held
  | event.tx p _ _ _ => if decide (p = st) = held then some held else none
  | event.complete _ => if held then none else some false
  | event.process_cmd _ _ _ => if held then none else some false
  | event.free_trans _ => some held
  | event.free_state _ => some held

/-- The lock of peer `st` after the actions of a trace, see `lock_step`. -/
def lock_trace (st : Nat) : Bool → List event → Option Bool
  | held, [] => some held
  | held, e :: es =>
    match lock_step st held e with
    | none => none
    | some h => lock_trace st h es

/-- The trace `new` continues the trace `old` by actions that keep the lock
discipline of peer `st` and take its lock from state `held` to state `after`. -/
def lock_run (st : Nat) (held : Bool) (old new : List event) (after : Bool) : Prop :=
  ∃ es, new = old ++ es ∧ lock_trace st held es = some after

/-- The rounds `os` are one pass of `dnet_send` over the `size` bytes still to
send that goes through: every wait succeeds or times out with `need_exit`
clear, every `send` moves at least one byte and no more than is left, and the
last round sends the last byte. -/
def pass_done : List io_outcome → Nat → Bool
  | [], size => decide (size = 0)
  | o :: os, size =>
    if size = 0 then false
    else if send_again o then pass_done os size
    else
      !o.need_exit && decide (dnet_wait_fd o = 0) && decide (0 < to_int o.ret) &&
        decide (to_int o.ret ≤ (size : Int)) && pass_done os (size - (to_int o.ret).toNat)

/-- The rounds `os` are one pass of `dnet_send` over the `size` bytes still to
send that fails: rounds that time out or move some but not all of the bytes,
and then a last round that ends the pass, by an error (`send_fails`) or by
`need_exit`. -/
def pass_fails : List io_outcome → Nat → Bool
  | [], _ => false
  | o :: os, size =>
    if size = 0 then false
    else if send_again o then pass_fails os size
    else if send_fails o || o.need_exit then os.isEmpty
    else
      decide (dnet_wait_fd o = 0) && decide (0 < to_int o.ret) &&
        decide (to_int o.ret ≤ (size : Int)) && pass_fails os (size - (to_int o.ret).toNat)

/-! ## Example inputs -/

/-- A linked transaction with number `k`, issued locally on peer `7` with the
completion `3`. -/
def ex_t (k : Nat) : dnet_trans :=
  { dnet_trans_zero with trans := k, rb_parent_color := 1, st := 7, complete := 3 }

/-- A linked forwarding transaction with number `k`: no completion, the request
came from peer `8` under the number `4`. -/
def ex_fwd (k : Nat) : dnet_trans :=
  { dnet_trans_zero with trans := k, rb_parent_color := 1, st := 8, recv_trans := 4 }

/-- An index holding the transactions `9` (forwarded), `5` and `2`. -/
def ex_root : rb_node :=
  rb_node.node (rb_node.node rb_node.nil (ex_fwd 9) rb_node.nil) (ex_t 5)
    (rb_node.node rb_node.nil (ex_t 2) rb_node.nil)

/-- A node with counter `c`, the index `ex_root`, self entry `1` and every peer
state referenced twice. -/
def ex_node (c : Nat) : dnet_node := ⟨c, ex_root, 1, fun _ => 2, []⟩

/-- A node with counter `c` and an empty index. -/
def ex_empty (c : Nat) : dnet_node := ⟨c, rb_node.nil, 1, fun _ => 2, []⟩

/-- A round in which the socket is ready and `send` or `recv` moves `k` bytes. -/
def ex_ok (k : Int) : io_outcome := ⟨1, true, false, k, 0⟩

/-- A round in which the socket is ready and `send` fails with `EPIPE` (32). -/
def ex_fail : io_outcome := ⟨1, true, false, -1, 32⟩

/-- A round in which the wait times out. -/
def ex_eagain : io_outcome := ⟨0, false, false, 0, 0⟩

/-- A round in which `need_exit` is seen set after the wait. -/
def ex_exit : io_outcome := ⟨1, true, true, 0, 0⟩

/-- A header with number `trans`, flags `flags` and `size` payload bytes. -/
def ex_cmd (trans flags size : Nat) : el_cmd := ⟨0, size, trans, flags, 0⟩

/-- A call in which the header `c` arrives in one piece and its payload, when
there is one, too; allocations succeed, the routing lookup finds `route`, the
sends to the peer written to succeed in one piece each, and callbacks
return 0. -/
def ex_env (c : el_cmd) (route : Nat) : env :=
  { cmd := c
    rx := [ex_ok 1, ex_ok 88, ex_ok c.size]
    tx := [ex_ok 88, ex_ok c.size]
    malloc_trans := true
    malloc_data := true
    route := route
    process_cmd := 0
    complete := 0 }

/-- The call of `ex_env` with the connection dropped when the payload is due:
the `recv` for the payload returns 0. -/
def ex_env_cut (c : el_cmd) (route : Nat) : env :=
  { ex_env c route with rx := [ex_ok 1, ex_ok 88, ex_ok 0] }

/-- The call of `ex_env` with no memory for the payload buffer. -/
def ex_env_nomem (c : el_cmd) (route : Nat) : env :=
  { ex_env c route with malloc_data := false }

/-- The call of `ex_env` with a target socket on which every `send` fails with
`EPIPE`. -/
def ex_env_stuck (c : el_cmd) (route : Nat) : env :=
  { ex_env c route with tx := [ex_fail, ex_fail, ex_fail] }

/-- The call of `ex_env` with a target socket on which the first `send` fails
with `EPIPE` and the following ones succeed. -/
def ex_env_retry (c : el_cmd) (route : Nat) : env :=
  { ex_env c route with tx := [ex_fail, ex_ok 88, ex_ok c.size] }

/-- A round in which `poll` fails with `EINTR` (4). -/
def ex_poll_fail : io_outcome := ⟨-1, false, false, 0, 4⟩

/-- A call in which the wait of `dnet_wait` times out. -/
def ex_env_timeout : env :=
  { ex_env (ex_cmd 40 0 0) 0 with rx := [ex_eagain] }

/-- A call in which the peer has closed the connection: the `recv` for the
header returns 0. -/
def ex_env_reset : env :=
  { ex_env (ex_cmd 40 0 0) 0 with rx := [ex_ok 1, ex_ok 0] }

/-- A worker on the example node with socket 5 and the given join state, which
has done nothing yet. -/
def ex_worker (j : dnet_join_state) : worker := ⟨ex_node 12, 5, j, j, []⟩

/-! ## The index as a search tree -/

theorem cmp_neg (a b : Nat) : dnet_trans_cmp a b < 0 ↔ a < b := by
  unfold dnet_trans_cmp
  split_ifs <;> simp <;> omega

theorem cmp_pos (a b : Nat) : dnet_trans_cmp a b > 0 ↔ b < a := by
  unfold dnet_trans_cmp
  split_ifs <;> simp <;> omega

theorem rb_all_iff (p : dnet_trans → Bool) (root : rb_node) :
    rb_all p root = true ↔ ∀ x ∈ rb_list root, p x = true := by
  induction root with
  | nil => simp [rb_all, rb_list]
  | node l t r ihl ihr =>
    simp only [rb_all, rb_list, Bool.and_eq_true, ihl, ihr, List.mem_append, List.mem_cons]
    constructor
    · rintro ⟨⟨h1, h2⟩, h3⟩ x (hx | rfl | hx)
      · exact h1 x hx
      · exact h2
      · exact h3 x hx
    · intro h
      exact ⟨⟨fun x hx => h x (Or.inl hx), h t (Or.inr (Or.inl rfl))⟩,
        fun x hx => h x (Or.inr (Or.inr hx))⟩

theorem search_some (root : rb_node) (k : Nat) (x : dnet_trans)
    (h : dnet_trans_search root k = some x) : x ∈ rb_list root ∧ x.trans = k := by
  induction root with
  | nil => simp [dnet_trans_search] at h
  | node l t r ihl ihr =>
    simp only [dnet_trans_search, cmp_neg, gt_iff_lt, cmp_pos] at h
    simp only [rb_list, List.mem_append, List.mem_cons]
    split_ifs at h with h1 h2
    · exact ⟨Or.inl (ihl h).1, (ihl h).2⟩
    · exact ⟨Or.inr (Or.inr (ihr h).1), (ihr h).2⟩
    · simp only [Option.some.injEq] at h
      subst h
      exact ⟨Or.inr (Or.inl rfl), by omega⟩

theorem search_of_mem (root : rb_node) (x : dnet_trans) (ho : rb_ordered root = true)
    (hx : x ∈ rb_list root) : dnet_trans_search root x.trans = some x := by
  induction root with
  | nil => simp [rb_list] at hx
  | node l t r ihl ihr =>
    simp only [rb_ordered, Bool.and_eq_true, rb_all_iff, decide_eq_true_eq] at ho
    obtain ⟨⟨⟨hl, hr⟩, hol⟩, hor⟩ := ho
    simp only [rb_list, List.mem_append, List.mem_cons] at hx
    simp only [dnet_trans_search, cmp_neg, gt_iff_lt, cmp_pos]
    rcases hx with hx | rfl | hx
    · rw [if_pos (hl x hx)]
      exact ihl hol hx
    · simp
    · have := hr x hx
      rw [if_neg (by omega), if_pos this]
      exact ihr hor hx

theorem search_none_iff (root : rb_node) (k : Nat) (ho : rb_ordered root = true) :
    dnet_trans_search root k = none ↔ ∀ x ∈ rb_list root, x.trans ≠ k := by
  constructor
  · intro h x hx hk
    have := search_of_mem root x ho hx
    rw [hk, h] at this
    exact Option.noConfusion this
  · intro h
    cases hs : dnet_trans_search root k with
    | none => rfl
    | some x => exact absurd (search_some root k x hs).2 (h x (search_some root k x hs).1)

theorem insert_raw_dup (root : rb_node) (a x : dnet_trans)
    (h : dnet_trans_search root a.trans = some x) :
    dnet_trans_insert_raw root a = (-EEXIST, root) := by
  induction root with
  | nil => simp [dnet_trans_search] at h
  | node l t r ihl ihr =>
    simp only [dnet_trans_search] at h
    simp only [dnet_trans_insert_raw]
    split_ifs at h ⊢ with h1 h2
    · rw [ihl h]
    · rw [ihr h]
    · rfl

theorem insert_raw_new (root : rb_node) (a : dnet_trans)
    (h : dnet_trans_search root a.trans = none) :
    (dnet_trans_insert_raw root a).1 = 0 := by
  induction root with
  | nil => simp [dnet_trans_insert_raw]
  | node l t r ihl ihr =>
    simp only [dnet_trans_search] at h
    simp only [dnet_trans_insert_raw]
    split_ifs at h ⊢ with h1 h2
    · exact ihl h
    · exact ihr h

theorem search_insert_raw_self (root : rb_node) (a : dnet_trans)
    (h : dnet_trans_search root a.trans = none) :
    dnet_trans_search (dnet_trans_insert_raw root a).2 a.trans
      = some { a with rb_parent_color := 1 } := by
  induction root with
  | nil => simp [dnet_trans_insert_raw, dnet_trans_search, dnet_trans_cmp]
  | node l t r ihl ihr =>
    simp only [dnet_trans_search] at h
    simp only [dnet_trans_insert_raw]
    split_ifs at h ⊢ with h1 h2
    · simp only [dnet_trans_search, if_pos h1]
      exact ihl h
    · simp only [dnet_trans_search, if_neg h1, if_pos h2]
      exact ihr h

theorem search_insert_raw_other (root : rb_node) (a : dnet_trans) (k : Nat)
    (hk : k ≠ a.trans) :
    dnet_trans_search (dnet_trans_insert_raw root a).2 k = dnet_trans_search root k := by
  induction root with
  | nil =>
    simp only [dnet_trans_insert_raw, dnet_trans_search, cmp_neg, gt_iff_lt, cmp_pos]
    split_ifs <;> first | rfl | omega
  | node l t r ihl ihr =>
    simp only [dnet_trans_insert_raw]
    split_ifs with h1 h2
    · simp only [dnet_trans_search, ihl]
    · simp only [dnet_trans_search, ihr]
    · rfl

theorem mem_insert_raw (root : rb_node) (a x : dnet_trans)
    (h : dnet_trans_search root a.trans = none) :
    x ∈ rb_list (dnet_trans_insert_raw root a).2
      ↔ x = { a with rb_parent_color := 1 } ∨ x ∈ rb_list root := by
  induction root with
  | nil => simp [dnet_trans_insert_raw, rb_list]
  | node l t r ihl ihr =>
    simp only [dnet_trans_search] at h
    simp only [dnet_trans_insert_raw]
    split_ifs at h ⊢ with h1 h2
    · simp only [rb_list, List.mem_append, List.mem_cons, ihl h]
      tauto
    · simp only [rb_list, List.mem_append, List.mem_cons, ihr h]
      tauto

theorem insert_raw_all (p : dnet_trans → Bool) (root : rb_node) (a : dnet_trans)
    (h : dnet_trans_search root a.trans = none) (hp : p { a with rb_parent_color := 1 } = true)
    (hr : rb_all p root = true) : rb_all p (dnet_trans_insert_raw root a).2 = true := by
  rw [rb_all_iff] at hr ⊢
  intro x hx
  rcases (mem_insert_raw root a x h).1 hx with rfl | hx
  · exact hp
  · exact hr x hx

theorem insert_raw_ordered (root : rb_node) (a : dnet_trans) (ho : rb_ordered root = true) :
    rb_ordered (dnet_trans_insert_raw root a).2 = true := by
  induction root with
  | nil => simp [dnet_trans_insert_raw, rb_ordered, rb_all]
  | node l t r ihl ihr =>
    have ho' := ho
    simp only [rb_ordered, Bool.and_eq_true] at ho'
    obtain ⟨⟨⟨hl, hr⟩, hol⟩, hor⟩ := ho'
    simp only [dnet_trans_insert_raw]
    split_ifs with h1 h2
    · simp only [rb_ordered, Bool.and_eq_true]
      refine ⟨⟨⟨?_, hr⟩, ihl hol⟩, hor⟩
      cases hs : dnet_trans_search l a.trans with
      | none =>
        exact insert_raw_all _ l a hs (by simpa [cmp_neg] using h1) hl
      | some x => rw [insert_raw_dup l a x hs]; exact hl
    · simp only [rb_ordered, Bool.and_eq_true]
      refine ⟨⟨⟨hl, ?_⟩, hol⟩, ihr hor⟩
      cases hs : dnet_trans_search r a.trans with
      | none =>
        exact insert_raw_all _ r a hs (by simpa [cmp_pos] using h2) hr
      | some x => rw [insert_raw_dup r a x hs]; exact hr
    · exact ho

theorem ordered_pairwise (root : rb_node) (ho : rb_ordered root = true) :
    (rb_list root).Pairwise (fun x y => y.trans < x.trans) := by
  induction root with
  | nil => simp [rb_list]
  | node l t r ihl ihr =>
    simp only [rb_ordered, Bool.and_eq_true, rb_all_iff, decide_eq_true_eq] at ho
    obtain ⟨⟨⟨hl, hr⟩, hol⟩, hor⟩ := ho
    simp only [rb_list, List.pairwise_append, List.pairwise_cons, List.mem_cons]
    refine ⟨ihl hol, ⟨hr, ihr hor⟩, ?_⟩
    rintro x hx y (rfl | hy)
    · exact hl x hx
    · exact lt_trans (hr y hy) (hl x hx)

theorem ordered_nodup (root : rb_node) (ho : rb_ordered root = true) :
    ((rb_list root).map (fun x => x.trans)).Nodup := by
  rw [List.Nodup, List.pairwise_map]
  exact (ordered_pairwise root ho).imp (fun h => by omega)

/-! ## C1: `dnet_trans_insert` -/

theorem mask_eq (c : Nat) : c &&& DNET_TRANS_MASK = c % 2 ^ 63 := by
  have : DNET_TRANS_MASK = 2 ^ 63 - 1 := by decide
  rw [this, Nat.and_pow_two_sub_one_eq_mod]

theorem clear_bit (c : Nat) (hc : c < 2 ^ 64) (i : Nat) :
    (c % 2 ^ 63).testBit i = (decide (i ≠ 63) && c.testBit i) := by
  rw [Nat.testBit_mod_two_pow]
  by_cases h : i < 63
  · simp [h, Nat.ne_of_lt h]
  · by_cases h2 : i = 63
    · simp [h2]
    · have h3 : 64 ≤ i := by omega
      have : c.testBit i = false :=
        Nat.testBit_lt_two_pow (lt_of_lt_of_le hc (Nat.pow_le_pow_right (by decide) h3))
      simp [h, this]

/-- C1: `dnet_trans_insert` sets `t.trans` to the counter value `c` with bit 63
(the REPLY bit) cleared and advances the counter to `c + 1` (a `__u64`
increment); it returns 0 with `t` in the index when no indexed transaction has
that number, and `-EEXIST` with the index unchanged when one has; the index
stays a search tree, so it never holds two transactions with one number. -/
theorem dnet_trans_insert_contract (n : dnet_node) (t : dnet_trans)
    (hc : n.trans < 2 ^ 64) (ho : rb_ordered n.trans_root = true) :
    (dnet_trans_insert n t).2.2.trans = n.trans % 2 ^ 63 ∧
    (∀ i, (dnet_trans_insert n t).2.2.trans.testBit i = (decide (i ≠ 63) && n.trans.testBit i)) ∧
    (dnet_trans_insert n t).2.1.trans = (n.trans + 1) % 2 ^ 64 ∧
    ((∀ x ∈ rb_list n.trans_root, x.trans ≠ n.trans % 2 ^ 63) →
      (dnet_trans_insert n t).1 = 0 ∧
      (dnet_trans_insert n t).2.2 = { t with trans := n.trans % 2 ^ 63, rb_parent_color := 1 } ∧
      dnet_trans_search (dnet_trans_insert n t).2.1.trans_root (n.trans % 2 ^ 63)
        = some (dnet_trans_insert n t).2.2 ∧
      (∀ x, x ∈ rb_list (dnet_trans_insert n t).2.1.trans_root
        ↔ x = (dnet_trans_insert n t).2.2 ∨ x ∈ rb_list n.trans_root)) ∧
    ((∃ x ∈ rb_list n.trans_root, x.trans = n.trans % 2 ^ 63) →
      (dnet_trans_insert n t).1 = -EEXIST ∧
      (dnet_trans_insert n t).2.1.trans_root = n.trans_root) ∧
    rb_ordered (dnet_trans_insert n t).2.1.trans_root = true ∧
    ((rb_list (dnet_trans_insert n t).2.1.trans_root).map (fun x => x.trans)).Nodup := by
  have hord : rb_ordered (dnet_trans_insert n t).2.1.trans_root = true := by
    simp only [dnet_trans_insert]
    exact insert_raw_ordered _ _ ho
  have htr : (dnet_trans_insert n t).2.2.trans = n.trans % 2 ^ 63 := by
    simp only [dnet_trans_insert]
    split_ifs <;> exact mask_eq n.trans
  refine ⟨htr, ?_, rfl, ?_, ?_, hord, ordered_nodup _ hord⟩
  · intro i
    rw [htr]
    exact clear_bit n.trans hc i
  · intro hnew
    have hs : dnet_trans_search n.trans_root
        ({ t with trans := n.trans &&& DNET_TRANS_MASK } : dnet_trans).trans = none := by
      rw [search_none_iff _ _ ho]
      intro x hx
      rw [show ({ t with trans := n.trans &&& DNET_TRANS_MASK } : dnet_trans).trans
        = n.trans % 2 ^ 63 from mask_eq n.trans]
      exact hnew x hx
    have h0 := insert_raw_new _ _ hs
    have h1 := search_insert_raw_self _ _ hs
    have h2 := fun x => mem_insert_raw _ _ x hs
    have he : (dnet_trans_insert n t).2.2
        = { t with trans := n.trans % 2 ^ 63, rb_parent_color := 1 } := by
      simp only [dnet_trans_insert, h0, if_true]
      rw [mask_eq]
    refine ⟨h0, he, ?_, ?_⟩
    · rw [he]
      simp only [dnet_trans_insert]
      rw [← mask_eq]
      exact h1
    · intro x
      rw [he]
      simp only [dnet_trans_insert]
      rw [← mask_eq]
      exact h2 x
  · rintro ⟨x, hx, hk⟩
    have hs : dnet_trans_search n.trans_root
        ({ t with trans := n.trans &&& DNET_TRANS_MASK } : dnet_trans).trans = some x := by
      rw [show ({ t with trans := n.trans &&& DNET_TRANS_MASK } : dnet_trans).trans
        = n.trans % 2 ^ 63 from mask_eq n.trans, ← hk]
      exact search_of_mem _ x ho hx
    have h0 := insert_raw_dup _ _ x hs
    simp only [dnet_trans_insert, h0]
    exact ⟨trivial, trivial⟩

/-- Witness of C1 on the node with counter 12 and index 9, 5, 2. -/
theorem dnet_trans_insert_contract_witness :
    (ex_node 12).trans < 2 ^ 64 ∧ rb_ordered (ex_node 12).trans_root = true ∧
    (dnet_trans_insert (ex_node 12) dnet_trans_zero).2.2.trans = 12 ∧
    (dnet_trans_insert (ex_node 12) dnet_trans_zero).2.1.trans = 13 ∧
    rb_ordered (dnet_trans_insert (ex_node 12) dnet_trans_zero).2.1.trans_root = true :=
  ⟨by decide, by decide,
   (dnet_trans_insert_contract (ex_node 12) dnet_trans_zero (by decide) (by decide)).1,
   (dnet_trans_insert_contract (ex_node 12) dnet_trans_zero (by decide) (by decide)).2.2.1,
   (dnet_trans_insert_contract (ex_node 12) dnet_trans_zero (by decide) (by decide)).2.2.2.2.2.1⟩

/-! ## C2: allocation of transaction numbers -/

theorem insert_counter (n : dnet_node) (t : dnet_trans) :
    (dnet_trans_insert n t).2.1.trans = (n.trans + 1) % 2 ^ 64 := rfl

theorem insert_trans (n : dnet_node) (t : dnet_trans) :
    (dnet_trans_insert n t).2.2.trans = n.trans % 2 ^ 63 := by
  simp only [dnet_trans_insert]
  split_ifs <;> exact mask_eq n.trans

theorem insert_ret (n : dnet_node) (t : dnet_trans) :
    (dnet_trans_insert n t).1 = 0 ∨ (dnet_trans_insert n t).1 = -EEXIST := by
  simp only [dnet_trans_insert]
  cases hs : dnet_trans_search n.trans_root
      ({ t with trans := n.trans &&& DNET_TRANS_MASK } : dnet_trans).trans with
  | none => exact Or.inl (insert_raw_new _ _ hs)
  | some x => rw [insert_raw_dup _ _ x hs]; exact Or.inr rfl

theorem insert_run_ids (ts : List dnet_trans) :
    ∀ n : dnet_node, n.trans + ts.length ≤ 2 ^ 63 →
      (insert_run n ts).2.map (fun p => p.2) = List.range' n.trans ts.length ∧
      (insert_run n ts).1.trans = n.trans + ts.length := by
  induction ts with
  | nil => intro n _; simp [insert_run]
  | cons t ts ih =>
    intro n h
    simp only [List.length_cons] at h
    have h1 : (dnet_trans_insert n t).2.1.trans = n.trans + 1 := by
      rw [insert_counter]; omega
    have h2 : (dnet_trans_insert n t).2.2.trans = n.trans := by
      rw [insert_trans]; omega
    have := ih (dnet_trans_insert n t).2.1 (by rw [h1]; omega)
    simp only [insert_run, List.map_cons, List.length_cons, List.range'_succ, h2, this.1, h1,
      this.2]
    exact ⟨trivial, by omega⟩

theorem insert_run_ids_any (ts : List dnet_trans) :
    ∀ n : dnet_node,
      (insert_run n ts).2.map (fun p => p.2)
        = (List.range ts.length).map (fun i => (n.trans + i) % 2 ^ 63) := by
  induction ts with
  | nil => intro n; simp [insert_run]
  | cons t ts ih =>
    intro n
    simp only [insert_run, List.map_cons, List.length_cons, List.range_succ_eq_map,
      List.map_map, insert_trans, ih, insert_counter, Nat.add_zero]
    refine congrArg _ (List.map_congr_left ?_)
    intro i _
    simp only [Function.comp]
    omega

theorem run_ids_nodup (c len : Nat) :
    ((List.range len).map (fun i => (c + i) % 2 ^ 63)).Nodup ↔ len ≤ 2 ^ 63 := by
  constructor
  · intro h
    by_contra hl
    have := List.inj_on_of_nodup_map h (x := 0) (by simp; omega) (y := 2 ^ 63)
      (by simp; omega) (by simp)
    omega
  · intro hl
    refine List.Nodup.map_on ?_ (List.nodup_range _)
    intro x hx y hy hxy
    simp only [List.mem_range] at hx hy
    omega

theorem run_ids_increasing (c len : Nat) :
    ((List.range len).map (fun i => (c + i) % 2 ^ 63)).Pairwise (fun a b => a < b) ↔
      (len ≤ 1 ∨ c % 2 ^ 63 + len ≤ 2 ^ 63) := by
  rw [List.pairwise_map]
  constructor
  · intro h
    by_contra hl
    have hl1 : ¬ len ≤ 1 := fun x => hl (Or.inl x)
    have hl2 : ¬ c % 2 ^ 63 + len ≤ 2 ^ 63 := fun x => hl (Or.inr x)
    have h1 : 2 ^ 63 - 1 - c % 2 ^ 63 + 1 < (List.range len).length := by
      rw [List.length_range]; omega
    have := List.pairwise_iff_get.1 h ⟨2 ^ 63 - 1 - c % 2 ^ 63, by omega⟩
      ⟨2 ^ 63 - 1 - c % 2 ^ 63 + 1, h1⟩ (by simp)
    simp only [List.get_eq_getElem, List.getElem_range] at this
    omega
  · intro hl
    refine (List.pairwise_lt_range len).imp_of_mem ?_
    intro a b ha hb hab
    simp only [List.mem_range] at ha hb
    omega

/-- C2 (amended): for every starting value `c` of the counter the `i`-th call of
a run of `dnet_trans_insert` calls assigns the number `(c + i) mod 2^63`. No
number is assigned twice exactly when the run has at most `2^63` calls, and
each number is larger than all earlier ones exactly when the run does not pass
a multiple of `2^63` (or has at most one call). Nothing aborts at the end of
the 63-bit range: with the counter at `2^63` the call assigns the wrapped
number 0 and returns 0 or `-EEXIST`. -/
theorem insert_run_increasing (n : dnet_node) (ts : List dnet_trans) :
    (insert_run n ts).2.map (fun p => p.2)
      = (List.range ts.length).map (fun i => (n.trans + i) % 2 ^ 63) ∧
    (((insert_run n ts).2.map (fun p => p.2)).Nodup ↔ ts.length ≤ 2 ^ 63) ∧
    (((insert_run n ts).2.map (fun p => p.2)).Pairwise (fun a b => a < b) ↔
      (ts.length ≤ 1 ∨ n.trans % 2 ^ 63 + ts.length ≤ 2 ^ 63)) ∧
    (n.trans + ts.length ≤ 2 ^ 63 →
      (insert_run n ts).2.map (fun p => p.2) = List.range' n.trans ts.length ∧
      (insert_run n ts).1.trans = n.trans + ts.length) ∧
    (∀ (m : dnet_node) (t : dnet_trans), m.trans = 2 ^ 63 →
      (dnet_trans_insert m t).2.2.trans = 0 ∧
      ((dnet_trans_insert m t).1 = 0 ∨ (dnet_trans_insert m t).1 = -EEXIST)) := by
  refine ⟨insert_run_ids_any ts n, ?_, ?_, insert_run_ids ts n, ?_⟩
  · rw [insert_run_ids_any]; exact run_ids_nodup _ _
  · rw [insert_run_ids_any]; exact run_ids_increasing _ _
  · intro m t hm
    refine ⟨?_, insert_ret m t⟩
    rw [insert_trans, hm]
    decide

/-- Witness of C2 (amended): three calls from counter 12 assign 12, 13, 14, and
two calls from counter `2^63 + 5` assign 5 and 6, again in increasing order. -/
theorem insert_run_increasing_witness :
    (ex_node 12).trans + [dnet_trans_zero, dnet_trans_zero, dnet_trans_zero].length ≤ 2 ^ 63 ∧
    (insert_run (ex_node 12) [dnet_trans_zero, dnet_trans_zero, dnet_trans_zero]).2.map
      (fun p => p.2) = List.range' 12 3 ∧
    ((insert_run (ex_node 12) [dnet_trans_zero, dnet_trans_zero, dnet_trans_zero]).2.map
      (fun p => p.2)).Nodup ∧
    (insert_run (ex_empty (2 ^ 63 + 5)) [dnet_trans_zero, dnet_trans_zero]).2
      = [(0, 5), (0, 6)] ∧
    ((insert_run (ex_empty (2 ^ 63 + 5)) [dnet_trans_zero, dnet_trans_zero]).2.map
      (fun p => p.2)).Pairwise (fun a b => a < b) :=
  ⟨by decide,
   ((insert_run_increasing (ex_node 12) [dnet_trans_zero, dnet_trans_zero, dnet_trans_zero]
     ).2.2.2.1 (by decide)).1,
   (insert_run_increasing (ex_node 12) [dnet_trans_zero, dnet_trans_zero, dnet_trans_zero]
     ).2.1.2 (by decide),
   by decide,
   (insert_run_increasing (ex_empty (2 ^ 63 + 5)) [dnet_trans_zero, dnet_trans_zero]
     ).2.2.1.2 (Or.inr (by decide))⟩

/-- C2 (counterexample): from counter `2^63 - 1` two calls on an empty index both
return 0; the first assigns `2^63 - 1`, the second the wrapped number 0, which is
smaller. -/
theorem insert_run_wraps :
    (insert_run (ex_empty (2 ^ 63 - 1)) [dnet_trans_zero, dnet_trans_zero]).2
      = [(0, 2 ^ 63 - 1), (0, 0)] := by
  decide

/-! ## Results on the framed I/O -/

theorem to_int_fits (x : Int) (h1 : -2147483648 ≤ x) (h2 : x < 2147483648) : to_int x = x := by
  unfold to_int
  omega

theorem to_int_wraps (x : Int) (h1 : 2147483648 ≤ x) (h2 : x < 4294967296) :
    to_int x = x - 4294967296 ∧ to_int x < 0 := by
  unfold to_int
  omega

theorem recv_at_narrow (o : io_outcome) (os : List io_outcome) (size off : Nat)
    (hsize : size ≠ 0) (hx : o.need_exit = false) (hw : dnet_wait_fd o = 0)
    (h1 : 2147483648 ≤ o.ret) (h2 : o.ret < 4294967296) :
    dnet_recv_at (o :: os) size off = ⟨some (o.ret - 4294967296), os, []⟩ := by
  obtain ⟨e1, e2⟩ := to_int_wraps o.ret h1 h2
  have h3 : ¬ dnet_wait_fd o = -EAGAIN := by rw [hw]; decide
  have h4 : ¬ dnet_wait_fd o < 0 := by rw [hw]; decide
  simp only [dnet_recv_at, if_neg hsize, hx, Bool.false_eq_true, if_false, if_neg h3, if_neg h4,
    e1]
  rw [if_pos (by omega)]

theorem wait_le (o : io_outcome) : dnet_wait_fd o ≤ 0 := by
  unfold dnet_wait_fd EAGAIN EINVAL
  split_ifs <;> omega

theorem send_at_ret (orig : Nat) (os : List io_outcome) :
    ∀ size off, (dnet_send_at orig os size off).ret = none ∨
      (dnet_send_at orig os size off).ret = some 0 := by
  induction os with
  | nil => intro size off; simp only [dnet_send_at]; split_ifs <;> simp
  | cons o os ih =>
    intro size off
    simp only [dnet_send_at]
    split_ifs <;> first | exact ih _ _ | simp

theorem send_ret (os : List io_outcome) (size : Nat) :
    (dnet_send os size).ret = none ∨ (dnet_send os size).ret = some 0 :=
  send_at_ret _ os _ _

theorem send_at_again (orig size off : Nat) (o : io_outcome) (os : List io_outcome)
    (hsize : size ≠ 0) (h : send_again o = true) :
    dnet_send_at orig (o :: os) size off = dnet_send_at orig os size off := by
  simp only [send_again, Bool.and_eq_true, Bool.not_eq_true', decide_eq_true_eq] at h
  simp only [dnet_send_at, if_neg hsize, h.1, h.2, if_true, Bool.false_eq_true, if_false]

theorem send_at_fails (orig size off : Nat) (o : io_outcome) (os : List io_outcome)
    (hsize : size ≠ 0) (h : send_fails o = true) :
    dnet_send_at orig (o :: os) size off = dnet_send_at orig os orig 0 := by
  simp only [send_fails, Bool.and_eq_true, Bool.or_eq_true, Bool.not_eq_true',
    decide_eq_true_eq] at h
  obtain ⟨hx, h⟩ := h
  simp only [dnet_send_at, if_neg hsize, hx, Bool.false_eq_true, if_false]
  rcases h with ⟨h1, h2⟩ | ⟨h1, h2⟩
  · rw [if_neg h2, if_pos h1]
  · have h3 : ¬ dnet_wait_fd o = -EAGAIN := by rw [h1]; decide
    have h4 : ¬ dnet_wait_fd o < 0 := by rw [h1]; decide
    rw [if_neg h3, if_neg h4]
    rcases h2 with ⟨h5, h6⟩ | h5
    · rw [if_pos h5, if_neg (by omega)]
    · rw [if_neg (by omega), if_pos h5]

theorem send_at_moves (orig size off k : Nat) (o : io_outcome) (os : List io_outcome)
    (hsize : size ≠ 0) (hk : k ≠ 0) (h : send_moves o k = true) :
    dnet_send_at orig (o :: os) size off
      = ⟨(dnet_send_at orig os (u32_sub size k) (off + k)).ret,
         (dnet_send_at orig os (u32_sub size k) (off + k)).rest,
         (off, k) :: (dnet_send_at orig os (u32_sub size k) (off + k)).log⟩ := by
  simp only [send_moves, Bool.and_eq_true, Bool.not_eq_true', decide_eq_true_eq] at h
  obtain ⟨⟨hx, h1⟩, h2⟩ := h
  have h3 : ¬ dnet_wait_fd o = -EAGAIN := by rw [h1]; decide
  have h4 : ¬ dnet_wait_fd o < 0 := by rw [h1]; decide
  simp only [dnet_send_at, if_neg hsize, hx, Bool.false_eq_true, if_false, if_neg h3, if_neg h4,
    h2]
  rw [if_neg (by omega), if_neg (by omega)]
  simp

/-! ## C9: restart of `dnet_send` -/

/-- C9 (amended): with bytes left to send, `dnet_send` goes on at the current
offset after an `EAGAIN` wakeup; after a round that fails the pass (a wait
error, a `send` error, a dropped connection) it starts again from offset 0 with
the whole length instead of returning, also when bytes were already sent: after
`k` bytes and a failed round the rest of the call is a complete new `dnet_send`
of the buffer, which transmits those `k` bytes again. The error is not
returned: whenever `dnet_send` returns, it returns 0. -/
theorem dnet_send_restarts (orig size off : Nat) (o : io_outcome) (os : List io_outcome)
    (hsize : size ≠ 0) :
    (send_again o = true →
      dnet_send_at orig (o :: os) size off = dnet_send_at orig os size off) ∧
    (send_fails o = true →
      dnet_send_at orig (o :: os) size off = dnet_send_at orig os orig 0) ∧
    (∀ (k : Nat) (o1 : io_outcome), 0 < k → k < size → size < 4294967296 →
      send_moves o1 k = true → send_fails o = true →
      dnet_send (o1 :: o :: os) size
        = ⟨(dnet_send os size).ret, (dnet_send os size).rest, (0, k) :: (dnet_send os size).log⟩) ∧
    ((dnet_send (o :: os) size).ret = none ∨ (dnet_send (o :: os) size).ret = some 0) := by
  refine ⟨send_at_again orig size off o os hsize, send_at_fails orig size off o os hsize, ?_,
    send_ret _ _⟩
  intro k o1 hk hks hs hm hf
  have hmod : size % 4294967296 = size := Nat.mod_eq_of_lt hs
  have hsub : u32_sub size (k : Int) ≠ 0 := by
    unfold u32_sub
    omega
  simp only [dnet_send, hmod]
  rw [send_at_moves size size 0 k o1 (o :: os) hsize (by omega) hm,
    send_at_fails size _ _ o os hsub hf]

/-- Witness of C9 (amended): 2 of 4 bytes sent, then `send` fails with `EPIPE`. -/
theorem dnet_send_restarts_witness :
    (4 : Nat) ≠ 0 ∧ send_fails ex_fail = true ∧
    dnet_send_at 4 (ex_fail :: [ex_ok 4]) 4 2 = dnet_send_at 4 [ex_ok 4] 4 0 :=
  ⟨by decide, by decide,
   (dnet_send_restarts 4 4 2 ex_fail [ex_ok 4] (by decide)).2.1 (by decide)⟩

/-- C9 (counterexample): 2 of 4 bytes are sent, the next `send` fails with
`EPIPE`; `dnet_send` does not return the error: it sends the buffer again from
offset 0, bytes 0 and 1 for the second time, and returns 0. -/
theorem dnet_send_resends :
    dnet_send [ex_ok 2, ex_fail, ex_ok 4] 4 = ⟨some 0, [], [(0, 2), (0, 4)]⟩ := by
  decide

/-! ## C10: the shutdown flag in the transfer loops -/

theorem recv_at_exit (o : io_outcome) (os : List io_outcome) (size off : Nat)
    (hsize : size ≠ 0) (h : o.need_exit = true) :
    dnet_recv_at (o :: os) size off = ⟨some (- EIO), os, []⟩ := by
  simp only [dnet_recv_at, if_neg hsize, h, if_true]

theorem send_at_need_exit (orig size off : Nat) (o : io_outcome) (os : List io_outcome)
    (hsize : size ≠ 0) (h : o.need_exit = true) :
    dnet_send_at orig (o :: os) size off = dnet_send_at orig os orig 0 := by
  simp only [dnet_send_at, if_neg hsize, h, if_true]

theorem send_at_exit (orig : Nat) (k : Nat) :
    ∀ size off, orig ≠ 0 → size ≠ 0 →
      dnet_send_at orig (List.replicate k ex_exit) size off = ⟨none, [], []⟩ := by
  induction k with
  | zero => intro size off _ hs; simp [dnet_send_at, hs]
  | succ k ih =>
    intro size off ho hs
    simp only [List.replicate_succ, dnet_send_at, if_neg hs]
    simp only [ex_exit, if_true]
    exact ih orig 0 ho ho

/-- C10: with 4 bytes to transfer and `need_exit` seen set after the first wait,
`dnet_recv` returns `-EIO` at once, having received nothing; `dnet_send` does
not: it starts its loop again, so it goes on to send the whole buffer when the
flag is seen clear afterwards, and as long as the flag stays set it never
returns. -/
theorem need_exit_recv_returns_send_loops :
    dnet_recv [ex_exit, ex_ok 4] 4 = ⟨some (- EIO), [ex_ok 4], []⟩ ∧
    dnet_send [ex_exit, ex_ok 4] 4 = ⟨some 0, [], [(0, 4)]⟩ ∧
    ∀ k : Nat, dnet_send (List.replicate k ex_exit) 4 = ⟨none, [], []⟩ := by
  refine ⟨by decide, by decide, ?_⟩
  intro k
  exact send_at_exit 4 k 4 0 (by decide) (by decide)

/-! ## Write-through and removal in the index -/

theorem search_store_self (root : rb_node) (a x : dnet_trans)
    (h : dnet_trans_search root a.trans = some x) :
    dnet_trans_search (rb_store root a) a.trans = some a := by
  induction root with
  | nil => simp [dnet_trans_search] at h
  | node l t r ihl ihr =>
    simp only [dnet_trans_search] at h
    simp only [rb_store]
    split_ifs at h ⊢ with h1 h2
    · simp only [dnet_trans_search, if_pos h1]
      exact ihl h
    · simp only [dnet_trans_search, if_neg h1, if_pos h2]
      exact ihr h
    · simp [dnet_trans_search, dnet_trans_cmp]

theorem search_store_other (root : rb_node) (a : dnet_trans) (k : Nat) (hk : k ≠ a.trans) :
    dnet_trans_search (rb_store root a) k = dnet_trans_search root k := by
  induction root with
  | nil => rfl
  | node l t r ihl ihr =>
    simp only [rb_store]
    split_ifs with h1 h2
    · simp only [dnet_trans_search, ihl]
    · simp only [dnet_trans_search, ihr]
    · have ht : t.trans = a.trans := by
        simp only [cmp_neg, gt_iff_lt, cmp_pos] at h1 h2
        omega
      simp only [dnet_trans_search, ht, cmp_neg, gt_iff_lt, cmp_pos]
      have h3 : ¬ a.trans < k ∨ ¬ k < a.trans := by omega
      split_ifs <;> first | rfl | omega

theorem mem_store (root : rb_node) (a x : dnet_trans) (hx : x ∈ rb_list (rb_store root a)) :
    x = a ∨ x ∈ rb_list root := by
  induction root with
  | nil => simp [rb_store, rb_list] at hx
  | node l t r ihl ihr =>
    simp only [rb_store] at hx
    simp only [rb_list, List.mem_append, List.mem_cons]
    split_ifs at hx with h1 h2
    · simp only [rb_list, List.mem_append, List.mem_cons] at hx
      rcases hx with hx | hx | hx
      · rcases ihl hx with h | h
        · exact Or.inl h
        · exact Or.inr (Or.inl h)
      · exact Or.inr (Or.inr (Or.inl hx))
      · exact Or.inr (Or.inr (Or.inr hx))
    · simp only [rb_list, List.mem_append, List.mem_cons] at hx
      rcases hx with hx | hx | hx
      · exact Or.inr (Or.inl hx)
      · exact Or.inr (Or.inr (Or.inl hx))
      · rcases ihr hx with h | h
        · exact Or.inl h
        · exact Or.inr (Or.inr (Or.inr h))
    · simp only [rb_list, List.mem_append, List.mem_cons] at hx
      rcases hx with hx | hx | hx
      · exact Or.inr (Or.inl hx)
      · exact Or.inl hx
      · exact Or.inr (Or.inr (Or.inr hx))

theorem store_all (p : dnet_trans → Bool) (root : rb_node) (a : dnet_trans)
    (hp : ∀ t, t.trans = a.trans → p t = true → p a = true) (hr : rb_all p root = true) :
    rb_all p (rb_store root a) = true := by
  induction root with
  | nil => rfl
  | node l t r ihl ihr =>
    simp only [rb_all, Bool.and_eq_true] at hr
    obtain ⟨⟨hl, ht⟩, hr⟩ := hr
    simp only [rb_store]
    split_ifs with h1 h2
    · simp only [rb_all, Bool.and_eq_true]
      exact ⟨⟨ihl hl, ht⟩, hr⟩
    · simp only [rb_all, Bool.and_eq_true]
      exact ⟨⟨hl, ht⟩, ihr hr⟩
    · have hta : t.trans = a.trans := by
        simp only [cmp_neg, gt_iff_lt, cmp_pos] at h1 h2
        omega
      simp only [rb_all, Bool.and_eq_true]
      exact ⟨⟨hl, hp t hta ht⟩, hr⟩

theorem store_ordered (root : rb_node) (a : dnet_trans) (ho : rb_ordered root = true) :
    rb_ordered (rb_store root a) = true := by
  induction root with
  | nil => rfl
  | node l t r ihl ihr =>
    have ho' := ho
    simp only [rb_ordered, Bool.and_eq_true] at ho'
    obtain ⟨⟨⟨hl, hr⟩, hol⟩, hor⟩ := ho'
    simp only [rb_store]
    split_ifs with h1 h2
    · simp only [rb_ordered, Bool.and_eq_true]
      refine ⟨⟨⟨store_all _ l a ?_ hl, hr⟩, ihl hol⟩, hor⟩
      intro x hx hpx
      simp only [cmp_neg] at h1
      simpa using h1
    · simp only [rb_ordered, Bool.and_eq_true]
      refine ⟨⟨⟨hl, store_all _ r a ?_ hr⟩, hol⟩, ihr hor⟩
      intro x hx hpx
      simp only [gt_iff_lt, cmp_pos] at h2
      simpa using h2
    · have hta : t.trans = a.trans := by
        simp only [cmp_neg, gt_iff_lt, cmp_pos] at h1 h2
        omega
      simp only [rb_ordered, Bool.and_eq_true, ← hta]
      exact ⟨⟨⟨hl, hr⟩, hol⟩, hor⟩

theorem store_wf (root : rb_node) (a : dnet_trans) (hw : registry_wf root = true)
    (hc : a.rb_parent_color ≠ 0) (hs : a.st ≠ 0) : registry_wf (rb_store root a) = true := by
  simp only [registry_wf, Bool.and_eq_true] at hw ⊢
  refine ⟨store_ordered root a hw.1, store_all _ root a ?_ hw.2⟩
  intro t _ _
  simp [hc, hs]

theorem list_join (l r : rb_node) : rb_list (rb_join l r) = rb_list l ++ rb_list r := by
  induction l with
  | nil => simp [rb_join, rb_list]
  | node a t b _ ihb => simp [rb_join, rb_list, ihb]

theorem search_none_of_keys (root : rb_node) (k : Nat)
    (h : ∀ x ∈ rb_list root, x.trans ≠ k) : dnet_trans_search root k = none := by
  cases hs : dnet_trans_search root k with
  | none => rfl
  | some x => exact absurd (search_some root k x hs).2 (h x (search_some root k x hs).1)

theorem search_join (l r : rb_node) (k : Nat)
    (h : ∀ x ∈ rb_list l, ∀ y ∈ rb_list r, y.trans < x.trans) :
    dnet_trans_search (rb_join l r) k
      = (dnet_trans_search l k).orElse (fun _ => dnet_trans_search r k) := by
  induction l with
  | nil => simp [rb_join, dnet_trans_search]
  | node a t b _ ihb =>
    simp only [rb_join, dnet_trans_search]
    split_ifs with h1 h2
    · cases hs : dnet_trans_search a k with
      | some x => rfl
      | none =>
        simp only [Option.orElse]
        symm
        apply search_none_of_keys
        intro y hy
        have := h t (by simp [rb_list]) y hy
        simp only [cmp_neg] at h1
        omega
    · apply ihb
      intro x hx y hy
      exact h x (by simp [rb_list, hx]) y hy
    · rfl

theorem mem_erase (root : rb_node) (k : Nat) (x : dnet_trans)
    (hx : x ∈ rb_list (rb_erase root k)) : x ∈ rb_list root := by
  induction root with
  | nil => simp [rb_erase, rb_list] at hx
  | node l t r ihl ihr =>
    simp only [rb_erase] at hx
    simp only [rb_list, List.mem_append, List.mem_cons]
    split_ifs at hx with h1 h2
    · simp only [rb_list, List.mem_append, List.mem_cons] at hx
      rcases hx with hx | hx | hx
      · exact Or.inl (ihl hx)
      · exact Or.inr (Or.inl hx)
      · exact Or.inr (Or.inr hx)
    · simp only [rb_list, List.mem_append, List.mem_cons] at hx
      rcases hx with hx | hx | hx
      · exact Or.inl hx
      · exact Or.inr (Or.inl hx)
      · exact Or.inr (Or.inr (ihr hx))
    · rw [list_join, List.mem_append] at hx
      rcases hx with hx | hx
      · exact Or.inl hx
      · exact Or.inr (Or.inr hx)

theorem erase_all (p : dnet_trans → Bool) (root : rb_node) (k : Nat)
    (hr : rb_all p root = true) : rb_all p (rb_erase root k) = true := by
  rw [rb_all_iff] at hr ⊢
  exact fun x hx => hr x (mem_erase root k x hx)

theorem join_ordered (l r : rb_node) (hl : rb_ordered l = true) (hr : rb_ordered r = true)
    (h : ∀ x ∈ rb_list l, ∀ y ∈ rb_list r, y.trans < x.trans) :
    rb_ordered (rb_join l r) = true := by
  induction l with
  | nil => simpa [rb_join] using hr
  | node a t b _ ihb =>
    simp only [rb_ordered, Bool.and_eq_true] at hl
    obtain ⟨⟨⟨h1, h2⟩, h3⟩, h4⟩ := hl
    simp only [rb_join, rb_ordered, Bool.and_eq_true]
    refine ⟨⟨⟨h1, ?_⟩, h3⟩, ihb h4 (fun x hx y hy => h x (by simp [rb_list, hx]) y hy)⟩
    rw [rb_all_iff] at h2 ⊢
    intro x hx
    rw [list_join, List.mem_append] at hx
    rcases hx with hx | hx
    · exact h2 x hx
    · simpa using h t (by simp [rb_list]) x hx

theorem erase_ordered (root : rb_node) (k : Nat) (ho : rb_ordered root = true) :
    rb_ordered (rb_erase root k) = true := by
  induction root with
  | nil => rfl
  | node l t r ihl ihr =>
    have ho' := ho
    simp only [rb_ordered, Bool.and_eq_true] at ho'
    obtain ⟨⟨⟨hl, hr⟩, hol⟩, hor⟩ := ho'
    simp only [rb_erase]
    split_ifs with h1 h2
    · simp only [rb_ordered, Bool.and_eq_true]
      exact ⟨⟨⟨erase_all _ l k hl, hr⟩, ihl hol⟩, hor⟩
    · simp only [rb_ordered, Bool.and_eq_true]
      exact ⟨⟨⟨hl, erase_all _ r k hr⟩, hol⟩, ihr hor⟩
    · apply join_ordered l r hol hor
      rw [rb_all_iff] at hl hr
      intro x hx y hy
      have := hl x hx
      have := hr y hy
      simp only [decide_eq_true_eq] at *
      omega

theorem erase_wf (root : rb_node) (k : Nat) (hw : registry_wf root = true) :
    registry_wf (rb_erase root k) = true := by
  simp only [registry_wf, Bool.and_eq_true] at hw ⊢
  exact ⟨erase_ordered root k hw.1, erase_all _ root k hw.2⟩

theorem search_erase_self (root : rb_node) (k : Nat) (ho : rb_ordered root = true) :
    dnet_trans_search (rb_erase root k) k = none := by
  induction root with
  | nil => rfl
  | node l t r ihl ihr =>
    simp only [rb_ordered, Bool.and_eq_true] at ho
    obtain ⟨⟨⟨hl, hr⟩, hol⟩, hor⟩ := ho
    simp only [rb_erase]
    split_ifs with h1 h2
    · simp only [dnet_trans_search, if_pos h1]
      exact ihl hol
    · simp only [dnet_trans_search, if_neg h1, if_pos h2]
      exact ihr hor
    · have ht : t.trans = k := by
        simp only [cmp_neg, gt_iff_lt, cmp_pos] at h1 h2
        omega
      rw [rb_all_iff] at hl hr
      apply search_none_of_keys
      intro x hx
      rw [list_join, List.mem_append] at hx
      rcases hx with hx | hx
      · have := hl x hx
        simp only [decide_eq_true_eq] at this
        omega
      · have := hr x hx
        simp only [decide_eq_true_eq] at this
        omega

theorem search_erase_other (root : rb_node) (k j : Nat) (ho : rb_ordered root = true)
    (hj : j ≠ k) : dnet_trans_search (rb_erase root k) j = dnet_trans_search root j := by
  induction root with
  | nil => rfl
  | node l t r ihl ihr =>
    simp only [rb_ordered, Bool.and_eq_true] at ho
    obtain ⟨⟨⟨hl, hr⟩, hol⟩, hor⟩ := ho
    simp only [rb_erase]
    split_ifs with h1 h2
    · simp only [dnet_trans_search, ihl hol]
    · simp only [dnet_trans_search, ihr hor]
    · have ht : t.trans = k := by
        simp only [cmp_neg, gt_iff_lt, cmp_pos] at h1 h2
        omega
      rw [rb_all_iff] at hl hr
      have hlr : ∀ x ∈ rb_list l, ∀ y ∈ rb_list r, y.trans < x.trans := by
        intro x hx y hy
        have := hl x hx
        have := hr y hy
        simp only [decide_eq_true_eq] at *
        omega
      rw [search_join l r j hlr]
      simp only [dnet_trans_search, cmp_neg, gt_iff_lt, cmp_pos, ht]
      split_ifs with h3 h4
      · cases hs : dnet_trans_search l j with
        | some x => rfl
        | none =>
          simp only [Option.orElse]
          apply search_none_of_keys
          intro y hy
          have := hr y hy
          simp only [decide_eq_true_eq] at this
          omega
      · have : dnet_trans_search l j = none := by
          apply search_none_of_keys
          intro y hy
          have := hl y hy
          simp only [decide_eq_true_eq] at this
          omega
        rw [this]
        rfl
      · omega

/-! ## Effects of the helpers on the node -/

@[simp] theorem emit_root (n : dnet_node) (es : List event) :
    (n.emit es).trans_root = n.trans_root := rfl
@[simp] theorem emit_refcnt (n : dnet_node) (es : List event) :
    (n.emit es).refcnt = n.refcnt := rfl
@[simp] theorem emit_trace (n : dnet_node) (es : List event) :
    (n.emit es).trace = n.trace ++ es := rfl
@[simp] theorem emit_st (n : dnet_node) (es : List event) : (n.emit es).st = n.st := rfl
@[simp] theorem emit_counter (n : dnet_node) (es : List event) :
    (n.emit es).trans = n.trans := rfl

@[simp] theorem store_trace (n : dnet_node) (t : dnet_trans) : (n.store t).trace = n.trace := by
  unfold dnet_node.store; split_ifs <;> rfl
@[simp] theorem store_refcnt (n : dnet_node) (t : dnet_trans) :
    (n.store t).refcnt = n.refcnt := by
  unfold dnet_node.store; split_ifs <;> rfl
@[simp] theorem store_st (n : dnet_node) (t : dnet_trans) : (n.store t).st = n.st := by
  unfold dnet_node.store; split_ifs <;> rfl
@[simp] theorem store_counter (n : dnet_node) (t : dnet_trans) :
    (n.store t).trans = n.trans := by
  unfold dnet_node.store; split_ifs <;> rfl
theorem store_root (n : dnet_node) (t : dnet_trans) :
    (n.store t).trans_root
      = if t.rb_parent_color = 0 then n.trans_root else rb_store n.trans_root t := by
  unfold dnet_node.store; split_ifs <;> rfl

@[simp] theorem put_root (n : dnet_node) (st : Nat) :
    (dnet_state_put n st).trans_root = n.trans_root := by
  unfold dnet_state_put; split_ifs <;> rfl
@[simp] theorem put_counter (n : dnet_node) (st : Nat) :
    (dnet_state_put n st).trans = n.trans := by
  unfold dnet_state_put; split_ifs <;> rfl
@[simp] theorem put_st (n : dnet_node) (st : Nat) : (dnet_state_put n st).st = n.st := by
  unfold dnet_state_put; split_ifs <;> rfl
theorem put_trace (n : dnet_node) (st : Nat) :
    (dnet_state_put n st).trace
      = n.trace ++ (if st = 0 then []
          else [event.lock st, event.unlock st] ++
            (if n.refcnt st - 1 = 0 then [event.free_state st] else [])) := by
  unfold dnet_state_put
  split_ifs with h1 h2 <;> simp [dnet_node.emit]
theorem put_refcnt (n : dnet_node) (st : Nat) :
    (dnet_state_put n st).refcnt
      = if st = 0 then n.refcnt else Function.update n.refcnt st (n.refcnt st - 1) := by
  unfold dnet_state_put
  split_ifs <;> rfl

@[simp] theorem get_root (n : dnet_node) (st : Nat) :
    (dnet_state_get n st).trans_root = n.trans_root := rfl
@[simp] theorem get_trace (n : dnet_node) (st : Nat) :
    (dnet_state_get n st).trace = n.trace ++ [event.lock st, event.unlock st] := rfl
@[simp] theorem get_counter (n : dnet_node) (st : Nat) :
    (dnet_state_get n st).trans = n.trans := rfl
@[simp] theorem get_st (n : dnet_node) (st : Nat) : (dnet_state_get n st).st = n.st := rfl

@[simp] theorem completions_append (a b : List event) :
    completions (a ++ b) = completions a ++ completions b := by
  induction a with
  | nil => rfl
  | cons e a ih => cases e <;> simp [completions, ih]
@[simp] theorem handler_calls_append (a b : List event) :
    handler_calls (a ++ b) = handler_calls a + handler_calls b := by
  induction a with
  | nil => simp [handler_calls]
  | cons e a ih => cases e <;> simp [handler_calls, ih]; omega
@[simp] theorem sends_append (a b : List event) : sends (a ++ b) = sends a ++ sends b := by
  induction a with
  | nil => rfl
  | cons e a ih => cases e <;> simp [sends, ih]
@[simp] theorem rx_bytes_append (st : Nat) (a b : List event) :
    rx_bytes st (a ++ b) = rx_bytes st a + rx_bytes st b := by
  induction a with
  | nil => simp [rx_bytes]
  | cons e a ih => cases e <;> simp [rx_bytes, ih]; omega

@[simp] theorem completions_rx (st : Nat) (log : List (Nat × Nat)) :
    completions (rx_events st log) = [] := by
  induction log with
  | nil => rfl
  | cons p log ih => simpa [rx_events, completions] using ih
@[simp] theorem completions_tx (st : Nat) (b : buf) (log : List (Nat × Nat)) :
    completions (tx_events st b log) = [] := by
  induction log with
  | nil => rfl
  | cons p log ih => simpa [tx_events, completions] using ih
@[simp] theorem handler_calls_rx (st : Nat) (log : List (Nat × Nat)) :
    handler_calls (rx_events st log) = 0 := by
  induction log with
  | nil => rfl
  | cons p log ih => simpa [rx_events, handler_calls] using ih
@[simp] theorem handler_calls_tx (st : Nat) (b : buf) (log : List (Nat × Nat)) :
    handler_calls (tx_events st b log) = 0 := by
  induction log with
  | nil => rfl
  | cons p log ih => simpa [tx_events, handler_calls] using ih
@[simp] theorem sends_rx (st : Nat) (log : List (Nat × Nat)) :
    sends (rx_events st log) = [] := by
  induction log with
  | nil => rfl
  | cons p log ih => simpa [rx_events, sends] using ih
@[simp] theorem sends_tx (st : Nat) (b : buf) (log : List (Nat × Nat)) :
    sends (tx_events st b log) = log.map (fun p => (st, b, p.1, p.2)) := by
  induction log with
  | nil => rfl
  | cons p log ih => simpa [tx_events, sends] using ih
@[simp] theorem rx_bytes_rx (st : Nat) (log : List (Nat × Nat)) :
    rx_bytes st (rx_events st log) = log_bytes log := by
  induction log with
  | nil => rfl
  | cons p log ih =>
    simp only [rx_events, List.map_cons, rx_bytes, if_true, log_bytes, List.sum_cons] at ih ⊢
    rw [ih]
@[simp] theorem rx_bytes_tx (st p : Nat) (b : buf) (log : List (Nat × Nat)) :
    rx_bytes st (tx_events p b log) = 0 := by
  induction log with
  | nil => rfl
  | cons q log ih => simpa [tx_events, rx_bytes] using ih

theorem put_completions (n : dnet_node) (st : Nat) :
    completions (dnet_state_put n st).trace = completions n.trace := by
  rw [put_trace]; split_ifs <;> simp [completions]
theorem put_handler_calls (n : dnet_node) (st : Nat) :
    handler_calls (dnet_state_put n st).trace = handler_calls n.trace := by
  rw [put_trace]; split_ifs <;> simp [handler_calls]
theorem put_sends (n : dnet_node) (st : Nat) :
    sends (dnet_state_put n st).trace = sends n.trace := by
  rw [put_trace]; split_ifs <;> simp [sends]
theorem put_rx_bytes (n : dnet_node) (st p : Nat) :
    rx_bytes p (dnet_state_put n st).trace = rx_bytes p n.trace := by
  rw [put_trace]; split_ifs <;> simp [rx_bytes]

theorem destroy_root (n : dnet_node) (t : dnet_trans) :
    (dnet_trans_destroy n (some t)).trans_root
      = if t.rb_parent_color ≠ 0 ∧ t.st ≠ 0 then rb_erase n.trans_root t.trans
        else n.trans_root := by
  simp only [dnet_trans_destroy]
  split_ifs with h
  · simp [dnet_trans_remove, dnet_trans_remove_nolock, h.1]
  · simp
theorem destroy_completions (n : dnet_node) (t : Option dnet_trans) :
    completions (dnet_trans_destroy n t).trace = completions n.trace := by
  cases t with
  | none => rfl
  | some t =>
    simp only [dnet_trans_destroy, emit_trace, completions_append, put_completions]
    split_ifs <;> simp [completions, dnet_trans_remove]
theorem destroy_handler_calls (n : dnet_node) (t : Option dnet_trans) :
    handler_calls (dnet_trans_destroy n t).trace = handler_calls n.trace := by
  cases t with
  | none => rfl
  | some t =>
    simp only [dnet_trans_destroy, emit_trace, handler_calls_append, put_handler_calls]
    split_ifs <;> simp [handler_calls, dnet_trans_remove]
theorem destroy_sends (n : dnet_node) (t : Option dnet_trans) :
    sends (dnet_trans_destroy n t).trace = sends n.trace := by
  cases t with
  | none => rfl
  | some t =>
    simp only [dnet_trans_destroy, emit_trace, sends_append, put_sends]
    split_ifs <;> simp [sends, dnet_trans_remove]
theorem destroy_rx_bytes (n : dnet_node) (t : Option dnet_trans) (p : Nat) :
    rx_bytes p (dnet_trans_destroy n t).trace = rx_bytes p n.trace := by
  cases t with
  | none => rfl
  | some t =>
    simp only [dnet_trans_destroy, emit_trace, rx_bytes_append, put_rx_bytes]
    split_ifs <;> simp [rx_bytes, dnet_trans_remove]

theorem process_of_header (st : Nat) (E : env) (n : dnet_node) (h : header_ok E = true) :
    dnet_trans_process st E n =
      if E.cmd.trans &&& DNET_TRANS_REPLY ≠ 0 then
        match dnet_trans_search n.trans_root (E.cmd.trans &&& DNET_TRANS_MASK) with
        | some t => process_reply st E (header_read E).rest E.cmd 0 (after_header st E n) t
        | none => process_request st E (header_read E).rest E.cmd true (after_header st E n)
      else process_request st E (header_read E).rest E.cmd false (after_header st E n) := by
  unfold header_ok at h
  unfold dnet_trans_process
  cases hrx : E.rx with
  | nil => rw [hrx] at h; simp at h
  | cons o rx =>
    have hr : header_read E = dnet_recv rx sizeof_el_cmd := by
      simp [header_read, hrx]
    rw [hrx] at h
    simp only [Bool.and_eq_true, decide_eq_true_eq] at h
    rw [hr] at h ⊢
    simp only [h.1, ne_eq, not_true_eq_false, if_false, h.2, lt_self_iff_false,
      el_convert_cmd, after_header, hr, emit_root]

/-! ## A reply to a registered transaction with a completion -/

theorem found_facts (root : rb_node) (k : Nat) (t : dnet_trans)
    (hs : dnet_trans_search root k = some t) (hw : registry_wf root = true) :
    t.trans = k ∧ t.rb_parent_color ≠ 0 ∧ t.st ≠ 0 := by
  obtain ⟨hm, hk⟩ := search_some root k t hs
  simp only [registry_wf, Bool.and_eq_true, rb_all_iff] at hw
  have := hw.2 t hm
  simp only [Bool.and_eq_true, decide_eq_true_eq] at this
  exact ⟨hk, this.1, this.2⟩

theorem reply_done_complete (st : Nat) (E : env) (cmd : el_cmd) (n : dnet_node)
    (t : dnet_trans) (hc : t.complete ≠ 0) :
    process_reply_done st E cmd n t =
      ⟨if cmd.flags &&& DNET_FLAGS_MORE = 0 then
          dnet_trans_destroy
            (((n.emit [event.unlock st]).store
                { t with cmd := { cmd with trans := t.recv_trans ||| DNET_TRANS_REPLY } }).emit
              [event.complete
                { t with cmd := { cmd with trans := t.recv_trans ||| DNET_TRANS_REPLY } }])
            (some { t with cmd := { cmd with trans := t.recv_trans ||| DNET_TRANS_REPLY } })
        else
          ((n.emit [event.unlock st]).store
              { t with cmd := { cmd with trans := t.recv_trans ||| DNET_TRANS_REPLY } }).emit
            [event.complete
              { t with cmd := { cmd with trans := t.recv_trans ||| DNET_TRANS_REPLY } }],
       some 0⟩ := by
  simp only [process_reply_done, ne_eq, hc, not_false_eq_true, if_true]
  split_ifs <;> rfl

theorem payload_ok_cases (E : env) (hp : payload_ok E = true) :
    E.cmd.size = 0 ∨
      (E.cmd.size ≠ 0 ∧ E.malloc_data = true ∧
        (dnet_recv (header_read E).rest E.cmd.size).ret = some 0) := by
  simp only [payload_ok, payload_read, Bool.or_eq_true, Bool.and_eq_true,
    decide_eq_true_eq] at hp
  by_cases h0 : E.cmd.size = 0
  · exact Or.inl h0
  · rcases hp with hp | hp
    · exact absurd hp h0
    · exact Or.inr ⟨h0, hp.1, hp.2⟩

theorem reply_step (st : Nat) (E : env) (n : dnet_node) (t : dnet_trans)
    (hh : header_ok E = true) (hrep : E.cmd.trans &&& DNET_TRANS_REPLY ≠ 0)
    (hs : dnet_trans_search n.trans_root (E.cmd.trans &&& DNET_TRANS_MASK) = some t)
    (hp : payload_ok E = true) (hc : t.complete ≠ 0) (hw : registry_wf n.trans_root = true) :
    (dnet_trans_process st E n).ret = some 0 ∧
    completions (dnet_trans_process st E n).n.trace
      = completions n.trace ++ [reply_view t E.cmd] ∧
    (E.cmd.flags &&& DNET_FLAGS_MORE ≠ 0 →
      dnet_trans_search (dnet_trans_process st E n).n.trans_root
          (E.cmd.trans &&& DNET_TRANS_MASK) = some (reply_view t E.cmd) ∧
      registry_wf (dnet_trans_process st E n).n.trans_root = true) ∧
    (E.cmd.flags &&& DNET_FLAGS_MORE = 0 →
      dnet_trans_search (dnet_trans_process st E n).n.trans_root
          (E.cmd.trans &&& DNET_TRANS_MASK) = none) ∧
    (∀ k, k ≠ E.cmd.trans &&& DNET_TRANS_MASK →
      dnet_trans_search (dnet_trans_process st E n).n.trans_root k
        = dnet_trans_search n.trans_root k) := by
  obtain ⟨hk, hcol, hst⟩ := found_facts _ _ _ hs hw
  have ho : rb_ordered n.trans_root = true := by
    simp only [registry_wf, Bool.and_eq_true] at hw
    exact hw.1
  rw [process_of_header st E n hh, if_pos hrep]
  simp only [hs]
  by_cases hm : E.cmd.flags &&& DNET_FLAGS_MORE = 0
  · -- last reply: the transaction is unlinked before the payload is read
    have hview : reply_view t E.cmd =
        { t with
          rb_parent_color := 0
          data := if E.cmd.size = 0 then t.data else some E.cmd.size
          cmd := { E.cmd with trans := t.recv_trans ||| DNET_TRANS_REPLY } } := by
      simp [reply_view, hm]
    rcases payload_ok_cases E hp with h0 | ⟨h0, hma, hrd⟩
    · simp only [process_reply, hm, if_true, h0, ne_eq, not_true_eq_false, if_false,
        dnet_trans_remove_nolock, hcol, after_header, emit_root]
      rw [reply_done_complete]
      swap
      · exact hc
      simp only [hm, if_true, destroy_completions, emit_trace, store_trace, completions_append,
        completions, destroy_root, ne_eq, not_true_eq_false, false_and, if_false, emit_root,
        store_root, hview, h0, completions_rx, List.append_nil]
      refine ⟨trivial, trivial, fun h => h.elim, fun _ => ?_, fun k hk' => ?_⟩
      · rw [← hk]; exact search_erase_self _ _ ho
      · rw [hk]; exact search_erase_other _ _ _ ho hk'
    · simp only [process_reply, hm, if_true, h0, ne_eq, not_false_eq_true, hma,
        dnet_trans_remove_nolock, hcol, if_false, after_header, hrd, Int.lt_irrefl]
      rw [reply_done_complete]
      swap
      · exact hc
      simp only [hm, if_true, destroy_completions, emit_trace, store_trace, completions_append,
        completions, destroy_root, ne_eq, not_true_eq_false, false_and, if_false, emit_root,
        store_root, hview, h0, completions_rx, List.append_nil]
      refine ⟨trivial, trivial, fun h => h.elim, fun _ => ?_, fun k hk' => ?_⟩
      · rw [← hk]; exact search_erase_self _ _ ho
      · rw [hk]; exact search_erase_other _ _ _ ho hk'
  · -- more replies follow: the transaction stays linked and is updated in place
    have hview : reply_view t E.cmd =
        { t with
          data := if E.cmd.size = 0 then t.data else some E.cmd.size
          cmd := { E.cmd with trans := t.recv_trans ||| DNET_TRANS_REPLY } } := by
      simp [reply_view, hm]
    rcases payload_ok_cases E hp with h0 | ⟨h0, hma, hrd⟩
    · simp only [process_reply, hm, if_false, h0, ne_eq, not_true_eq_false, after_header]
      rw [reply_done_complete]
      swap
      · exact hc
      simp only [hm, if_false, emit_trace, store_trace, completions_append, completions,
        emit_root, store_root, hcol, hview, h0, if_true, completions_rx, List.append_nil]
      refine ⟨trivial, trivial, fun _ => ⟨?_, ?_⟩, fun h => absurd h (by simp), fun k hk' => ?_⟩
      · rw [← hk]
        exact search_store_self _ _ t (by rw [← hk] at hs; exact hs)
      · exact store_wf _ _ hw hcol hst
      · exact search_store_other _ _ k (by rw [← hk] at hk'; exact hk')
    · simp only [process_reply, hm, if_false, h0, ne_eq, not_false_eq_true, hma, if_true,
        after_header, hrd, Int.lt_irrefl]
      rw [reply_done_complete]
      swap
      · exact hc
      simp only [hm, if_false, emit_trace, store_trace, completions_append, completions,
        emit_root, store_root, hcol, hview, h0, if_true, completions_rx, List.append_nil]
      refine ⟨trivial, trivial, fun _ => ⟨?_, ?_⟩, fun h => absurd h (by simp), fun k hk' => ?_⟩
      · rw [← hk]
        refine search_store_self _ _ { t with data := some E.cmd.size } ?_
        exact search_store_self _ { t with data := some E.cmd.size } t
          (by rw [← hk] at hs; exact hs)
      · exact store_wf _ _ (store_wf _ _ hw hcol hst) hcol hst
      · rw [search_store_other _ _ k (by rw [← hk] at hk'; exact hk')]
        exact search_store_other _ _ k (by rw [← hk] at hk'; exact hk')

/-! ## C3: replies to a registered transaction -/

/-- C3: a reply (REPLY bit set) whose number is registered for a transaction
`t` with a completion, and whose payload is read successfully, makes
`dnet_trans_process` return 0 after invoking the completion exactly once, with
the received header and data; `t` is still registered when the header has MORE
set and is not when MORE is clear; other entries are untouched. Hence three
replies flagged MORE, MORE, no-MORE run the completion three times, in arrival
order, and only the third removes the registry entry. -/
theorem reply_runs_completion (st : Nat) (n : dnet_node) (t : dnet_trans)
    (hc : t.complete ≠ 0) (hw : registry_wf n.trans_root = true) :
    (∀ E : env, header_ok E = true → E.cmd.trans &&& DNET_TRANS_REPLY ≠ 0 →
      dnet_trans_search n.trans_root (E.cmd.trans &&& DNET_TRANS_MASK) = some t →
      payload_ok E = true →
      (dnet_trans_process st E n).ret = some 0 ∧
      completions (dnet_trans_process st E n).n.trace
        = completions n.trace ++ [reply_view t E.cmd] ∧
      (E.cmd.flags &&& DNET_FLAGS_MORE ≠ 0 →
        dnet_trans_search (dnet_trans_process st E n).n.trans_root
          (E.cmd.trans &&& DNET_TRANS_MASK) = some (reply_view t E.cmd)) ∧
      (E.cmd.flags &&& DNET_FLAGS_MORE = 0 →
        dnet_trans_search (dnet_trans_process st E n).n.trans_root
          (E.cmd.trans &&& DNET_TRANS_MASK) = none) ∧
      (∀ k, k ≠ E.cmd.trans &&& DNET_TRANS_MASK →
        dnet_trans_search (dnet_trans_process st E n).n.trans_root k
          = dnet_trans_search n.trans_root k)) ∧
    (∀ E1 E2 E3 : env,
      header_ok E1 = true → header_ok E2 = true → header_ok E3 = true →
      payload_ok E1 = true → payload_ok E2 = true → payload_ok E3 = true →
      E1.cmd.trans &&& DNET_TRANS_REPLY ≠ 0 →
      E2.cmd.trans = E1.cmd.trans → E3.cmd.trans = E1.cmd.trans →
      dnet_trans_search n.trans_root (E1.cmd.trans &&& DNET_TRANS_MASK) = some t →
      E1.cmd.flags &&& DNET_FLAGS_MORE ≠ 0 → E2.cmd.flags &&& DNET_FLAGS_MORE ≠ 0 →
      E3.cmd.flags &&& DNET_FLAGS_MORE = 0 →
      (process_seq st [E1, E2, E3] n).2 = [some 0, some 0, some 0] ∧
      completions (process_seq st [E1, E2, E3] n).1.trace
        = completions n.trace ++
          [reply_view t E1.cmd, reply_view (reply_view t E1.cmd) E2.cmd,
           reply_view (reply_view (reply_view t E1.cmd) E2.cmd) E3.cmd] ∧
      (completions (process_seq st [E1, E2, E3] n).1.trace).map (fun x => x.cmd)
        = (completions n.trace).map (fun x => x.cmd) ++
          [{ E1.cmd with trans := t.recv_trans ||| DNET_TRANS_REPLY },
           { E2.cmd with trans := t.recv_trans ||| DNET_TRANS_REPLY },
           { E3.cmd with trans := t.recv_trans ||| DNET_TRANS_REPLY }] ∧
      dnet_trans_search (process_seq st [E1] n).1.trans_root
        (E1.cmd.trans &&& DNET_TRANS_MASK) = some (reply_view t E1.cmd) ∧
      dnet_trans_search (process_seq st [E1, E2] n).1.trans_root
        (E1.cmd.trans &&& DNET_TRANS_MASK)
        = some (reply_view (reply_view t E1.cmd) E2.cmd) ∧
      dnet_trans_search (process_seq st [E1, E2, E3] n).1.trans_root
        (E1.cmd.trans &&& DNET_TRANS_MASK) = none) := by
  constructor
  · intro E hh hrep hs hp
    obtain ⟨h1, h2, h3, h4, h5⟩ := reply_step st E n t hh hrep hs hp hc hw
    exact ⟨h1, h2, fun hm => (h3 hm).1, h4, h5⟩
  · intro E1 E2 E3 hh1 hh2 hh3 hp1 hp2 hp3 hrep e2 e3 hs m1 m2 m3
    obtain ⟨a1, a2, a3, _, _⟩ := reply_step st E1 n t hh1 hrep hs hp1 hc hw
    obtain ⟨a3, a4⟩ := a3 m1
    obtain ⟨b1, b2, b3, _, _⟩ := reply_step st E2 (dnet_trans_process st E1 n).n
      (reply_view t E1.cmd) hh2 (by rw [e2]; exact hrep) (by rw [e2]; exact a3) hp2 hc a4
    obtain ⟨b3, b4⟩ := b3 m2
    rw [e2] at b3
    obtain ⟨c1, c2, _, c4, _⟩ := reply_step st E3
      (dnet_trans_process st E2 (dnet_trans_process st E1 n).n).n
      (reply_view (reply_view t E1.cmd) E2.cmd) hh3 (by rw [e3]; exact hrep)
      (by rw [e3]; exact b3) hp3 hc b4
    have c4 := c4 m3
    rw [e3] at c4
    have hcomp : completions (process_seq st [E1, E2, E3] n).1.trace
        = completions n.trace ++
          [reply_view t E1.cmd, reply_view (reply_view t E1.cmd) E2.cmd,
           reply_view (reply_view (reply_view t E1.cmd) E2.cmd) E3.cmd] := by
      simp only [process_seq, c2, b2, a2, List.append_assoc, List.singleton_append]
      rfl
    refine ⟨?_, hcomp, ?_, a3, b3, c4⟩
    · simp only [process_seq, a1, b1, c1]
    · rw [hcomp]
      simp [reply_view]

/-- Witness of C3: three replies to transaction 5 of the example node, flagged
MORE, MORE and no-MORE, the first with a payload of 4 bytes. -/
theorem reply_runs_completion_witness :
    (ex_t 5).complete ≠ 0 ∧ registry_wf (ex_node 12).trans_root = true ∧
    header_ok (ex_env (ex_cmd (2 ^ 63 + 5) 1 4) 0) = true ∧
    payload_ok (ex_env (ex_cmd (2 ^ 63 + 5) 1 4) 0) = true ∧
    dnet_trans_search (ex_node 12).trans_root
      ((ex_env (ex_cmd (2 ^ 63 + 5) 1 4) 0).cmd.trans &&& DNET_TRANS_MASK) = some (ex_t 5) ∧
    (process_seq 7
        [ex_env (ex_cmd (2 ^ 63 + 5) 1 4) 0, ex_env (ex_cmd (2 ^ 63 + 5) 1 0) 0,
         ex_env (ex_cmd (2 ^ 63 + 5) 0 2) 0] (ex_node 12)).2 = [some 0, some 0, some 0] ∧
    dnet_trans_search
      (process_seq 7
        [ex_env (ex_cmd (2 ^ 63 + 5) 1 4) 0, ex_env (ex_cmd (2 ^ 63 + 5) 1 0) 0,
         ex_env (ex_cmd (2 ^ 63 + 5) 0 2) 0] (ex_node 12)).1.trans_root
      ((ex_env (ex_cmd (2 ^ 63 + 5) 1 4) 0).cmd.trans &&& DNET_TRANS_MASK) = none :=
  have h := (reply_runs_completion 7 (ex_node 12) (ex_t 5) (by decide) (by decide)).2
    (ex_env (ex_cmd (2 ^ 63 + 5) 1 4) 0) (ex_env (ex_cmd (2 ^ 63 + 5) 1 0) 0)
    (ex_env (ex_cmd (2 ^ 63 + 5) 0 2) 0)
    (by decide) (by decide) (by decide) (by decide) (by decide) (by decide)
    (by decide) (by decide) (by decide) (by decide) (by decide) (by decide) (by decide)
  ⟨by decide, by decide, by decide, by decide, by decide, h.1, h.2.2.2.2.2⟩

/-! ## Destruction of a transaction -/

@[simp] theorem freed_append (a b : List event) : freed (a ++ b) = freed a ++ freed b := by
  induction a with
  | nil => rfl
  | cons e a ih => cases e <;> simp [freed, ih]
@[simp] theorem freed_rx (st : Nat) (log : List (Nat × Nat)) : freed (rx_events st log) = [] := by
  induction log with
  | nil => rfl
  | cons p log ih => simpa [rx_events, freed] using ih
@[simp] theorem freed_tx (st : Nat) (b : buf) (log : List (Nat × Nat)) :
    freed (tx_events st b log) = [] := by
  induction log with
  | nil => rfl
  | cons p log ih => simpa [tx_events, freed] using ih
theorem put_freed (n : dnet_node) (st : Nat) :
    freed (dnet_state_put n st).trace = freed n.trace := by
  rw [put_trace]; split_ifs <;> simp [freed]
theorem destroy_freed (n : dnet_node) (t : dnet_trans) :
    freed (dnet_trans_destroy n (some t)).trace
      = freed n.trace ++
        [if t.rb_parent_color ≠ 0 ∧ t.st ≠ 0 then { t with rb_parent_color := 0 } else t] := by
  simp only [dnet_trans_destroy, emit_trace, freed_append, put_freed]
  split_ifs with h
  · simp [freed, dnet_trans_remove, dnet_trans_remove_nolock, h.1]
  · simp [freed]
theorem destroy_refcnt (n : dnet_node) (t : dnet_trans) :
    (dnet_trans_destroy n (some t)).refcnt
      = if t.st = 0 then n.refcnt else Function.update n.refcnt t.st (n.refcnt t.st - 1) := by
  simp only [dnet_trans_destroy, emit_refcnt, put_refcnt]
  split_ifs <;> simp [dnet_trans_remove, dnet_trans_remove_nolock]

theorem payload_fails_cases (E : env) (hp : payload_fails E = true) :
    E.cmd.size ≠ 0 ∧
      (E.malloc_data = false ∨
        (E.malloc_data = true ∧
          ∃ e, (dnet_recv (header_read E).rest E.cmd.size).ret = some e ∧ e < 0)) := by
  simp only [payload_fails, payload_read, Bool.and_eq_true, Bool.or_eq_true,
    decide_eq_true_eq, Bool.not_eq_true'] at hp
  refine ⟨hp.1, ?_⟩
  cases hm : E.malloc_data with
  | false => exact Or.inl rfl
  | true =>
    right
    refine ⟨rfl, ?_⟩
    rcases hp.2 with h | h
    · rw [hm] at h; exact absurd h (by simp)
    · cases hr : (dnet_recv (header_read E).rest E.cmd.size).ret with
      | none => rw [hr] at h; simp at h
      | some e =>
        rw [hr] at h
        exact ⟨e, rfl, by simpa using h⟩

/-! ## C7: a reply whose payload cannot be read -/

/-- C7: when a reply matches a registered transaction `t` and reading its
payload fails (the buffer cannot be allocated, or the read returns an error),
`dnet_trans_process` invokes no completion and destroys `t`: it is freed, its
peer reference is dropped and it is not in the registry afterwards, with MORE
set or clear; other entries are untouched. The call returns 0, not the read
error: the error is assigned to the `err` of the inner block, and label
`err_out_unlock` returns the function's own `err`, which the successful header
read left at 0. -/
theorem reply_read_failure_destroys (st : Nat) (E : env) (n : dnet_node)
    (t : dnet_trans) (hh : header_ok E = true) (hrep : E.cmd.trans &&& DNET_TRANS_REPLY ≠ 0)
    (hs : dnet_trans_search n.trans_root (E.cmd.trans &&& DNET_TRANS_MASK) = some t)
    (hp : payload_fails E = true) (hw : registry_wf n.trans_root = true) :
    (dnet_trans_process st E n).ret = some 0 ∧
    completions (dnet_trans_process st E n).n.trace = completions n.trace ∧
    dnet_trans_search (dnet_trans_process st E n).n.trans_root
      (E.cmd.trans &&& DNET_TRANS_MASK) = none ∧
    freed (dnet_trans_process st E n).n.trace
      = freed n.trace ++
        [{ t with rb_parent_color := 0
                  data := if E.malloc_data then some E.cmd.size else none }] ∧
    (dnet_trans_process st E n).n.refcnt t.st = n.refcnt t.st - 1 ∧
    (∀ k, k ≠ E.cmd.trans &&& DNET_TRANS_MASK →
      dnet_trans_search (dnet_trans_process st E n).n.trans_root k
        = dnet_trans_search n.trans_root k) := by
  obtain ⟨hk, hcol, hst⟩ := found_facts _ _ _ hs hw
  have ho : rb_ordered n.trans_root = true := by
    simp only [registry_wf, Bool.and_eq_true] at hw
    exact hw.1
  obtain ⟨h0, hfail⟩ := payload_fails_cases E hp
  rw [process_of_header st E n hh, if_pos hrep]
  simp only [hs]
  by_cases hm : E.cmd.flags &&& DNET_FLAGS_MORE = 0
  · rcases hfail with hma | ⟨hma, e, hrd, he⟩
    · simp only [process_reply, hm, if_true, h0, ne_eq, not_false_eq_true, hma,
        Bool.false_eq_true, if_false, dnet_trans_remove_nolock, hcol, after_header,
        err_out_unlock, err_out_destroy, destroy_completions, emit_trace, store_trace,
        completions_append, completions, completions_rx, List.append_nil, destroy_root,
        not_true_eq_false, false_and, emit_root, store_root, destroy_freed, freed_append,
        freed, freed_rx, destroy_refcnt, hst, emit_refcnt, store_refcnt, Function.update_same]
      refine ⟨trivial, trivial, ?_, trivial, trivial, fun k hk' => ?_⟩
      · rw [← hk]; exact search_erase_self _ _ ho
      · rw [hk]; exact search_erase_other _ _ _ ho hk'
    · simp only [process_reply, hm, if_true, h0, ne_eq, not_false_eq_true, hma,
        if_false, dnet_trans_remove_nolock, hcol, after_header, hrd, he,
        err_out_unlock, err_out_destroy, destroy_completions, emit_trace, store_trace,
        completions_append, completions, completions_rx, List.append_nil, destroy_root,
        not_true_eq_false, false_and, emit_root, store_root, destroy_freed, freed_append,
        freed, freed_rx, destroy_refcnt, hst, emit_refcnt, store_refcnt, Function.update_same]
      refine ⟨trivial, trivial, ?_, trivial, trivial, fun k hk' => ?_⟩
      · rw [← hk]; exact search_erase_self _ _ ho
      · rw [hk]; exact search_erase_other _ _ _ ho hk'
  · rcases hfail with hma | ⟨hma, e, hrd, he⟩
    · simp only [process_reply, hm, if_false, h0, ne_eq, not_false_eq_true, hma,
        Bool.false_eq_true, after_header, if_true,
        err_out_unlock, err_out_destroy, destroy_completions, emit_trace, store_trace,
        completions_append, completions, completions_rx, List.append_nil, destroy_root,
        hcol, hst, and_self, emit_root, store_root, destroy_freed, freed_append,
        freed, freed_rx, destroy_refcnt, emit_refcnt, store_refcnt, Function.update_same]
      refine ⟨trivial, trivial, ?_, trivial, trivial, fun k hk' => ?_⟩
      · rw [← hk]; exact search_erase_self _ _ (store_ordered _ _ ho)
      · rw [search_erase_other _ _ k (store_ordered _ _ ho) (by rw [hk]; exact hk')]
        exact search_store_other _ _ k (by rw [hk]; exact hk')
    · simp only [process_reply, hm, if_false, h0, ne_eq, not_false_eq_true, hma,
        after_header, if_true, hrd, he,
        err_out_unlock, err_out_destroy, destroy_completions, emit_trace, store_trace,
        completions_append, completions, completions_rx, List.append_nil, destroy_root,
        hcol, hst, and_self, emit_root, store_root, destroy_freed, freed_append,
        freed, freed_rx, destroy_refcnt, emit_refcnt, store_refcnt, Function.update_same]
      refine ⟨trivial, trivial, ?_, trivial, trivial, fun k hk' => ?_⟩
      · rw [← hk]; exact search_erase_self _ _ (store_ordered _ _ ho)
      · rw [search_erase_other _ _ k (store_ordered _ _ ho) (by rw [hk]; exact hk')]
        exact search_store_other _ _ k (by rw [hk]; exact hk')

/-- Witness of C7: a reply with MORE set and 4 payload bytes for transaction 5
of the example node; the connection drops when the payload is due. -/
theorem reply_read_failure_destroys_witness :
    header_ok (ex_env_cut (ex_cmd (2 ^ 63 + 5) 1 4) 0) = true ∧
    payload_fails (ex_env_cut (ex_cmd (2 ^ 63 + 5) 1 4) 0) = true ∧
    registry_wf (ex_node 12).trans_root = true ∧
    (dnet_trans_process 7 (ex_env_cut (ex_cmd (2 ^ 63 + 5) 1 4) 0) (ex_node 12)).ret = some 0 ∧
    dnet_trans_search
      (dnet_trans_process 7 (ex_env_cut (ex_cmd (2 ^ 63 + 5) 1 4) 0) (ex_node 12)).n.trans_root
      ((ex_env_cut (ex_cmd (2 ^ 63 + 5) 1 4) 0).cmd.trans &&& DNET_TRANS_MASK) = none :=
  have h := reply_read_failure_destroys 7 (ex_env_cut (ex_cmd (2 ^ 63 + 5) 1 4) 0)
    (ex_node 12) (ex_t 5) (by decide) (by decide) (by decide) (by decide) (by decide)
  ⟨by decide, by decide, by decide, h.1, h.2.2.1⟩

theorem recv_at_bytes (os : List io_outcome) :
    ∀ size off, size < 4294967296 → recv_bounded os size = true →
      (dnet_recv_at os size off).ret = some 0 →
      log_bytes (dnet_recv_at os size off).log = size := by
  induction os with
  | nil =>
    intro size off _ _ h
    by_cases h0 : size = 0
    · simp [dnet_recv_at, log_bytes, h0]
    · simp [dnet_recv_at, h0] at h
  | cons o os ih =>
    intro size off hs hb h
    by_cases h0 : size = 0
    · simp [dnet_recv_at, log_bytes, h0]
    by_cases h1 : o.need_exit = true
    · simp [dnet_recv_at, h0, h1, EIO] at h
    by_cases h2 : dnet_wait_fd o = -EAGAIN
    · simp only [dnet_recv_at, recv_bounded, if_neg h0, if_neg h1, if_pos h2] at h hb ⊢
      exact ih size off hs hb h
    by_cases h3 : dnet_wait_fd o < 0
    · simp only [dnet_recv_at, if_neg h0, if_neg h1, if_neg h2, if_pos h3,
        Option.some.injEq] at h
      omega
    by_cases h4 : to_int o.ret < 0
    · simp only [dnet_recv_at, if_neg h0, if_neg h1, if_neg h2, if_neg h3, if_pos h4,
        Option.some.injEq] at h
      omega
    by_cases h5 : to_int o.ret = 0
    · simp [dnet_recv_at, h0, h1, h2, h3, h5, ECONNRESET] at h
    have h6 : ¬ to_int o.ret ≤ 0 := by omega
    simp only [dnet_recv_at, recv_bounded, if_neg h0, if_neg h1, if_neg h2, if_neg h3,
      if_neg h4, if_neg h5, if_neg h6, Bool.and_eq_true, decide_eq_true_eq] at h hb ⊢
    have hsub : u32_sub size (to_int o.ret) = size - (to_int o.ret).toNat := by
      unfold u32_sub
      omega
    rw [hsub] at h ⊢
    have := ih (size - (to_int o.ret).toNat) (off + (to_int o.ret).toNat) (by omega) hb.2 h
    simp only [log_bytes, List.map_cons, List.sum_cons] at this ⊢
    omega

theorem recv_bytes (os : List io_outcome) (size : Nat) (hs : size < 4294967296)
    (hb : recv_bounded os size = true) (h : (dnet_recv os size).ret = some 0) :
    log_bytes (dnet_recv os size).log = size := by
  unfold dnet_recv at h ⊢
  rw [Nat.mod_eq_of_lt hs] at h ⊢
  exact recv_at_bytes os size 0 hs hb h

/-! ## C4: a reply without a transaction -/

theorem destroy_zero_root (n : dnet_node) (t : dnet_trans) (h : t.rb_parent_color = 0) :
    (dnet_trans_destroy n (some t)).trans_root = n.trans_root := by
  rw [destroy_root]; simp [h]

theorem request_drop_effects (st : Nat) (E : env) (rx : List io_outcome) (cmd : el_cmd)
    (n : dnet_node) :
    (process_request st E rx cmd true n).n.trans_root = n.trans_root ∧
    completions (process_request st E rx cmd true n).n.trace = completions n.trace ∧
    handler_calls (process_request st E rx cmd true n).n.trace = handler_calls n.trace ∧
    sends (process_request st E rx cmd true n).n.trace = sends n.trace := by
  unfold process_request
  split_ifs with h1 h2 h3
  · cases hr : (dnet_recv rx cmd.size).ret with
    | none =>
      simp [hr, completions, handler_calls, sends]
    | some e =>
      simp only [hr]
      split_ifs
      · simp [err_out_unlock, err_out_destroy, destroy_completions, destroy_handler_calls,
          destroy_sends, destroy_root, dnet_trans_zero, completions, handler_calls, sends]
      · simp [process_request_done, destroy_completions, destroy_handler_calls,
          destroy_sends, destroy_root, dnet_trans_zero, completions, handler_calls, sends]
  · simp [err_out_unlock, err_out_destroy, destroy_completions, destroy_handler_calls,
      destroy_sends, destroy_root, dnet_trans_zero, completions, handler_calls, sends]
  · simp [process_request_done, destroy_completions, destroy_handler_calls,
      destroy_sends, destroy_root, dnet_trans_zero, completions, handler_calls, sends]
  · simp [err_out_unlock, err_out_destroy, dnet_trans_destroy, completions, handler_calls,
      sends]

theorem request_drop_ok (st : Nat) (E : env) (n : dnet_node) (hm : E.malloc_trans = true)
    (hp : payload_ok E = true) :
    (process_request st E (header_read E).rest E.cmd true n).ret = some 0 ∧
    rx_bytes st (process_request st E (header_read E).rest E.cmd true n).n.trace
      = rx_bytes st n.trace + (if E.cmd.size = 0 then 0 else log_bytes (payload_read E).log) := by
  rcases payload_ok_cases E hp with h0 | ⟨h0, hma, hrd⟩
  · simp [process_request, hm, h0, process_request_done, destroy_rx_bytes, rx_bytes]
  · simp [process_request, hm, h0, hma, hrd, process_request_done, destroy_rx_bytes, rx_bytes,
      payload_read]

theorem request_drop_fails (st : Nat) (E : env) (n : dnet_node) (hm : E.malloc_trans = true)
    (hp : payload_fails E = true) :
    ∃ e, e < 0 ∧ (process_request st E (header_read E).rest E.cmd true n).ret = some e := by
  obtain ⟨h0, hfail⟩ := payload_fails_cases E hp
  rcases hfail with hma | ⟨hma, e, hrd, he⟩
  · exact ⟨-ENOMEM, by decide,
      by simp [process_request, hm, h0, hma, err_out_unlock, err_out_destroy]⟩
  · exact ⟨e, he,
      by simp [process_request, hm, h0, hma, hrd, he, err_out_unlock, err_out_destroy]⟩

/-- C4 (amended): for a reply whose number is not in the registry
`dnet_trans_process` invokes no completion and no local request handler,
forwards nothing and leaves the registry unchanged. When the scratch
transaction and the payload buffer are allocated and the payload read succeeds,
the payload has been taken from the connection (all `size` bytes of it, for a
size below `2^32` and `recv` calls that return no more than asked for) and the
call returns 0. When an allocation or the read fails, the call returns that
error (`-ENOMEM` or the read error). A `recv` that delivers `2^31` bytes or
more at once is such a read error: its result is negative in the `int` that
holds it. -/
theorem unknown_reply_dropped (st : Nat) (E : env) (n : dnet_node)
    (hh : header_ok E = true) (hrep : E.cmd.trans &&& DNET_TRANS_REPLY ≠ 0)
    (hs : dnet_trans_search n.trans_root (E.cmd.trans &&& DNET_TRANS_MASK) = none) :
    (dnet_trans_process st E n).n.trans_root = n.trans_root ∧
    completions (dnet_trans_process st E n).n.trace = completions n.trace ∧
    handler_calls (dnet_trans_process st E n).n.trace = handler_calls n.trace ∧
    sends (dnet_trans_process st E n).n.trace = sends n.trace ∧
    (E.malloc_trans = true → payload_ok E = true →
      (dnet_trans_process st E n).ret = some 0 ∧
      rx_bytes st (dnet_trans_process st E n).n.trace
        = rx_bytes st n.trace + log_bytes (header_read E).log
          + (if E.cmd.size = 0 then 0 else log_bytes (payload_read E).log) ∧
      (E.cmd.size < 4294967296 → recv_bounded (header_read E).rest E.cmd.size = true →
        rx_bytes st (dnet_trans_process st E n).n.trace
          = rx_bytes st n.trace + log_bytes (header_read E).log + E.cmd.size)) ∧
    (E.malloc_trans = false → (dnet_trans_process st E n).ret = some (-ENOMEM)) ∧
    (E.malloc_trans = true → payload_fails E = true →
      ∃ e, e < 0 ∧ (dnet_trans_process st E n).ret = some e) := by
  rw [process_of_header st E n hh, if_pos hrep]
  simp only [hs]
  obtain ⟨e1, e2, e3, e4⟩ :=
    request_drop_effects st E (header_read E).rest E.cmd (after_header st E n)
  refine ⟨by rw [e1]; rfl, ?_, ?_, ?_, ?_, ?_, ?_⟩
  · rw [e2]; simp [after_header, completions]
  · rw [e3]; simp [after_header, handler_calls]
  · rw [e4]; simp [after_header, sends]
  · intro hm hp
    obtain ⟨r1, r2⟩ := request_drop_ok st E (after_header st E n) hm hp
    have hx : rx_bytes st (after_header st E n).trace
        = rx_bytes st n.trace + log_bytes (header_read E).log := by
      simp [after_header, rx_bytes]
    refine ⟨r1, by rw [r2, hx], ?_⟩
    intro hlt hb
    rw [r2, hx]
    rcases payload_ok_cases E hp with h0 | ⟨h0, _, hrd⟩
    · simp [h0]
    · simp only [if_neg h0, payload_read]
      rw [recv_bytes _ _ hlt hb hrd]
  · intro hm
    simp [process_request, hm, err_out_unlock, err_out_destroy]
  · intro hm hp
    exact request_drop_fails st E (after_header st E n) hm hp

/-- Witness of C4 (amended): a reply numbered 6 with 4 payload bytes reaches the
example node, which has no transaction 6. -/
theorem unknown_reply_dropped_witness :
    header_ok (ex_env (ex_cmd (2 ^ 63 + 6) 0 4) 0) = true ∧
    (ex_env (ex_cmd (2 ^ 63 + 6) 0 4) 0).cmd.trans &&& DNET_TRANS_REPLY ≠ 0 ∧
    dnet_trans_search (ex_node 12).trans_root
      ((ex_env (ex_cmd (2 ^ 63 + 6) 0 4) 0).cmd.trans &&& DNET_TRANS_MASK) = none ∧
    (dnet_trans_process 7 (ex_env (ex_cmd (2 ^ 63 + 6) 0 4) 0) (ex_node 12)).n.trans_root
      = (ex_node 12).trans_root ∧
    (dnet_trans_process 7 (ex_env (ex_cmd (2 ^ 63 + 6) 0 4) 0) (ex_node 12)).ret = some 0 :=
  have h := unknown_reply_dropped 7 (ex_env (ex_cmd (2 ^ 63 + 6) 0 4) 0)
    (ex_node 12) (by decide) (by decide) (by decide)
  ⟨by decide, by decide, by decide, h.1, (h.2.2.2.2.1 (by decide) (by decide)).1⟩

/-- C4 (counterexample): a reply numbered 6 with 4 payload bytes reaches the
example node, which has no transaction 6, and the payload buffer cannot be
allocated: the call returns `-ENOMEM`, not 0, and has taken only the 88 header
bytes from the connection. -/
theorem unknown_reply_nomem :
    (dnet_trans_process 7 (ex_env_nomem (ex_cmd (2 ^ 63 + 6) 0 4) 0) (ex_node 12)).ret
      = some (-ENOMEM) ∧
    rx_bytes 7
      (dnet_trans_process 7 (ex_env_nomem (ex_cmd (2 ^ 63 + 6) 0 4) 0) (ex_node 12)).n.trace
      = 88 := by
  decide

/-! ## Effects of `dnet_trans_forward` -/

theorem forward_effects (n : dnet_node) (os : List io_outcome) (t : dnet_trans) (st : Nat) :
    (dnet_trans_forward n os t st).n.trans_root = n.trans_root ∧
    (dnet_trans_forward n os t st).n.refcnt = n.refcnt ∧
    (dnet_trans_forward n os t st).n.trans = n.trans ∧
    (dnet_trans_forward n os t st).n.st = n.st ∧
    completions (dnet_trans_forward n os t st).n.trace = completions n.trace ∧
    handler_calls (dnet_trans_forward n os t st).n.trace = handler_calls n.trace ∧
    freed (dnet_trans_forward n os t st).n.trace = freed n.trace ∧
    ((dnet_trans_forward n os t st).ret = none ∨ (dnet_trans_forward n os t st).ret = some 0) ∧
    sends (dnet_trans_forward n os t st).n.trace
      = sends n.trace ++
        (dnet_send os sizeof_el_cmd).log.map (fun p => (st, buf.cmd t.cmd, p.1, p.2)) ++
        (if (dnet_send os sizeof_el_cmd).ret = some 0 then
          (dnet_send (dnet_send os sizeof_el_cmd).rest (t.cmd.size % 4294967296)).log.map
            (fun p => (st, buf.data t.data, p.1, p.2))
         else []) := by
  unfold dnet_trans_forward
  rcases send_ret os sizeof_el_cmd with h1 | h1
  · simp [h1, completions, handler_calls, freed, sends, el_convert_cmd]
  · rcases send_ret (dnet_send os sizeof_el_cmd).rest (t.cmd.size % 4294967296) with h2 | h2
    · simp [h1, h2, completions, handler_calls, freed, sends, el_convert_cmd]
    · simp [h1, h2, completions, handler_calls, freed, sends, el_convert_cmd]

theorem forward_ret (n : dnet_node) (os : List io_outcome) (t : dnet_trans) (st : Nat) :
    (dnet_trans_forward n os t st).ret
      = if (dnet_send os sizeof_el_cmd).ret = some 0 then
          (dnet_send (dnet_send os sizeof_el_cmd).rest (t.cmd.size % 4294967296)).ret
        else none := by
  unfold dnet_trans_forward
  rcases send_ret os sizeof_el_cmd with h1 | h1
  · simp [h1]
  · rcases send_ret (dnet_send os sizeof_el_cmd).rest (t.cmd.size % 4294967296) with h2 | h2
    · simp [h1, h2]
    · simp [h1, h2]

/-! ## C5: a request forwarded to another peer -/

theorem routed_on_cases (st : Nat) (E : env) (n : dnet_node) (h : routed_on st E n = true) :
    E.route ≠ 0 ∧ E.route ≠ st ∧ E.route ≠ n.st := by
  simp only [routed_on, Bool.and_eq_true, decide_eq_true_eq] at h
  exact ⟨h.1.1, h.1.2, h.2⟩

theorem insert_fresh (n : dnet_node) (t : dnet_trans)
    (hs : dnet_trans_search n.trans_root (n.trans &&& DNET_TRANS_MASK) = none) :
    (dnet_trans_insert n t).1 = 0 ∧
    (dnet_trans_insert n t).2.2
      = { t with trans := n.trans &&& DNET_TRANS_MASK, rb_parent_color := 1 } ∧
    (dnet_trans_insert n t).2.1.trans_root
      = (dnet_trans_insert_raw n.trans_root
          { t with trans := n.trans &&& DNET_TRANS_MASK }).2 ∧
    (dnet_trans_insert n t).2.1.refcnt = n.refcnt ∧
    (dnet_trans_insert n t).2.1.trace = n.trace ∧
    (dnet_trans_insert n t).2.1.st = n.st ∧
    (dnet_trans_insert n t).2.1.trans = (n.trans + 1) % 2 ^ 64 := by
  have h0 := insert_raw_new n.trans_root { t with trans := n.trans &&& DNET_TRANS_MASK } hs
  refine ⟨h0, ?_, rfl, rfl, rfl, rfl, rfl⟩
  simp only [dnet_trans_insert, h0, if_true]

theorem request_forward_eq (st : Nat) (E : env) (n : dnet_node) (hh : header_ok E = true)
    (hreq : E.cmd.trans &&& DNET_TRANS_REPLY = 0) (hr : routed_on st E n = true)
    (hm : E.malloc_trans = true) (hp : payload_ok E = true)
    (hs : dnet_trans_search n.trans_root (n.trans &&& DNET_TRANS_MASK) = none) :
    dnet_trans_process st E n =
      match (dnet_trans_forward (before_forward st E n) E.tx (forward_trans st E n.trans)
          E.route).ret with
      | none => dnet_trans_forward (before_forward st E n) E.tx (forward_trans st E n.trans)
          E.route
      | some err =>
        if err ≠ 0 then
          err_out_destroy
            (dnet_state_put
              (dnet_trans_forward (before_forward st E n) E.tx (forward_trans st E n.trans)
                E.route).n E.route)
            (some (forward_trans st E n.trans)) err
        else
          ⟨dnet_state_put
            (dnet_trans_forward (before_forward st E n) E.tx (forward_trans st E n.trans)
              E.route).n E.route, some 0⟩ := by
  obtain ⟨r1, r2, r3⟩ := routed_on_cases st E n hr
  rw [process_of_header st E n hh, if_neg (by simpa using hreq)]
  have key : ∀ (m : dnet_node) (t : dnet_trans),
      m.trans = n.trans → m.trans_root = n.trans_root → m.st = n.st →
      t = { dnet_trans_zero with
            data := if E.cmd.size = 0 then none else some E.cmd.size } →
      before_forward st E n = (dnet_trans_insert
          (dnet_state_get (dnet_state_search (m.emit [event.unlock st]) E.route) st)
          { t with st := st, cmd := E.cmd }).2.1.store (forward_trans st E n.trans) →
      process_request_done st E E.cmd false m t =
        match (dnet_trans_forward (before_forward st E n) E.tx (forward_trans st E n.trans)
            E.route).ret with
        | none => dnet_trans_forward (before_forward st E n) E.tx (forward_trans st E n.trans)
            E.route
        | some err =>
          if err ≠ 0 then
            err_out_destroy
              (dnet_state_put
                (dnet_trans_forward (before_forward st E n) E.tx (forward_trans st E n.trans)
                  E.route).n E.route)
              (some (forward_trans st E n.trans)) err
          else
            ⟨dnet_state_put
              (dnet_trans_forward (before_forward st E n) E.tx (forward_trans st E n.trans)
                E.route).n E.route, some 0⟩ := by
    intro m t hmt hmr hms ht hbf
    have hs' : dnet_trans_search
        (dnet_state_get (dnet_state_search (m.emit [event.unlock st]) E.route) st).trans_root
        ((dnet_state_get (dnet_state_search (m.emit [event.unlock st]) E.route) st).trans
          &&& DNET_TRANS_MASK) = none := by
      simp only [dnet_state_search, if_neg r1, get_root, get_counter, emit_root, emit_counter,
        hmt, hmr]
      exact hs
    obtain ⟨i1, i2, _⟩ := insert_fresh _ { t with st := st, cmd := E.cmd } hs'
    have hcnt : (dnet_state_get (dnet_state_search (m.emit [event.unlock st]) E.route)
        st).trans = n.trans := by
      simp only [dnet_state_search, if_neg r1, get_counter, emit_counter, hmt]
    have hft : forward_trans st E n.trans =
        { ({ (dnet_trans_insert
              (dnet_state_get (dnet_state_search (m.emit [event.unlock st]) E.route) st)
              { t with st := st, cmd := E.cmd }).2.2 with
            recv_trans := (dnet_trans_insert
              (dnet_state_get (dnet_state_search (m.emit [event.unlock st]) E.route) st)
              { t with st := st, cmd := E.cmd }).2.2.cmd.trans } : dnet_trans) with
          cmd := { (dnet_trans_insert
              (dnet_state_get (dnet_state_search (m.emit [event.unlock st]) E.route) st)
              { t with st := st, cmd := E.cmd }).2.2.cmd with
            trans := (dnet_trans_insert
              (dnet_state_get (dnet_state_search (m.emit [event.unlock st]) E.route) st)
              { t with st := st, cmd := E.cmd }).2.2.trans } } := by
      rw [i2, hcnt, ht]
      rfl
    have hcond : ¬ (E.route = 0 ∨ E.route = st ∨
        E.route = (dnet_state_search (m.emit [event.unlock st]) E.route).st) := by
      simp only [dnet_state_search, if_neg r1, get_st, emit_st, hms]
      tauto
    simp only [process_request_done, Bool.false_eq_true, if_false, hcond, i1, ne_eq,
      not_true_eq_false]
    rw [← hft, ← hbf]
    try rfl
  rcases payload_ok_cases E hp with h0 | ⟨h0, hma, hrd⟩
  · simp only [process_request, hm, if_true, h0, ne_eq, not_true_eq_false, if_false]
    apply key
    · rfl
    · rfl
    · rfl
    · simp [h0, dnet_trans_zero]
    · simp [before_forward, h0, dnet_node.emit, dnet_trans_zero]
  · simp only [process_request, hm, if_true, h0, ne_eq, not_false_eq_true, hma, hrd,
      Int.lt_irrefl, if_false]
    apply key
    · rfl
    · rfl
    · rfl
    · simp [h0, dnet_trans_zero]
    · simp [before_forward, h0, payload_read, dnet_trans_zero]

theorem before_forward_root (st : Nat) (E : env) (n : dnet_node) (hr0 : E.route ≠ 0) :
    (before_forward st E n).trans_root
      = rb_store (dnet_trans_insert_raw n.trans_root
          { dnet_trans_zero with
            trans := n.trans &&& DNET_TRANS_MASK
            st := st, cmd := E.cmd
            data := if E.cmd.size = 0 then none else some E.cmd.size }).2
          (forward_trans st E n.trans) := by
  simp only [before_forward, store_root, forward_trans]
  simp [dnet_trans_insert, dnet_state_search, hr0, after_header, dnet_state_get]

theorem before_forward_search (st : Nat) (E : env) (n : dnet_node) (hr0 : E.route ≠ 0)
    (hs : dnet_trans_search n.trans_root (n.trans &&& DNET_TRANS_MASK) = none) :
    dnet_trans_search (before_forward st E n).trans_root (n.trans &&& DNET_TRANS_MASK)
      = some (forward_trans st E n.trans) ∧
    (∀ k, k ≠ n.trans &&& DNET_TRANS_MASK →
      dnet_trans_search (before_forward st E n).trans_root k = dnet_trans_search n.trans_root k) := by
  rw [before_forward_root st E n hr0]
  constructor
  · exact search_store_self _ (forward_trans st E n.trans) _
      (search_insert_raw_self n.trans_root _ hs)
  · intro k hk
    rw [search_store_other _ (forward_trans st E n.trans) k hk]
    exact search_insert_raw_other n.trans_root _ k hk

theorem before_forward_wf (st : Nat) (E : env) (n : dnet_node) (hr0 : E.route ≠ 0)
    (hst : st ≠ 0) (hs : dnet_trans_search n.trans_root (n.trans &&& DNET_TRANS_MASK) = none)
    (hw : registry_wf n.trans_root = true) :
    registry_wf (before_forward st E n).trans_root = true := by
  rw [before_forward_root st E n hr0]
  apply store_wf _ _ _ (by simp [forward_trans]) (by simpa [forward_trans] using hst)
  simp only [registry_wf, Bool.and_eq_true] at hw ⊢
  refine ⟨insert_raw_ordered _ _ hw.1, insert_raw_all _ _ _ hs ?_ hw.2⟩
  simpa using hst

theorem before_forward_rest (st : Nat) (E : env) (n : dnet_node) (hr0 : E.route ≠ 0) :
    (before_forward st E n).refcnt
      = Function.update (Function.update n.refcnt E.route (n.refcnt E.route + 1)) st
          (Function.update n.refcnt E.route (n.refcnt E.route + 1) st + 1) ∧
    (before_forward st E n).trans = (n.trans + 1) % 2 ^ 64 ∧
    (before_forward st E n).st = n.st ∧
    completions (before_forward st E n).trace = completions n.trace ∧
    handler_calls (before_forward st E n).trace = handler_calls n.trace ∧
    sends (before_forward st E n).trace = sends n.trace ∧
    freed (before_forward st E n).trace = freed n.trace := by
  simp only [before_forward, store_refcnt, store_counter, store_st, store_trace]
  refine ⟨?_, ?_, ?_, ?_, ?_, ?_, ?_⟩
  · simp [dnet_trans_insert, dnet_state_search, hr0, after_header, dnet_state_get]
  · simp [dnet_trans_insert, dnet_state_search, hr0, after_header, dnet_state_get]
  · simp [dnet_trans_insert, dnet_state_search, hr0, after_header, dnet_state_get]
  · simp only [dnet_trans_insert, dnet_state_search, if_neg hr0, get_trace, emit_trace,
      after_header, completions_append, completions_rx]
    split_ifs <;> simp [completions]
  · simp only [dnet_trans_insert, dnet_state_search, if_neg hr0, get_trace, emit_trace,
      after_header, handler_calls_append, handler_calls_rx]
    split_ifs <;> simp [handler_calls]
  · simp only [dnet_trans_insert, dnet_state_search, if_neg hr0, get_trace, emit_trace,
      after_header, sends_append, sends_rx]
    split_ifs <;> simp [sends]
  · simp only [dnet_trans_insert, dnet_state_search, if_neg hr0, get_trace, emit_trace,
      after_header, freed_append, freed_rx]
    split_ifs <;> simp [freed]

/-- C5: a request (REPLY bit clear) that the routing lookup assigns to a peer
other than the node itself and the peer `st` it arrived on is, when
registration and the forward send succeed, registered as exactly one new
transaction: its number is the newly allocated one (the counter with bit 63
cleared), its `recv_trans` is the `trans` of the received header, its
`cmd.trans` is its own number and its peer is `st`, whose refcount is one
higher after the call (that of the target is as before). Every byte sent goes
to the target peer, and the header sent carries the new number. -/
theorem request_forwarded_registered (st : Nat) (E : env) (n : dnet_node)
    (hh : header_ok E = true) (hreq : E.cmd.trans &&& DNET_TRANS_REPLY = 0)
    (hr : routed_on st E n = true) (hm : E.malloc_trans = true) (hp : payload_ok E = true)
    (hs : dnet_trans_search n.trans_root (n.trans &&& DNET_TRANS_MASK) = none)
    (hf : forward_ok E = true) :
    (dnet_trans_process st E n).ret = some 0 ∧
    dnet_trans_search (dnet_trans_process st E n).n.trans_root (n.trans &&& DNET_TRANS_MASK)
      = some (forward_trans st E n.trans) ∧
    (∀ k, k ≠ n.trans &&& DNET_TRANS_MASK →
      dnet_trans_search (dnet_trans_process st E n).n.trans_root k
        = dnet_trans_search n.trans_root k) ∧
    (forward_trans st E n.trans).trans = n.trans % 2 ^ 63 ∧
    (forward_trans st E n.trans).recv_trans = E.cmd.trans ∧
    (forward_trans st E n.trans).cmd.trans = (forward_trans st E n.trans).trans ∧
    (forward_trans st E n.trans).st = st ∧
    (dnet_trans_process st E n).n.refcnt st = n.refcnt st + 1 ∧
    (dnet_trans_process st E n).n.refcnt E.route = n.refcnt E.route ∧
    sends (dnet_trans_process st E n).n.trace
      = sends n.trace ++
        (forward_header E).log.map
          (fun p => (E.route, buf.cmd { E.cmd with trans := n.trans % 2 ^ 63 }, p.1, p.2)) ++
        (forward_payload E).log.map
          (fun p => (E.route, buf.data (forward_trans st E n.trans).data, p.1, p.2)) ∧
    completions (dnet_trans_process st E n).n.trace = completions n.trace ∧
    handler_calls (dnet_trans_process st E n).n.trace = handler_calls n.trace := by
  obtain ⟨r1, r2, r3⟩ := routed_on_cases st E n hr
  simp only [forward_ok, Bool.and_eq_true, decide_eq_true_eq] at hf
  obtain ⟨f1, f2⟩ := hf
  unfold forward_payload at f2
  unfold forward_header at f1 f2
  have hsize : (forward_trans st E n.trans).cmd.size = E.cmd.size := rfl
  have hret := forward_ret (before_forward st E n) E.tx (forward_trans st E n.trans) E.route
  rw [if_pos f1, hsize, f2] at hret
  obtain ⟨e1, e2, _, _, e5, e6, _, _, e9⟩ :=
    forward_effects (before_forward st E n) E.tx (forward_trans st E n.trans) E.route
  rw [if_pos f1, hsize] at e9
  obtain ⟨b1, b2⟩ := before_forward_search st E n r1 hs
  obtain ⟨c1, _, _, c4, c5, c6, _⟩ := before_forward_rest st E n r1
  rw [request_forward_eq st E n hh hreq hr hm hp hs]
  simp only [hret, ne_eq, not_true_eq_false, if_false, put_root, e1, put_completions,
    put_handler_calls, put_sends, e5, e6, e9, c4, c5, c6, put_refcnt, if_neg r1, e2, c1]
  refine ⟨trivial, b1, b2, mask_eq n.trans, rfl, rfl, rfl, ?_, ?_, ?_, trivial, trivial⟩
  · simp [Function.update, r2, Ne.symm r2]
  · simp [Function.update, r2, Ne.symm r2]
  · simp only [forward_header, forward_payload, forward_trans, mask_eq]

/-- Witness of C5: peer 7 sends the example node a request numbered 40 with 4
payload bytes that the routing lookup assigns to peer 9. -/
theorem request_forwarded_registered_witness :
    header_ok (ex_env (ex_cmd 40 0 4) 9) = true ∧
    (ex_env (ex_cmd 40 0 4) 9).cmd.trans &&& DNET_TRANS_REPLY = 0 ∧
    routed_on 7 (ex_env (ex_cmd 40 0 4) 9) (ex_node 12) = true ∧
    payload_ok (ex_env (ex_cmd 40 0 4) 9) = true ∧
    dnet_trans_search (ex_node 12).trans_root ((ex_node 12).trans &&& DNET_TRANS_MASK) = none ∧
    forward_ok (ex_env (ex_cmd 40 0 4) 9) = true ∧
    (dnet_trans_process 7 (ex_env (ex_cmd 40 0 4) 9) (ex_node 12)).ret = some 0 ∧
    dnet_trans_search (dnet_trans_process 7 (ex_env (ex_cmd 40 0 4) 9) (ex_node 12)).n.trans_root
      ((ex_node 12).trans &&& DNET_TRANS_MASK)
      = some (forward_trans 7 (ex_env (ex_cmd 40 0 4) 9) (ex_node 12).trans) ∧
    (dnet_trans_process 7 (ex_env (ex_cmd 40 0 4) 9) (ex_node 12)).n.refcnt 7
      = (ex_node 12).refcnt 7 + 1 :=
  have h := request_forwarded_registered 7 (ex_env (ex_cmd 40 0 4) 9) (ex_node 12)
    (by decide) (by decide) (by decide) (by decide) (by decide) (by decide) (by decide)
  ⟨by decide, by decide, by decide, by decide, by decide, by decide, h.1, h.2.1,
   h.2.2.2.2.2.2.2.1⟩

/-! ## C6: a reply to a forwarded transaction -/

theorem reply_bit_set (x : Nat) : (x ||| DNET_TRANS_REPLY) &&& DNET_TRANS_REPLY ≠ 0 := by
  intro h
  have h1 : ((x ||| DNET_TRANS_REPLY) &&& DNET_TRANS_REPLY).testBit 63 = true := by
    rw [Nat.testBit_and, Nat.testBit_or]
    have : DNET_TRANS_REPLY.testBit 63 = true := by decide
    simp [this]
  rw [h] at h1
  simp at h1

theorem reply_bit_mask (x : Nat) : (x ||| DNET_TRANS_REPLY) &&& DNET_TRANS_MASK = x % 2 ^ 63 := by
  rw [mask_eq]
  apply Nat.eq_of_testBit_eq
  intro i
  rw [Nat.testBit_mod_two_pow, Nat.testBit_mod_two_pow, Nat.testBit_or]
  by_cases h : i < 63
  · have : DNET_TRANS_REPLY.testBit i = false := by
      unfold DNET_TRANS_REPLY
      rw [Nat.testBit_two_pow]
      simp; omega
    simp [h, this]
  · simp [h]

theorem reply_done_forward (st : Nat) (E : env) (cmd : el_cmd) (n : dnet_node)
    (t : dnet_trans) (hc : t.complete = 0) :
    sends (process_reply_done st E cmd n t).n.trace
      = sends n.trace ++
        (dnet_send E.tx sizeof_el_cmd).log.map
          (fun p => (t.st, buf.cmd { cmd with trans := t.recv_trans ||| DNET_TRANS_REPLY },
            p.1, p.2)) ++
        (if (dnet_send E.tx sizeof_el_cmd).ret = some 0 then
          (dnet_send (dnet_send E.tx sizeof_el_cmd).rest (cmd.size % 4294967296)).log.map
            (fun p => (t.st, buf.data t.data, p.1, p.2))
         else []) ∧
    completions (process_reply_done st E cmd n t).n.trace = completions n.trace ∧
    (process_reply_done st E cmd n t).ret
      = if (dnet_send E.tx sizeof_el_cmd).ret = some 0 then
          (dnet_send (dnet_send E.tx sizeof_el_cmd).rest (cmd.size % 4294967296)).ret
        else none := by
  have hF := forward_effects
      ((n.emit [event.unlock st]).store
        { t with cmd := { cmd with trans := t.recv_trans ||| DNET_TRANS_REPLY } })
      E.tx { t with cmd := { cmd with trans := t.recv_trans ||| DNET_TRANS_REPLY } } t.st
  have hR := forward_ret
      ((n.emit [event.unlock st]).store
        { t with cmd := { cmd with trans := t.recv_trans ||| DNET_TRANS_REPLY } })
      E.tx { t with cmd := { cmd with trans := t.recv_trans ||| DNET_TRANS_REPLY } } t.st
  have heq : process_reply_done st E cmd n t =
      match (dnet_trans_forward
          ((n.emit [event.unlock st]).store
            { t with cmd := { cmd with trans := t.recv_trans ||| DNET_TRANS_REPLY } })
          E.tx { t with cmd := { cmd with trans := t.recv_trans ||| DNET_TRANS_REPLY } }
          t.st).ret with
      | none => dnet_trans_forward
          ((n.emit [event.unlock st]).store
            { t with cmd := { cmd with trans := t.recv_trans ||| DNET_TRANS_REPLY } })
          E.tx { t with cmd := { cmd with trans := t.recv_trans ||| DNET_TRANS_REPLY } } t.st
      | some _ =>
        if cmd.flags &&& DNET_FLAGS_MORE = 0 then
          ⟨dnet_trans_destroy (dnet_trans_forward
            ((n.emit [event.unlock st]).store
              { t with cmd := { cmd with trans := t.recv_trans ||| DNET_TRANS_REPLY } })
            E.tx { t with cmd := { cmd with trans := t.recv_trans ||| DNET_TRANS_REPLY } }
            t.st).n
            (some { t with cmd := { cmd with trans := t.recv_trans ||| DNET_TRANS_REPLY } }),
           some 0⟩
        else ⟨(dnet_trans_forward
            ((n.emit [event.unlock st]).store
              { t with cmd := { cmd with trans := t.recv_trans ||| DNET_TRANS_REPLY } })
            E.tx { t with cmd := { cmd with trans := t.recv_trans ||| DNET_TRANS_REPLY } }
            t.st).n, some 0⟩ := by
    have hn : ¬ ({ t with cmd := { cmd with trans := t.recv_trans ||| DNET_TRANS_REPLY } }
        : dnet_trans).complete ≠ 0 := by
      simp [hc]
    unfold process_reply_done
    simp only [if_neg hn]
    try rfl
  rw [heq]
  clear heq
  simp only [store_trace, emit_trace, sends_append, completions_append] at hF
  generalize dnet_trans_forward
      ((n.emit [event.unlock st]).store
        { t with cmd := { cmd with trans := t.recv_trans ||| DNET_TRANS_REPLY } })
      E.tx { t with cmd := { cmd with trans := t.recv_trans ||| DNET_TRANS_REPLY } } t.st = F
    at hF hR ⊢
  obtain ⟨_, _, _, _, e5, _, _, e8, e9⟩ := hF
  rw [← hR]
  rcases F with ⟨Fn, Fret⟩
  cases Fret with
  | none =>
    dsimp only at e5 e9 ⊢
    exact ⟨by rw [e9]; simp [sends], by rw [e5]; simp [completions], rfl⟩
  | some v =>
    dsimp only at e5 e9 e8
    have hv : v = 0 := by simpa using e8
    subst hv
    dsimp only
    by_cases hm : cmd.flags &&& DNET_FLAGS_MORE = 0
    · rw [if_pos hm]
      dsimp only
      exact ⟨by rw [destroy_sends, e9]; simp [sends],
        by rw [destroy_completions, e5]; simp [completions], rfl⟩
    · rw [if_neg hm]
      dsimp only
      exact ⟨by rw [e9]; simp [sends], by rw [e5]; simp [completions], rfl⟩

theorem remove_keeps (root : rb_node) (t : dnet_trans) (c : Prop) [Decidable c] :
    (if c then dnet_trans_remove_nolock root t else (root, t)).2.complete = t.complete ∧
    (if c then dnet_trans_remove_nolock root t else (root, t)).2.st = t.st ∧
    (if c then dnet_trans_remove_nolock root t else (root, t)).2.recv_trans = t.recv_trans ∧
    (if c then dnet_trans_remove_nolock root t else (root, t)).2.data = t.data := by
  unfold dnet_trans_remove_nolock
  split_ifs <;> exact ⟨rfl, rfl, rfl, rfl⟩

theorem reply_forward_step (st : Nat) (E : env) (n : dnet_node) (t : dnet_trans)
    (hh : header_ok E = true) (hrep : E.cmd.trans &&& DNET_TRANS_REPLY ≠ 0)
    (hs : dnet_trans_search n.trans_root (E.cmd.trans &&& DNET_TRANS_MASK) = some t)
    (hp : payload_ok E = true) (hc : t.complete = 0) :
    sends (dnet_trans_process st E n).n.trace
      = sends n.trace ++
        (forward_header E).log.map
          (fun p => (t.st, buf.cmd { E.cmd with trans := t.recv_trans ||| DNET_TRANS_REPLY },
            p.1, p.2)) ++
        (if (forward_header E).ret = some 0 then
          (forward_payload E).log.map
            (fun p => (t.st, buf.data (if E.cmd.size = 0 then t.data else some E.cmd.size),
              p.1, p.2))
         else []) ∧
    completions (dnet_trans_process st E n).n.trace = completions n.trace ∧
    (dnet_trans_process st E n).ret
      = if (forward_header E).ret = some 0 then (forward_payload E).ret else none := by
  rw [process_of_header st E n hh, if_pos hrep]
  simp only [hs, forward_header, forward_payload]
  obtain ⟨k1, k2, k3, k4⟩ :=
    remove_keeps (after_header st E n).trans_root t (E.cmd.flags &&& DNET_FLAGS_MORE = 0)
  rcases payload_ok_cases E hp with h0 | ⟨h0, hma, hrd⟩
  · simp only [process_reply, h0, ne_eq, not_true_eq_false, if_false, if_true]
    generalize (if E.cmd.flags &&& DNET_FLAGS_MORE = 0 then
        dnet_trans_remove_nolock (after_header st E n).trans_root t
        else ((after_header st E n).trans_root, t)) = p at k1 k2 k3 k4 ⊢
    obtain ⟨a1, a2, a3⟩ := reply_done_forward st E E.cmd
      { after_header st E n with trans_root := p.1 } p.2 (by rw [k1]; exact hc)
    rw [a1, a2, a3, k2, k3, k4]
    refine ⟨?_, ?_, ?_⟩
    · simp [h0, after_header, sends]
    · simp [after_header, completions]
    · simp [h0]
  · simp only [process_reply, h0, ne_eq, not_false_eq_true, if_true, hma, hrd, Int.lt_irrefl,
      if_false]
    generalize (if E.cmd.flags &&& DNET_FLAGS_MORE = 0 then
        dnet_trans_remove_nolock (after_header st E n).trans_root t
        else ((after_header st E n).trans_root, t)) = p at k1 k2 k3 k4 ⊢
    obtain ⟨a1, a2, a3⟩ := reply_done_forward st E E.cmd
      (({ after_header st E n with trans_root := p.1 }.store
          { p.2 with data := some E.cmd.size }).emit
        (rx_events st (dnet_recv (header_read E).rest E.cmd.size).log))
      { p.2 with data := some E.cmd.size } (by rw [← k1] at hc; exact hc)
    rw [a1, a2, a3]
    simp only [k2, k3]
    refine ⟨?_, ?_, ?_⟩
    · simp [after_header, sends]
    · simp [after_header, completions]
    · trivial

theorem request_forward_search (st : Nat) (E : env) (n : dnet_node)
    (hh : header_ok E = true) (hreq : E.cmd.trans &&& DNET_TRANS_REPLY = 0)
    (hr : routed_on st E n = true) (hm : E.malloc_trans = true) (hp : payload_ok E = true)
    (hs : dnet_trans_search n.trans_root (n.trans &&& DNET_TRANS_MASK) = none) :
    dnet_trans_search (dnet_trans_process st E n).n.trans_root (n.trans &&& DNET_TRANS_MASK)
      = some (forward_trans st E n.trans) := by
  obtain ⟨r1, _, _⟩ := routed_on_cases st E n hr
  obtain ⟨e1, _⟩ :=
    forward_effects (before_forward st E n) E.tx (forward_trans st E n.trans) E.route
  obtain ⟨b1, _⟩ := before_forward_search st E n r1 hs
  rw [request_forward_eq st E n hh hreq hr hm hp hs]
  cases hret : (dnet_trans_forward (before_forward st E n) E.tx (forward_trans st E n.trans)
      E.route).ret with
  | none => simp only [hret]; rw [e1]; exact b1
  | some v =>
    have hv : v = 0 := by
      have := (forward_effects (before_forward st E n) E.tx (forward_trans st E n.trans)
        E.route).2.2.2.2.2.2.2.1
      rw [hret] at this
      simpa using this
    subst hv
    simp only [hret, ne_eq, not_true_eq_false, if_false, put_root]
    rw [e1]; exact b1

/-- C6: when a reply arrives for a registered transaction `t` that has no
completion, every header `dnet_trans_process` sends goes to `t`'s peer and is
the received header with `trans` replaced by `t.recv_trans | REPLY`: REPLY bit
set, the low 63 bits those of `recv_trans`, and id, size, flags and status as
received; no completion runs. Round trip: a request numbered `X` that peer `up`
sent and that was forwarded under a fresh local number comes back to `up`
numbered `X | REPLY` when the reply to the local number arrives. -/
theorem forwarded_reply_header (st : Nat) (n : dnet_node) (t : dnet_trans)
    (hc : t.complete = 0) :
    (∀ E : env, header_ok E = true → E.cmd.trans &&& DNET_TRANS_REPLY ≠ 0 →
      dnet_trans_search n.trans_root (E.cmd.trans &&& DNET_TRANS_MASK) = some t →
      payload_ok E = true →
      sends (dnet_trans_process st E n).n.trace
        = sends n.trace ++
          (forward_header E).log.map
            (fun p => (t.st, buf.cmd { E.cmd with trans := t.recv_trans ||| DNET_TRANS_REPLY },
              p.1, p.2)) ++
          (if (forward_header E).ret = some 0 then
            (forward_payload E).log.map
              (fun p => (t.st, buf.data (if E.cmd.size = 0 then t.data else some E.cmd.size),
                p.1, p.2))
           else []) ∧
      (t.recv_trans ||| DNET_TRANS_REPLY) &&& DNET_TRANS_REPLY ≠ 0 ∧
      (t.recv_trans ||| DNET_TRANS_REPLY) &&& DNET_TRANS_MASK = t.recv_trans % 2 ^ 63 ∧
      completions (dnet_trans_process st E n).n.trace = completions n.trace) ∧
    (∀ (up st2 : Nat) (E1 E2 : env) (m : dnet_node),
      header_ok E1 = true → E1.cmd.trans &&& DNET_TRANS_REPLY = 0 →
      routed_on up E1 m = true → E1.malloc_trans = true → payload_ok E1 = true →
      dnet_trans_search m.trans_root (m.trans &&& DNET_TRANS_MASK) = none →
      header_ok E2 = true → payload_ok E2 = true →
      E2.cmd.trans = (m.trans &&& DNET_TRANS_MASK) ||| DNET_TRANS_REPLY →
      sends (dnet_trans_process st2 E2 (dnet_trans_process up E1 m).n).n.trace
        = sends (dnet_trans_process up E1 m).n.trace ++
          (forward_header E2).log.map
            (fun p => (up, buf.cmd { E2.cmd with trans := E1.cmd.trans ||| DNET_TRANS_REPLY },
              p.1, p.2)) ++
          (if (forward_header E2).ret = some 0 then
            (forward_payload E2).log.map
              (fun p => (up, buf.data (if E2.cmd.size = 0
                  then (if E1.cmd.size = 0 then none else some E1.cmd.size)
                  else some E2.cmd.size), p.1, p.2))
           else [])) := by
  constructor
  · intro E hh hrep hs hp
    obtain ⟨a1, a2, _⟩ := reply_forward_step st E n t hh hrep hs hp hc
    exact ⟨a1, reply_bit_set _, reply_bit_mask _, a2⟩
  · intro up st2 E1 E2 m hh1 hreq hr hm hp1 hs hh2 hp2 he
    have hfound := request_forward_search up E1 m hh1 hreq hr hm hp1 hs
    have hkey : E2.cmd.trans &&& DNET_TRANS_MASK = m.trans &&& DNET_TRANS_MASK := by
      rw [he, reply_bit_mask, mask_eq, Nat.mod_mod]
    have hrep : E2.cmd.trans &&& DNET_TRANS_REPLY ≠ 0 := by
      rw [he]; exact reply_bit_set _
    obtain ⟨a1, _, _⟩ := reply_forward_step st2 E2 (dnet_trans_process up E1 m).n
      (forward_trans up E1 m.trans) hh2 hrep (by rw [hkey]; exact hfound) hp2 rfl
    rw [a1]
    rfl

/-- Witness of C6: a reply to the forwarded transaction 9 of the example node,
which came from peer 8 under the number 4. -/
theorem forwarded_reply_header_witness :
    (ex_fwd 9).complete = 0 ∧
    header_ok (ex_env (ex_cmd (2 ^ 63 + 9) 0 4) 0) = true ∧
    payload_ok (ex_env (ex_cmd (2 ^ 63 + 9) 0 4) 0) = true ∧
    dnet_trans_search (ex_node 12).trans_root
      ((ex_env (ex_cmd (2 ^ 63 + 9) 0 4) 0).cmd.trans &&& DNET_TRANS_MASK) = some (ex_fwd 9) ∧
    sends (dnet_trans_process 7 (ex_env (ex_cmd (2 ^ 63 + 9) 0 4) 0) (ex_node 12)).n.trace
      = [(8, buf.cmd (ex_cmd (2 ^ 63 + 4) 0 4), 0, 88), (8, buf.data (some 4), 0, 4)] :=
  have h := ((forwarded_reply_header 7 (ex_node 12) (ex_fwd 9) (by decide)).1
    (ex_env (ex_cmd (2 ^ 63 + 9) 0 4) 0) (by decide) (by decide) (by decide) (by decide)).1
  ⟨by decide, by decide, by decide, by decide, h.trans (by decide)⟩

/-! ## C8: a forward that fails -/

theorem send_at_all_fail (orig : Nat) (os : List io_outcome) :
    (∀ o ∈ os, send_fails o = true) → ∀ size off, orig ≠ 0 → size ≠ 0 →
      dnet_send_at orig os size off = ⟨none, [], []⟩ := by
  induction os with
  | nil => intro _ size off _ hs; simp [dnet_send_at, hs]
  | cons o os ih =>
    intro h size off ho hs
    rw [send_at_fails orig size off o os hs (h o (List.mem_cons_self _ _))]
    exact ih (fun x hx => h x (List.mem_cons_of_mem _ hx)) orig 0 ho ho

theorem insert_dup (n : dnet_node) (t x : dnet_trans)
    (hs : dnet_trans_search n.trans_root (n.trans &&& DNET_TRANS_MASK) = some x) :
    (dnet_trans_insert n t).1 = -EEXIST ∧
    (dnet_trans_insert n t).2.2 = { t with trans := n.trans &&& DNET_TRANS_MASK } ∧
    (dnet_trans_insert n t).2.1.trans_root = n.trans_root ∧
    (dnet_trans_insert n t).2.1.refcnt = n.refcnt ∧
    (dnet_trans_insert n t).2.1.trace = n.trace := by
  have h0 := insert_raw_dup n.trans_root { t with trans := n.trans &&& DNET_TRANS_MASK } x hs
  have hne : ¬ (-EEXIST : Int) = 0 := by decide
  simp only [dnet_trans_insert, h0, if_neg hne]
  exact ⟨trivial, trivial, trivial, trivial, trivial⟩

theorem request_done_dup (st : Nat) (E : env) (n m : dnet_node) (x : dnet_trans)
    (hr : routed_on st E n = true) (hst : st ≠ 0)
    (hs : dnet_trans_search n.trans_root (n.trans &&& DNET_TRANS_MASK) = some x)
    (hmt : m.trans = n.trans) (hmr : m.trans_root = n.trans_root) (hms : m.st = n.st)
    (hmc : m.refcnt = n.refcnt) (hmsend : sends m.trace = sends n.trace)
    (hmfreed : freed m.trace = freed n.trace) :
    (process_request_done st E E.cmd false m
        { dnet_trans_zero with
          data := if E.cmd.size = 0 then none else some E.cmd.size }).ret
      = some (-EEXIST) ∧
    (process_request_done st E E.cmd false m
        { dnet_trans_zero with
          data := if E.cmd.size = 0 then none else some E.cmd.size }).n.trans_root
      = n.trans_root ∧
    sends (process_request_done st E E.cmd false m
        { dnet_trans_zero with
          data := if E.cmd.size = 0 then none else some E.cmd.size }).n.trace
      = sends n.trace ∧
    freed (process_request_done st E E.cmd false m
        { dnet_trans_zero with
          data := if E.cmd.size = 0 then none else some E.cmd.size }).n.trace
      = freed n.trace ++
        [{ dnet_trans_zero with
           trans := n.trans &&& DNET_TRANS_MASK
           st := st
           cmd := E.cmd
           data := if E.cmd.size = 0 then none else some E.cmd.size }] ∧
    (process_request_done st E E.cmd false m
        { dnet_trans_zero with
          data := if E.cmd.size = 0 then none else some E.cmd.size }).n.refcnt st
      = n.refcnt st ∧
    (process_request_done st E E.cmd false m
        { dnet_trans_zero with
          data := if E.cmd.size = 0 then none else some E.cmd.size }).n.refcnt E.route
      = n.refcnt E.route := by
  obtain ⟨r1, r2, r3⟩ := routed_on_cases st E n hr
  have hs' : dnet_trans_search
      (dnet_state_get (dnet_state_search (m.emit [event.unlock st]) E.route) st).trans_root
      ((dnet_state_get (dnet_state_search (m.emit [event.unlock st]) E.route) st).trans
        &&& DNET_TRANS_MASK) = some x := by
    simp only [dnet_state_search, if_neg r1, get_root, get_counter, emit_root, emit_counter,
      hmt, hmr]
    exact hs
  have hcnt : (dnet_state_get (dnet_state_search (m.emit [event.unlock st]) E.route)
      st).trans = n.trans := by
    simp only [dnet_state_search, if_neg r1, get_counter, emit_counter, hmt]
  obtain ⟨j1, j2, j3, j4, j5⟩ := insert_dup _
    { ({ dnet_trans_zero with
          data := if E.cmd.size = 0 then none else some E.cmd.size } : dnet_trans) with
      st := st, cmd := E.cmd } x hs'
  rw [hcnt] at j2
  have hcond : ¬ (E.route = 0 ∨ E.route = st ∨
      E.route = (dnet_state_search (m.emit [event.unlock st]) E.route).st) := by
    simp only [dnet_state_search, if_neg r1, get_st, emit_st, hms]
    tauto
  have hne : ¬ (-EEXIST : Int) = 0 := by decide
  simp only [process_request_done, Bool.false_eq_true, if_false, hcond, j1, ne_eq, hne,
    not_false_eq_true, if_true, err_out_destroy, j2]
  refine ⟨trivial, ?_, ?_, ?_, ?_, ?_⟩
  · rw [destroy_root, put_root, j3]
    simp [dnet_trans_zero, dnet_state_search, r1, hmr]
  · rw [destroy_sends, put_sends, j5]
    simp [dnet_state_search, r1, sends, hmsend]
  · rw [destroy_freed, put_freed, j5]
    simp [dnet_trans_zero, dnet_state_search, r1, freed, hmfreed]
  · rw [destroy_refcnt, put_refcnt, j4]
    simp only [dnet_state_search, if_neg r1, dnet_state_get, emit_refcnt, hmc]
    simp [Function.update, r2, Ne.symm r2, hst, r1]
  · rw [destroy_refcnt, put_refcnt, j4]
    simp only [dnet_state_search, if_neg r1, dnet_state_get, emit_refcnt, hmc]
    simp [Function.update, r2, Ne.symm r2, hst, r1]

theorem request_forward_dup (st : Nat) (E : env) (n : dnet_node) (x : dnet_trans)
    (hh : header_ok E = true) (hreq : E.cmd.trans &&& DNET_TRANS_REPLY = 0)
    (hr : routed_on st E n = true) (hst : st ≠ 0) (hm : E.malloc_trans = true) (hp : payload_ok E = true)
    (hs : dnet_trans_search n.trans_root (n.trans &&& DNET_TRANS_MASK) = some x) :
    (dnet_trans_process st E n).ret = some (-EEXIST) ∧
    (dnet_trans_process st E n).n.trans_root = n.trans_root ∧
    sends (dnet_trans_process st E n).n.trace = sends n.trace ∧
    freed (dnet_trans_process st E n).n.trace
      = freed n.trace ++
        [{ dnet_trans_zero with
           trans := n.trans &&& DNET_TRANS_MASK
           st := st
           cmd := E.cmd
           data := if E.cmd.size = 0 then none else some E.cmd.size }] ∧
    (dnet_trans_process st E n).n.refcnt st = n.refcnt st ∧
    (dnet_trans_process st E n).n.refcnt E.route = n.refcnt E.route := by
  rw [process_of_header st E n hh, if_neg (by simpa using hreq)]
  rcases payload_ok_cases E hp with h0 | ⟨h0, hma, hrd⟩
  · simp only [process_request, hm, if_true, h0, ne_eq, not_true_eq_false, if_false]
    have := request_done_dup st E n (after_header st E n) x hr hst hs rfl rfl rfl rfl
      (by simp [after_header, sends]) (by simp [after_header, freed])
    simp only [h0, if_true] at this
    exact this
  · simp only [process_request, hm, if_true, h0, ne_eq, not_false_eq_true, hma, hrd,
      Int.lt_irrefl, if_false]
    have := request_done_dup st E n
      ((after_header st E n).emit (rx_events st (dnet_recv (header_read E).rest E.cmd.size).log))
      x hr hst hs rfl rfl rfl rfl
      (by simp [after_header, sends]) (by simp [after_header, freed])
    simp only [h0, if_false] at this
    exact this

theorem send_at_pass_done (orig : Nat) (os : List io_outcome) (tail : List io_outcome) :
    ∀ size off, size < 4294967296 → pass_done os size = true →
      (dnet_send_at orig (os ++ tail) size off).ret = some 0 ∧
      (dnet_send_at orig (os ++ tail) size off).rest = tail := by
  induction os with
  | nil =>
    intro size off _ h
    simp only [pass_done, decide_eq_true_eq] at h
    subst h
    cases tail <;> simp [dnet_send_at]
  | cons o os ih =>
    intro size off hs h
    by_cases h0 : size = 0
    · simp [pass_done, h0] at h
    by_cases ha : send_again o = true
    · simp only [pass_done, if_neg h0, if_pos ha] at h
      rw [List.cons_append, send_at_again orig size off o _ h0 ha]
      exact ih size off hs h
    simp only [pass_done, if_neg h0, if_neg ha, Bool.and_eq_true, decide_eq_true_eq,
      Bool.not_eq_true'] at h
    obtain ⟨⟨⟨⟨c1, c2⟩, c3⟩, c4⟩, c5⟩ := h
    have hk : send_moves o (to_int o.ret).toNat = true := by
      simp only [send_moves, c1, c2, Bool.not_false, Bool.true_and, decide_True,
        decide_eq_true_eq]
      omega
    rw [List.cons_append, send_at_moves orig size off (to_int o.ret).toNat o _ h0 (by omega) hk]
    have hsub : u32_sub size ((to_int o.ret).toNat : Int) = size - (to_int o.ret).toNat := by
      unfold u32_sub
      omega
    rw [hsub]
    exact ih (size - (to_int o.ret).toNat) (off + (to_int o.ret).toNat) (by omega) c5

theorem send_at_pass_fails (orig : Nat) (os : List io_outcome) (tail : List io_outcome) :
    ∀ size off, size < 4294967296 → pass_fails os size = true →
      (dnet_send_at orig (os ++ tail) size off).ret = (dnet_send_at orig tail orig 0).ret ∧
      (dnet_send_at orig (os ++ tail) size off).rest = (dnet_send_at orig tail orig 0).rest := by
  induction os with
  | nil => intro size off _ h; simp [pass_fails] at h
  | cons o os ih =>
    intro size off hs h
    by_cases h0 : size = 0
    · simp [pass_fails, h0] at h
    by_cases ha : send_again o = true
    · simp only [pass_fails, if_neg h0, if_pos ha] at h
      rw [List.cons_append, send_at_again orig size off o _ h0 ha]
      exact ih size off hs h
    by_cases hf : (send_fails o || o.need_exit) = true
    · simp only [pass_fails, if_neg h0, if_neg ha, if_pos hf, List.isEmpty_iff] at h
      subst h
      simp only [List.cons_append, List.nil_append]
      rcases Bool.or_eq_true _ _ ▸ hf with hf | hf
      · rw [send_at_fails orig size off o tail h0 hf]
        exact ⟨rfl, rfl⟩
      · rw [send_at_need_exit orig size off o tail h0 hf]
        exact ⟨rfl, rfl⟩
    simp only [Bool.or_eq_true, not_or, Bool.not_eq_true] at hf
    simp only [pass_fails, if_neg h0, if_neg ha, hf.1, hf.2, Bool.or_self, Bool.false_eq_true,
      if_false, Bool.and_eq_true, decide_eq_true_eq] at h
    obtain ⟨⟨⟨c2, c3⟩, c4⟩, c5⟩ := h
    have hk : send_moves o (to_int o.ret).toNat = true := by
      simp only [send_moves, hf.2, c2, Bool.not_false, Bool.true_and, decide_True,
        decide_eq_true_eq]
      omega
    rw [List.cons_append, send_at_moves orig size off (to_int o.ret).toNat o _ h0 (by omega) hk]
    have hsub : u32_sub size ((to_int o.ret).toNat : Int) = size - (to_int o.ret).toNat := by
      unfold u32_sub
      omega
    rw [hsub]
    exact ih (size - (to_int o.ret).toNat) (off + (to_int o.ret).toNat) (by omega) c5

theorem send_at_passes (orig : Nat) (horig : orig < 4294967296) (tail : List io_outcome)
    (ps : List (List io_outcome)) :
    (∀ p ∈ ps, pass_fails p orig = true) →
      (dnet_send_at orig (ps.flatten ++ tail) orig 0).ret = (dnet_send_at orig tail orig 0).ret ∧
      (dnet_send_at orig (ps.flatten ++ tail) orig 0).rest
        = (dnet_send_at orig tail orig 0).rest := by
  induction ps with
  | nil => intro _; exact ⟨rfl, rfl⟩
  | cons p ps ih =>
    intro h
    obtain ⟨i1, i2⟩ := ih (fun q hq => h q (List.mem_cons_of_mem _ hq))
    obtain ⟨f1, f2⟩ := send_at_pass_fails orig p (ps.flatten ++ tail) orig 0 horig
      (h p (List.mem_cons_self _ _))
    rw [List.flatten_cons, List.append_assoc, f1, f2]
    exact ⟨i1, i2⟩

theorem send_returns (size : Nat) (hs : size < 4294967296) (ps : List (List io_outcome))
    (good tail : List io_outcome) (hf : ∀ p ∈ ps, pass_fails p size = true)
    (hg : pass_done good size = true) :
    (dnet_send (ps.flatten ++ good ++ tail) size).ret = some 0 ∧
    (dnet_send (ps.flatten ++ good ++ tail) size).rest = tail := by
  unfold dnet_send
  rw [Nat.mod_eq_of_lt hs, List.append_assoc]
  obtain ⟨p1, p2⟩ := send_at_passes size hs (good ++ tail) ps hf
  obtain ⟨g1, g2⟩ := send_at_pass_done size good tail size 0 hs hg
  rw [p1, p2]
  exact ⟨g1, g2⟩

theorem forward_returns (n : dnet_node) (t : dnet_trans) (st : Nat)
    (ps1 ps2 : List (List io_outcome)) (g1 g2 tail : List io_outcome)
    (hf1 : ∀ p ∈ ps1, pass_fails p sizeof_el_cmd = true)
    (hg1 : pass_done g1 sizeof_el_cmd = true)
    (hf2 : ∀ p ∈ ps2, pass_fails p (t.cmd.size % 4294967296) = true)
    (hg2 : pass_done g2 (t.cmd.size % 4294967296) = true) :
    (dnet_trans_forward n (ps1.flatten ++ g1 ++ (ps2.flatten ++ g2 ++ tail)) t st).ret = some 0 := by
  obtain ⟨a1, a2⟩ := send_returns sizeof_el_cmd (by decide) ps1 g1 (ps2.flatten ++ g2 ++ tail)
    hf1 hg1
  obtain ⟨b1, _⟩ := send_returns (t.cmd.size % 4294967296) (Nat.mod_lt _ (by decide)) ps2 g2
    tail hf2 hg2
  rw [forward_ret, if_pos a1, a2]
  exact b1

/-- C8 (amended): for a request that `dnet_trans_process` forwards, a failing
forward send is not reported: the forwarding transaction stays in the registry
and is not destroyed, and everything sent goes to the target peer, nothing to
the origin peer. When every round on the target socket fails the call has not
returned and has sent nothing. When the rounds on the target socket are any
number of failed passes followed by a pass that goes through, for the header
and then for the payload, the call returns 0. The failure the forward branch
does report is a failed registration: the call returns `-EEXIST`, the
transaction is destroyed without having entered the registry, the reference on
the origin peer is dropped again, and nothing is sent. -/
theorem forward_failure_retried (st : Nat) (E : env) (n : dnet_node)
    (hh : header_ok E = true) (hreq : E.cmd.trans &&& DNET_TRANS_REPLY = 0)
    (hr : routed_on st E n = true) (hst : st ≠ 0) (hm : E.malloc_trans = true)
    (hp : payload_ok E = true) :
    (dnet_trans_search n.trans_root (n.trans &&& DNET_TRANS_MASK) = none →
      ((dnet_trans_process st E n).ret = none ∨ (dnet_trans_process st E n).ret = some 0) ∧
      dnet_trans_search (dnet_trans_process st E n).n.trans_root (n.trans &&& DNET_TRANS_MASK)
        = some (forward_trans st E n.trans) ∧
      freed (dnet_trans_process st E n).n.trace = freed n.trace ∧
      (∀ x ∈ sends (dnet_trans_process st E n).n.trace, x ∈ sends n.trace ∨ x.1 = E.route) ∧
      ((∀ o ∈ E.tx, send_fails o = true) →
        (dnet_trans_process st E n).ret = none ∧
        sends (dnet_trans_process st E n).n.trace = sends n.trace) ∧
      (∀ (ps1 ps2 : List (List io_outcome)) (g1 g2 tail : List io_outcome),
        E.tx = ps1.flatten ++ g1 ++ (ps2.flatten ++ g2 ++ tail) →
        (∀ p ∈ ps1, pass_fails p sizeof_el_cmd = true) → pass_done g1 sizeof_el_cmd = true →
        (∀ p ∈ ps2, pass_fails p (E.cmd.size % 4294967296) = true) →
        pass_done g2 (E.cmd.size % 4294967296) = true →
        (dnet_trans_process st E n).ret = some 0)) ∧
    (∀ x, dnet_trans_search n.trans_root (n.trans &&& DNET_TRANS_MASK) = some x →
      (dnet_trans_process st E n).ret = some (-EEXIST) ∧
      (dnet_trans_process st E n).n.trans_root = n.trans_root ∧
      sends (dnet_trans_process st E n).n.trace = sends n.trace ∧
      freed (dnet_trans_process st E n).n.trace
        = freed n.trace ++
          [{ dnet_trans_zero with
             trans := n.trans &&& DNET_TRANS_MASK
             st := st
             cmd := E.cmd
             data := if E.cmd.size = 0 then none else some E.cmd.size }] ∧
      (dnet_trans_process st E n).n.refcnt st = n.refcnt st) := by
  constructor
  · intro hs
    obtain ⟨r1, r2, r3⟩ := routed_on_cases st E n hr
    have hfound := request_forward_search st E n hh hreq hr hm hp hs
    obtain ⟨_, _, _, _, _, _, e7, e8, e9⟩ :=
      forward_effects (before_forward st E n) E.tx (forward_trans st E n.trans) E.route
    have hR := forward_ret (before_forward st E n) E.tx (forward_trans st E n.trans) E.route
    obtain ⟨_, _, _, _, _, c6, c7⟩ := before_forward_rest st E n r1
    rw [c6] at e9
    rw [c7] at e7
    have hproc := request_forward_eq st E n hh hreq hr hm hp hs
    have hret : (dnet_trans_process st E n).ret
        = (dnet_trans_forward (before_forward st E n) E.tx (forward_trans st E n.trans)
            E.route).ret := by
      rw [hproc]
      rcases e8 with e8 | e8
      · simp only [e8]
      · simp only [e8, ne_eq, not_true_eq_false, if_false]
    have hsends : sends (dnet_trans_process st E n).n.trace
        = sends (dnet_trans_forward (before_forward st E n) E.tx (forward_trans st E n.trans)
            E.route).n.trace := by
      rw [hproc]
      rcases e8 with e8 | e8
      · simp only [e8]
      · simp only [e8, ne_eq, not_true_eq_false, if_false, put_sends]
    have hfreed : freed (dnet_trans_process st E n).n.trace
        = freed (dnet_trans_forward (before_forward st E n) E.tx (forward_trans st E n.trans)
            E.route).n.trace := by
      rw [hproc]
      rcases e8 with e8 | e8
      · simp only [e8]
      · simp only [e8, ne_eq, not_true_eq_false, if_false, put_freed]
    refine ⟨by rw [hret]; exact e8, hfound, by rw [hfreed, e7], ?_, ?_, ?_⟩
    · intro x hx
      rw [hsends, e9] at hx
      simp only [List.mem_append, List.mem_map] at hx
      rcases hx with (hx | ⟨p, _, rfl⟩) | hx
      · exact Or.inl hx
      · exact Or.inr rfl
      · split_ifs at hx
        · simp only [List.mem_map] at hx
          obtain ⟨p, _, rfl⟩ := hx
          exact Or.inr rfl
        · simp at hx
    · intro hall
      have hsend : dnet_send E.tx sizeof_el_cmd = ⟨none, [], []⟩ :=
        send_at_all_fail _ E.tx hall _ 0 (by decide) (by decide)
      rw [hret, hsends, hR, e9, hsend]
      simp
    · intro ps1 ps2 g1 g2 tail htx hf1 hg1 hf2 hg2
      rw [hret, htx]
      exact forward_returns _ (forward_trans st E n.trans) E.route ps1 ps2 g1 g2 tail hf1 hg1
        hf2 hg2
  · intro x hs
    obtain ⟨d1, d2, d3, d4, d5, _⟩ := request_forward_dup st E n x hh hreq hr hst hm hp hs
    exact ⟨d1, d2, d3, d4, d5⟩

/-- Witness of C8 (amended): the request of the C5 witness with a target socket
on which every `send` fails, and with one on which the first `send` fails and
the next two move the header and the payload. -/
theorem forward_failure_retried_witness :
    header_ok (ex_env_stuck (ex_cmd 40 0 4) 9) = true ∧
    routed_on 7 (ex_env_stuck (ex_cmd 40 0 4) 9) (ex_node 12) = true ∧
    payload_ok (ex_env_stuck (ex_cmd 40 0 4) 9) = true ∧
    dnet_trans_search (ex_node 12).trans_root ((ex_node 12).trans &&& DNET_TRANS_MASK) = none ∧
    (∀ o ∈ (ex_env_stuck (ex_cmd 40 0 4) 9).tx, send_fails o = true) ∧
    (dnet_trans_process 7 (ex_env_stuck (ex_cmd 40 0 4) 9) (ex_node 12)).ret = none ∧
    dnet_trans_search
      (dnet_trans_process 7 (ex_env_stuck (ex_cmd 40 0 4) 9) (ex_node 12)).n.trans_root
      ((ex_node 12).trans &&& DNET_TRANS_MASK)
      = some (forward_trans 7 (ex_env_stuck (ex_cmd 40 0 4) 9) (ex_node 12).trans) ∧
    (ex_env_retry (ex_cmd 40 0 4) 9).tx
      = [[ex_fail]].flatten ++ [ex_ok 88] ++ (([] : List (List io_outcome)).flatten
          ++ [ex_ok 4] ++ []) ∧
    pass_fails [ex_fail] sizeof_el_cmd = true ∧ pass_done [ex_ok 88] sizeof_el_cmd = true ∧
    pass_done [ex_ok 4] ((ex_env_retry (ex_cmd 40 0 4) 9).cmd.size % 4294967296) = true ∧
    (dnet_trans_process 7 (ex_env_retry (ex_cmd 40 0 4) 9) (ex_node 12)).ret = some 0 :=
  have h := (forward_failure_retried 7 (ex_env_stuck (ex_cmd 40 0 4) 9) (ex_node 12)
    (by decide) (by decide) (by decide) (by decide) (by decide) (by decide)).1 (by decide)
  have g := (forward_failure_retried 7 (ex_env_retry (ex_cmd 40 0 4) 9) (ex_node 12)
    (by decide) (by decide) (by decide) (by decide) (by decide) (by decide)).1 (by decide)
  ⟨by decide, by decide, by decide, by decide, by decide, (h.2.2.2.2.1 (by decide)).1, h.2.1,
    rfl, by decide, by decide, by decide,
    g.2.2.2.2.2 [[ex_fail]] [] [ex_ok 88] [ex_ok 4] [] rfl (by decide) (by decide)
      (by decide) (by decide)⟩

/-- C8 (counterexample): peer 7 sends a request that is forwarded to peer 9.
When every `send` to peer 9 fails, the call has not returned, the forwarding
transaction is still registered and not freed, and nothing has been sent, to
peer 7 or anyone. When only the first `send` fails, the call returns 0 with the
transaction registered; header and payload went to peer 9 and nothing to
peer 7. -/
theorem forward_failure_not_reported :
    (dnet_trans_process 7 (ex_env_stuck (ex_cmd 40 0 4) 9) (ex_node 12)).ret = none ∧
    dnet_trans_search
      (dnet_trans_process 7 (ex_env_stuck (ex_cmd 40 0 4) 9) (ex_node 12)).n.trans_root 12
      = some (forward_trans 7 (ex_env_stuck (ex_cmd 40 0 4) 9) 12) ∧
    freed (dnet_trans_process 7 (ex_env_stuck (ex_cmd 40 0 4) 9) (ex_node 12)).n.trace = [] ∧
    sends (dnet_trans_process 7 (ex_env_stuck (ex_cmd 40 0 4) 9) (ex_node 12)).n.trace = [] ∧
    (dnet_trans_process 7 (ex_env_retry (ex_cmd 40 0 4) 9) (ex_node 12)).ret = some 0 ∧
    dnet_trans_search
      (dnet_trans_process 7 (ex_env_retry (ex_cmd 40 0 4) 9) (ex_node 12)).n.trans_root 12
      = some (forward_trans 7 (ex_env_retry (ex_cmd 40 0 4) 9) 12) ∧
    sends (dnet_trans_process 7 (ex_env_retry (ex_cmd 40 0 4) 9) (ex_node 12)).n.trace
      = [(9, buf.cmd (ex_cmd 12 0 4), 0, 88), (9, buf.data (some 4), 0, 4)] := by
  decide

/-! ## Return values of `dnet_recv` -/

theorem recv_at_ret_nonpos (os : List io_outcome) :
    ∀ (size off : Nat) (e : Int), (dnet_recv_at os size off).ret = some e → e ≤ 0 := by
  induction os with
  | nil =>
    intro size off e h
    by_cases h0 : size = 0
    · simp [dnet_recv_at, h0] at h; omega
    · simp [dnet_recv_at, h0] at h
  | cons o os ih =>
    intro size off e h
    by_cases h0 : size = 0
    · simp [dnet_recv_at, h0] at h; omega
    by_cases h1 : o.need_exit = true
    · simp [dnet_recv_at, h0, h1, EIO] at h; omega
    by_cases h2 : dnet_wait_fd o = -EAGAIN
    · simp only [dnet_recv_at, if_neg h0, if_neg h1, if_pos h2] at h
      exact ih size off e h
    by_cases h3 : dnet_wait_fd o < 0
    · simp only [dnet_recv_at, if_neg h0, if_neg h1, if_neg h2, if_pos h3,
        Option.some.injEq] at h
      omega
    by_cases h4 : to_int o.ret < 0
    · simp only [dnet_recv_at, if_neg h0, if_neg h1, if_neg h2, if_neg h3, if_pos h4,
        Option.some.injEq] at h
      omega
    by_cases h5 : to_int o.ret = 0
    · simp [dnet_recv_at, h0, h1, h2, h3, h5, ECONNRESET] at h; omega
    simp only [dnet_recv_at, if_neg h0, if_neg h1, if_neg h2, if_neg h3, if_neg h4,
      if_neg h5] at h
    exact ih _ _ e h

theorem recv_ret_nonpos (os : List io_outcome) (size : Nat) (e : Int)
    (h : (dnet_recv os size).ret = some e) : e ≤ 0 :=
  recv_at_ret_nonpos os _ 0 e h

/-! ## Bytes written by `dnet_send` and `dnet_sendfile_data` -/

theorem send_at_clean (orig : Nat) (os : List io_outcome) :
    ∀ size off, size < 4294967296 → send_clean os size = true →
      (dnet_send_at orig os size off).ret = some 0 →
      covers off size (dnet_send_at orig os size off).log = true := by
  induction os with
  | nil =>
    intro size off _ _ h
    by_cases h0 : size = 0
    · simp [dnet_send_at, covers, h0]
    · simp [dnet_send_at, h0] at h
  | cons o os ih =>
    intro size off hs hc h
    by_cases h0 : size = 0
    · simp [dnet_send_at, covers, h0]
    by_cases ha : send_again o = true
    · rw [send_at_again orig size off o os h0 ha] at h ⊢
      simp only [send_clean, if_neg h0, if_pos ha] at hc
      exact ih size off hs hc h
    simp only [send_clean, if_neg h0, if_neg ha, Bool.and_eq_true, decide_eq_true_eq,
      Bool.not_eq_true'] at hc
    obtain ⟨⟨⟨⟨c1, c2⟩, c3⟩, c4⟩, c5⟩ := hc
    have hk : send_moves o (to_int o.ret).toNat = true := by
      simp only [send_moves, c1, c2, Bool.not_false, Bool.true_and, decide_True,
        decide_eq_true_eq]
      omega
    have hpos : 0 < (to_int o.ret).toNat := by omega
    rw [send_at_moves orig size off (to_int o.ret).toNat o os h0 (by omega) hk] at h ⊢
    have hsub : u32_sub size ((to_int o.ret).toNat : Int) = size - (to_int o.ret).toNat := by
      unfold u32_sub
      omega
    rw [hsub] at h ⊢
    have := ih (size - (to_int o.ret).toNat) (off + (to_int o.ret).toNat) (by omega) c5 h
    simp only [covers, Bool.and_eq_true, decide_eq_true_eq]
    exact ⟨⟨⟨trivial, hpos⟩, by omega⟩, this⟩

/-- C12 (failing input): 4 bytes are wanted of a file that holds `1, 2, 3, 4`.
When the wait before the first `sendfile` fails (`poll` returns -1) the body
loop is left by `break`, the 4 bytes are sent as zeros and the call returns 0:
no byte of the file is on the wire. A failing `sendfile` in the same place
makes the call return the error. -/
theorem sendfile_failed_wait_padded :
    dnet_sendfile_data [ex_poll_fail, ex_ok 4] [1, 2, 3, 4] 0 4 [] 0
      = ⟨some 0, [], [0, 0, 0, 0]⟩ ∧
    dnet_sendfile_data [ex_fail, ex_ok 4] [1, 2, 3, 4] 0 4 [] 0
      = ⟨some (-1), [ex_ok 4], []⟩ := by
  decide

/-! ## C13: the decision of the worker loop -/

theorem reconnect_fails (w : worker) (connect : Int)
    (hj : w.join_state ≠ dnet_join_state.DNET_CLIENT) (hc : connect < 0) :
    dnet_net_reconnect w connect = (connect, w) := by
  simp [dnet_net_reconnect, hj, hc]

theorem reconnect_ok (w : worker) (connect : Int)
    (hj : w.join_state ≠ dnet_join_state.DNET_CLIENT) (hc : 0 ≤ connect) :
    dnet_net_reconnect w connect
      = (0, { w with
          s := connect
          join_state := dnet_join_state.DNET_REJOIN
          n_join_state := dnet_join_state.DNET_REJOIN
          log := w.log ++ (if w.s > 0 then [worker_event.close w.s] else []) }) := by
  have : ¬ connect < 0 := by omega
  simp [dnet_net_reconnect, hj, this]

/-- C13 (amended): a pass of the worker loop in which `dnet_trans_process`
returns `err`. For a negative `err` other than `-EAGAIN` (DISCONNECT
included): a CLIENT peer's worker leaves the loop and releases its peer
reference once, whatever rounds would follow; a non-CLIENT peer's worker takes
the peer lock, calls `dnet_net_reconnect`, releases the lock, sleeps 1 s
exactly when the reconnect failed, and goes on with the next pass. For
`-EAGAIN` (TIMEOUT) and for non-negative values the worker goes on with the
next pass at once: no exit, no reconnect, no sleep, for CLIENT peers too. -/
theorem worker_loop_decision (st : Nat) (r : worker_round) (rs : List worker_round)
    (w : worker) (err : Int) (hx : r.need_exit = false)
    (hp : (dnet_trans_process st r.E w.n).ret = some err) :
    (err < 0 → err ≠ -EAGAIN → w.join_state = dnet_join_state.DNET_CLIENT →
      dnet_state_process st (r :: rs) w
        = some { w with
            n := dnet_state_put (dnet_trans_process st r.E w.n).n st
            log := w.log ++ [worker_event.process err] ++ [worker_event.put] }) ∧
    (err < 0 → err ≠ -EAGAIN → w.join_state ≠ dnet_join_state.DNET_CLIENT →
      (r.connect < 0 →
        dnet_state_process st (r :: rs) w
          = dnet_state_process st rs { w with
              n := (dnet_trans_process st r.E w.n).n
              log := w.log ++ [worker_event.process err] ++ [worker_event.lock]
                ++ [worker_event.reconnect r.connect, worker_event.unlock]
                ++ [worker_event.sleep 1] }) ∧
      (0 ≤ r.connect →
        dnet_state_process st (r :: rs) w
          = dnet_state_process st rs { w with
              n := (dnet_trans_process st r.E w.n).n
              s := r.connect
              join_state := dnet_join_state.DNET_REJOIN
              n_join_state := dnet_join_state.DNET_REJOIN
              log := w.log ++ [worker_event.process err] ++ [worker_event.lock]
                ++ (if w.s > 0 then [worker_event.close w.s] else [])
                ++ [worker_event.reconnect 0, worker_event.unlock] })) ∧
    (err = -EAGAIN ∨ 0 ≤ err →
      dnet_state_process st (r :: rs) w
        = dnet_state_process st rs { w with
            n := (dnet_trans_process st r.E w.n).n
            log := w.log ++ [worker_event.process err] }) := by
  refine ⟨?_, ?_, ?_⟩
  · intro h1 h2 hj
    simp [dnet_state_process, hx, hp, h1, h2, hj, worker_exit]
  · intro h1 h2 hj
    constructor
    · intro hc
      have hne : r.connect ≠ 0 := by omega
      simp only [dnet_state_process, hx, hp, Bool.false_eq_true, if_false]
      rw [if_pos ⟨h1, h2⟩, if_neg hj, reconnect_fails]
      · simp [hne]
      · exact hj
      · exact hc
    · intro hc
      simp only [dnet_state_process, hx, hp, Bool.false_eq_true, if_false]
      rw [if_pos ⟨h1, h2⟩, if_neg hj, reconnect_ok]
      · simp
      · exact hj
      · exact hc
  · intro h
    have : ¬ (err < 0 ∧ err ≠ -EAGAIN) := by
      rcases h with h | h
      · simp [h]
      · omega
    simp only [dnet_state_process, hx, hp, Bool.false_eq_true, if_false]
    rw [if_neg this]

/-- Witness of C13 (amended): the peer closes the connection (the header read
returns `-ECONNRESET`); the worker of a CLIENT peer leaves the loop and
releases its reference, although another round would follow. -/
theorem worker_loop_decision_witness :
    (⟨false, ex_env_reset, -1⟩ : worker_round).need_exit = false ∧
    (dnet_trans_process 7 ex_env_reset (ex_worker dnet_join_state.DNET_CLIENT).n).ret
      = some (-ECONNRESET) ∧
    dnet_state_process 7 [⟨false, ex_env_reset, -1⟩, ⟨false, ex_env_reset, -1⟩]
        (ex_worker dnet_join_state.DNET_CLIENT)
      = some { ex_worker dnet_join_state.DNET_CLIENT with
          n := dnet_state_put (dnet_trans_process 7 ex_env_reset
            (ex_worker dnet_join_state.DNET_CLIENT).n).n 7
          log := (ex_worker dnet_join_state.DNET_CLIENT).log
            ++ [worker_event.process (-ECONNRESET)] ++ [worker_event.put] } :=
  ⟨rfl, by decide,
    (worker_loop_decision 7 ⟨false, ex_env_reset, -1⟩ [⟨false, ex_env_reset, -1⟩]
      (ex_worker dnet_join_state.DNET_CLIENT) (-ECONNRESET) rfl (by decide)).1
      (by decide) (by decide) rfl⟩

/-- C13 (counterexample): the wait of `dnet_trans_process` times out, so the
call returns `-EAGAIN`. The worker of a CLIENT peer does not leave the loop: it
calls `dnet_trans_process` again and stops only when `need_exit` is set. The
worker of a non-CLIENT peer does not reconnect: it takes no lock, calls no
`dnet_net_reconnect` and does not sleep, although the connect would fail. -/
theorem worker_timeout_ignored :
    (dnet_trans_process 7 ex_env_timeout (ex_node 12)).ret = some (-EAGAIN) ∧
    (dnet_state_process 7 [⟨false, ex_env_timeout, -1⟩, ⟨false, ex_env_timeout, -1⟩,
        ⟨true, ex_env_timeout, -1⟩] (ex_worker dnet_join_state.DNET_CLIENT)).map worker.log
      = some [worker_event.process (-EAGAIN), worker_event.process (-EAGAIN),
          worker_event.put] ∧
    (dnet_state_process 7 [⟨false, ex_env_timeout, -1⟩, ⟨true, ex_env_timeout, -1⟩]
        (ex_worker dnet_join_state.DNET_JOINED)).map worker.log
      = some [worker_event.process (-EAGAIN), worker_event.put] ∧
    (dnet_state_process 7 [⟨false, ex_env_reset, -1⟩, ⟨true, ex_env_timeout, -1⟩]
        (ex_worker dnet_join_state.DNET_JOINED)).map worker.log
      = some [worker_event.process (-ECONNRESET), worker_event.lock,
          worker_event.reconnect (-1), worker_event.unlock, worker_event.sleep 1,
          worker_event.put] := by
  decide

/-! ## C16: removal from the index -/

/-- C16: `dnet_trans_remove` on a transaction marked as linked, in an index
that is a search tree, takes the entry with its number out of the index (a
later search for the number finds nothing, every other number is found as
before) and clears the mark; on a transaction that is not marked it changes
nothing; hence removing twice is removing once; and `dnet_trans_destroy` on a
transaction that is not marked leaves the index as it is. -/
theorem removal_idempotent (n : dnet_node) (t : dnet_trans)
    (ho : rb_ordered n.trans_root = true) :
    (t.rb_parent_color ≠ 0 →
      dnet_trans_search (dnet_trans_remove n t).1.trans_root t.trans = none ∧
      (∀ k, k ≠ t.trans →
        dnet_trans_search (dnet_trans_remove n t).1.trans_root k
          = dnet_trans_search n.trans_root k) ∧
      (dnet_trans_remove n t).2 = { t with rb_parent_color := 0 }) ∧
    (t.rb_parent_color = 0 → dnet_trans_remove n t = (n, t)) ∧
    dnet_trans_remove (dnet_trans_remove n t).1 (dnet_trans_remove n t).2
      = dnet_trans_remove n t ∧
    (t.rb_parent_color = 0 → (dnet_trans_destroy n (some t)).trans_root = n.trans_root) := by
  refine ⟨?_, ?_, ?_, ?_⟩
  · intro hm
    simp only [dnet_trans_remove, dnet_trans_remove_nolock, if_neg hm]
    exact ⟨search_erase_self _ _ ho, fun k hk => search_erase_other _ _ k ho hk, trivial⟩
  · intro hm
    simp [dnet_trans_remove, dnet_trans_remove_nolock, hm]
  · by_cases hm : t.rb_parent_color = 0
    · simp [dnet_trans_remove, dnet_trans_remove_nolock, hm]
    · simp [dnet_trans_remove, dnet_trans_remove_nolock, hm]
  · intro hm
    exact destroy_zero_root n t hm

/-- Witness of C16: transaction 5 is removed from the example index, which
holds 9, 5 and 2. -/
theorem removal_idempotent_witness :
    rb_ordered (ex_node 12).trans_root = true ∧
    dnet_trans_search (dnet_trans_remove (ex_node 12) (ex_t 5)).1.trans_root (ex_t 5).trans
      = none ∧
    dnet_trans_search (dnet_trans_remove (ex_node 12) (ex_t 5)).1.trans_root 2
      = dnet_trans_search (ex_node 12).trans_root 2 ∧
    (dnet_trans_remove (ex_node 12) (ex_t 5)).2 = { ex_t 5 with rb_parent_color := 0 } :=
  have h := (removal_idempotent (ex_node 12) (ex_t 5) (by decide)).1 (by decide)
  ⟨by decide, h.1, h.2.1 2 (by decide), h.2.2⟩

/-! ## The last pass of `dnet_send` -/

theorem send_at_last_pass (orig : Nat) (horig : orig < 4294967296) (os : List io_outcome) :
    ∀ size off, size ≤ orig → send_bounded orig os size = true →
      (dnet_send_at orig os size off).ret = some 0 →
      ∃ pre pass, (dnet_send_at orig os size off).log = pre ++ pass ∧
        ((pre = [] ∧ covers off size pass = true) ∨ covers 0 orig pass = true) := by
  induction os with
  | nil =>
    intro size off _ _ h
    by_cases h0 : size = 0
    · exact ⟨[], [], by simp [dnet_send_at, h0], Or.inl ⟨rfl, by simp [covers, h0]⟩⟩
    · simp [dnet_send_at, h0] at h
  | cons o os ih =>
    intro size off hs hb h
    by_cases h0 : size = 0
    · exact ⟨[], [], by simp [dnet_send_at, h0], Or.inl ⟨rfl, by simp [covers, h0]⟩⟩
    have restart : send_bounded orig os orig = true →
        (dnet_send_at orig os orig 0).ret = some 0 →
        ∃ pre pass, (dnet_send_at orig os orig 0).log = pre ++ pass ∧
          ((pre = [] ∧ covers off size pass = true) ∨ covers 0 orig pass = true) := by
      intro hb1 h1
      obtain ⟨pre, pass, e, c⟩ := ih orig 0 (Nat.le_refl _) hb1 h1
      refine ⟨pre, pass, e, Or.inr ?_⟩
      rcases c with ⟨_, c⟩ | c <;> exact c
    by_cases h1 : o.need_exit = true
    · simp only [dnet_send_at, send_bounded, if_neg h0, if_pos h1] at h hb ⊢
      exact restart hb h
    by_cases h2 : dnet_wait_fd o = -EAGAIN
    · simp only [dnet_send_at, send_bounded, if_neg h0, if_neg h1, if_pos h2] at h hb ⊢
      exact ih size off hs hb h
    by_cases h3 : dnet_wait_fd o < 0
    · simp only [dnet_send_at, send_bounded, if_neg h0, if_neg h1, if_neg h2, if_pos h3]
        at h hb ⊢
      exact restart hb h
    by_cases h4 : to_int o.ret < 0
    · simp only [dnet_send_at, send_bounded, if_neg h0, if_neg h1, if_neg h2, if_neg h3,
        if_pos h4, Bool.and_eq_true, decide_eq_true_eq] at h hb ⊢
      have h5 : ¬ -o.errno = 0 := by have := hb.1; omega
      rw [if_neg h5] at h ⊢
      exact restart hb.2 h
    by_cases h5 : to_int o.ret = 0
    · simp only [dnet_send_at, send_bounded, if_neg h0, if_neg h1, if_neg h2, if_neg h3,
        if_neg h4, if_pos h5] at h hb ⊢
      exact restart hb h
    simp only [dnet_send_at, send_bounded, if_neg h0, if_neg h1, if_neg h2, if_neg h3,
      if_neg h4, if_neg h5, Bool.and_eq_true, decide_eq_true_eq] at h hb ⊢
    have hsub : u32_sub size (to_int o.ret) = size - (to_int o.ret).toNat := by
      unfold u32_sub
      omega
    rw [hsub] at h ⊢
    obtain ⟨pre, pass, e, c⟩ :=
      ih (size - (to_int o.ret).toNat) (off + (to_int o.ret).toNat) (by omega) hb.2 h
    rcases c with ⟨c1, c2⟩ | c
    · refine ⟨[], (off, (to_int o.ret).toNat) :: pass, ?_, Or.inl ⟨rfl, ?_⟩⟩
      · rw [e, c1]; rfl
      · simp only [covers, Bool.and_eq_true, decide_eq_true_eq]
        exact ⟨⟨⟨trivial, by omega⟩, by omega⟩, c2⟩
    · exact ⟨(off, (to_int o.ret).toNat) :: pre, pass, by rw [e]; rfl, Or.inr c⟩

theorem send_last_pass (os : List io_outcome) (size : Nat) (hs : size < 4294967296)
    (hb : send_bounded size os size = true) (h : (dnet_send os size).ret = some 0) :
    ∃ pre pass, (dnet_send os size).log = pre ++ pass ∧ covers 0 size pass = true := by
  unfold dnet_send at h ⊢
  rw [Nat.mod_eq_of_lt hs] at h ⊢
  obtain ⟨pre, pass, e, c⟩ := send_at_last_pass size hs os size 0 (Nat.le_refl _) hb h
  refine ⟨pre, pass, e, ?_⟩
  rcases c with ⟨_, c⟩ | c <;> exact c

/-! ## C18: `dnet_send` has no failing return -/

/-- C18: whenever `dnet_send` returns, it returns 0, and then (with `send`
calls that keep to send(2): none moves more than it was asked for, a failing
one sets `errno`) the calls logged last are one pass over the whole buffer,
from offset 0 to the end. After a round that fails the pass, or that sees
`need_exit` set, the rest of the call is a `dnet_send` from offset 0 with the
whole length. `dnet_trans_forward`, which returns what `dnet_send` returns,
returns 0 whenever it returns. -/
theorem dnet_send_never_fails (os : List io_outcome) (size : Nat) :
    ((dnet_send os size).ret = none ∨ (dnet_send os size).ret = some 0) ∧
    (size < 4294967296 → send_bounded size os size = true →
      (dnet_send os size).ret = some 0 →
      ∃ pre pass, (dnet_send os size).log = pre ++ pass ∧ covers 0 size pass = true) ∧
    (∀ (o : io_outcome) (orig left off : Nat), left ≠ 0 →
      send_fails o = true ∨ o.need_exit = true →
      dnet_send_at orig (o :: os) left off = dnet_send_at orig os orig 0) ∧
    (∀ (n : dnet_node) (t : dnet_trans) (st : Nat),
      (dnet_trans_forward n os t st).ret = none ∨
      (dnet_trans_forward n os t st).ret = some 0) := by
  refine ⟨send_ret os size, send_last_pass os size, ?_, ?_⟩
  · intro o orig left off hl hf
    rcases hf with hf | hf
    · exact send_at_fails orig left off o os hl hf
    · exact send_at_need_exit orig left off o os hl hf
  · intro n t st
    rw [forward_ret n os t st]
    split_ifs
    · exact send_ret _ _
    · exact Or.inl rfl

/-- Witness of C18: 2 of 4 bytes are sent, the next `send` fails with `EPIPE`,
the third moves all 4 bytes. -/
theorem dnet_send_never_fails_witness :
    send_bounded 4 [ex_ok 2, ex_fail, ex_ok 4] 4 = true ∧
    (dnet_send [ex_ok 2, ex_fail, ex_ok 4] 4).ret = some 0 ∧
    (∃ pre pass, (dnet_send [ex_ok 2, ex_fail, ex_ok 4] 4).log = pre ++ pass ∧
      covers 0 4 pass = true) ∧
    dnet_send_at 4 (ex_fail :: [ex_ok 2, ex_fail, ex_ok 4]) 2 2
      = dnet_send_at 4 [ex_ok 2, ex_fail, ex_ok 4] 4 0 :=
  have h := dnet_send_never_fails [ex_ok 2, ex_fail, ex_ok 4] 4
  ⟨by decide, by decide, h.2.1 (by decide) (by decide) (by decide),
    h.2.2.1 ex_fail 4 2 2 (by decide) (Or.inl (by decide))⟩

/-! ## The peer lock along a trace -/

theorem lock_trace_append (st : Nat) (a b : List event) :
    ∀ h, lock_trace st h (a ++ b) = (lock_trace st h a).bind (fun x => lock_trace st x b) := by
  induction a with
  | nil => intro h; rfl
  | cons e a ih =>
    intro h
    simp only [List.cons_append, lock_trace]
    cases lock_step st h e with
    | none => rfl
    | some x => exact ih x

theorem lock_run_refl (st : Nat) (h : Bool) (t : List event) : lock_run st h t t h :=
  ⟨[], by simp, rfl⟩

theorem lock_run_trans (st : Nat) (h1 h2 h3 : Bool) (a b c : List event)
    (x : lock_run st h1 a b h2) (y : lock_run st h2 b c h3) : lock_run st h1 a c h3 := by
  obtain ⟨e1, q1, r1⟩ := x
  obtain ⟨e2, q2, r2⟩ := y
  refine ⟨e1 ++ e2, by rw [q2, q1, List.append_assoc], ?_⟩
  rw [lock_trace_append, r1]
  exact r2

theorem lock_run_emit (st : Nat) (h h1 : Bool) (n : dnet_node) (es : List event)
    (x : lock_trace st h es = some h1) : lock_run st h n.trace (n.emit es).trace h1 :=
  ⟨es, rfl, x⟩

theorem lock_trace_rx (st : Nat) (log : List (Nat × Nat)) :
    lock_trace st true (rx_events st log) = some true := by
  induction log with
  | nil => rfl
  | cons p log ih =>
    simp only [rx_events, List.map_cons, lock_trace, lock_step, if_true] at ih ⊢
    exact ih

theorem lock_trace_tx (st p : Nat) (b : buf) (log : List (Nat × Nat)) :
    lock_trace st (decide (p = st)) (tx_events p b log) = some (decide (p = st)) := by
  induction log with
  | nil => rfl
  | cons q log ih =>
    simp only [tx_events, List.map_cons, lock_trace, lock_step, if_true] at ih ⊢
    exact ih

theorem lock_pair (st p : Nat) :
    lock_trace st false [event.lock p, event.unlock p] = some false := by
  by_cases hp : p = st <;> simp [lock_trace, lock_step, hp]

theorem put_run (st : Nat) (n : dnet_node) (p : Nat) :
    lock_run st false n.trace (dnet_state_put n p).trace false := by
  rw [put_trace]
  by_cases h0 : p = 0
  · rw [if_pos h0]; exact ⟨[], rfl, rfl⟩
  · rw [if_neg h0]
    refine ⟨_, rfl, ?_⟩
    rw [lock_trace_append, lock_pair]
    split_ifs <;> rfl

theorem get_run (st : Nat) (n : dnet_node) (p : Nat) :
    lock_run st false n.trace (dnet_state_get n p).trace false :=
  ⟨_, rfl, lock_pair st p⟩

theorem search_run (st : Nat) (n : dnet_node) (route : Nat) :
    lock_run st false n.trace (dnet_state_search n route).trace false := by
  unfold dnet_state_search
  split_ifs
  · exact lock_run_refl st false _
  · exact get_run st n route

theorem remove_trace (n : dnet_node) (t : dnet_trans) :
    (dnet_trans_remove n t).1.trace = n.trace := rfl

theorem destroy_run (st : Nat) (n : dnet_node) (t : Option dnet_trans) :
    lock_run st false n.trace (dnet_trans_destroy n t).trace false := by
  cases t with
  | none => exact lock_run_refl st false _
  | some t =>
    simp only [dnet_trans_destroy]
    refine lock_run_trans st false false false _ _ _ ?_ (lock_run_emit st false false _ _ rfl)
    have := put_run st
      (if t.rb_parent_color ≠ 0 ∧ t.st ≠ 0 then dnet_trans_remove n t else (n, t)).1 t.st
    have e : (if t.rb_parent_color ≠ 0 ∧ t.st ≠ 0 then dnet_trans_remove n t else (n, t)).1.trace
        = n.trace := by
      split_ifs <;> rfl
    rw [e] at this
    exact this

theorem forward_run (st : Nat) (n : dnet_node) (os : List io_outcome) (t : dnet_trans)
    (p : Nat) :
    ∃ h, lock_run st false n.trace (dnet_trans_forward n os t p).n.trace h ∧
      ((dnet_trans_forward n os t p).ret ≠ none → h = false) := by
  have l1 : lock_trace st false [event.lock p] = some (decide (p = st)) := rfl
  have l3 : lock_trace st (decide (p = st)) [event.unlock p] = some false := by
    by_cases hp : p = st <;> simp [lock_trace, lock_step, hp]
  have r1 := lock_run_emit st false _ n [event.lock p] l1
  have r2 := lock_run_trans st _ _ _ _ _ _ r1
    (lock_run_emit st _ _ (n.emit [event.lock p])
      (tx_events p (buf.cmd (el_convert_cmd t.cmd)) (dnet_send os sizeof_el_cmd).log)
      (lock_trace_tx st p _ _))
  unfold dnet_trans_forward
  rcases send_ret os sizeof_el_cmd with h1 | h1
  · simp only [h1]
    exact ⟨_, r2, by simp⟩
  · simp only [h1, if_true]
    have r3 := lock_run_trans st _ _ _ _ _ _ r2
      (lock_run_emit st _ _ ((n.emit [event.lock p]).emit
          (tx_events p (buf.cmd (el_convert_cmd t.cmd)) (dnet_send os sizeof_el_cmd).log))
        (tx_events p (buf.data t.data)
          (dnet_send (dnet_send os sizeof_el_cmd).rest (t.cmd.size % 4294967296)).log)
        (lock_trace_tx st p _ _))
    rcases send_ret (dnet_send os sizeof_el_cmd).rest (t.cmd.size % 4294967296) with h2 | h2
    · simp only [h2]
      exact ⟨_, r3, by simp⟩
    · simp only [h2]
      exact ⟨false, lock_run_trans st _ _ _ _ _ _ r3 (lock_run_emit st _ _ _ _ l3),
        fun _ => rfl⟩

theorem err_out_destroy_run (st : Nat) (n : dnet_node) (t : Option dnet_trans)
    (err : Int) : lock_run st false n.trace (err_out_destroy n t err).n.trace false :=
  destroy_run st n t

theorem err_out_unlock_run (st : Nat) (n : dnet_node) (t : Option dnet_trans) (err : Int) :
    lock_run st true n.trace (err_out_unlock st n t err).n.trace false :=
  lock_run_trans st _ _ _ _ _ _ (lock_run_emit st true false n [event.unlock st] (by
    simp [lock_trace, lock_step])) (destroy_run st _ t)

theorem reply_done_run (st : Nat) (E : env) (cmd : el_cmd) (n : dnet_node) (t : dnet_trans) :
    ∃ h, lock_run st true n.trace (process_reply_done st E cmd n t).n.trace h ∧
      ((process_reply_done st E cmd n t).ret ≠ none → h = false) := by
  have r1 : lock_run st true n.trace (n.emit [event.unlock st]).trace false :=
    lock_run_emit st true false n [event.unlock st] (by simp [lock_trace, lock_step])
  unfold process_reply_done
  generalize ht1 : ({ t with cmd := { cmd with trans := t.recv_trans ||| DNET_TRANS_REPLY } }
    : dnet_trans) = t1
  have r2 : lock_run st true n.trace ((n.emit [event.unlock st]).store t1).trace false := by
    rw [store_trace]; exact r1
  by_cases hc : t1.complete ≠ 0
  · simp only [if_pos hc]
    have r3 := lock_run_trans st _ _ _ _ _ _ r2
      (lock_run_emit st false false ((n.emit [event.unlock st]).store t1) [event.complete t1]
        rfl)
    split_ifs
    · exact ⟨false, lock_run_trans st _ _ _ _ _ _ r3 (destroy_run st _ _), fun _ => rfl⟩
    · exact ⟨false, r3, fun _ => rfl⟩
  · simp only [if_neg hc]
    obtain ⟨h, f1, f2⟩ := forward_run st ((n.emit [event.unlock st]).store t1) E.tx t1 t1.st
    have f3 := lock_run_trans st _ _ _ _ _ _ r2 f1
    cases hr : (dnet_trans_forward ((n.emit [event.unlock st]).store t1) E.tx t1 t1.st).ret with
    | none => exact ⟨h, f3, fun hn => (hn hr).elim⟩
    | some e =>
      have hf : h = false := f2 (by rw [hr]; simp)
      subst hf
      simp only []
      split_ifs
      · exact ⟨false, lock_run_trans st _ _ _ _ _ _ f3 (destroy_run st _ _),
          fun _ => rfl⟩
      · exact ⟨false, f3, fun _ => rfl⟩

theorem process_reply_run (st : Nat) (E : env) (rx : List io_outcome) (cmd : el_cmd)
    (err0 : Int) (n : dnet_node) (t : dnet_trans) :
    ∃ h, lock_run st true n.trace (process_reply st E rx cmd err0 n t).n.trace h ∧
      ((process_reply st E rx cmd err0 n t).ret ≠ none → h = false) := by
  unfold process_reply
  generalize (if cmd.flags &&& DNET_FLAGS_MORE = 0 then dnet_trans_remove_nolock n.trans_root t
    else (n.trans_root, t)) = p
  by_cases h1 : cmd.size ≠ 0
  · simp only [if_pos h1]
    by_cases h2 : E.malloc_data = true
    · simp only [if_pos h2]
      generalize ({ p.2 with data := some cmd.size } : dnet_trans) = t1
      have r1 : lock_run st true n.trace
          ((({ n with trans_root := p.1 } : dnet_node).store t1).emit
            (rx_events st (dnet_recv rx cmd.size).log)).trace true := by
        have := lock_run_emit st true true (({ n with trans_root := p.1 } : dnet_node).store t1)
          (rx_events st (dnet_recv rx cmd.size).log) (lock_trace_rx st _)
        rw [store_trace] at this
        exact this
      cases hr : (dnet_recv rx cmd.size).ret with
      | none => exact ⟨true, r1, fun hn => (hn rfl).elim⟩
      | some e =>
        simp only []
        split_ifs
        · exact ⟨false, lock_run_trans st _ _ _ _ _ _ r1 (err_out_unlock_run st _ _ _),
            fun _ => rfl⟩
        · obtain ⟨h, f1, f2⟩ := reply_done_run st E cmd
            ((({ n with trans_root := p.1 } : dnet_node).store t1).emit
              (rx_events st (dnet_recv rx cmd.size).log)) t1
          exact ⟨h, lock_run_trans st _ _ _ _ _ _ r1 f1, f2⟩
    · simp only [if_neg h2]
      have := err_out_unlock_run st
        (({ n with trans_root := p.1 } : dnet_node).store { p.2 with data := none })
        (some { p.2 with data := none }) err0
      rw [store_trace] at this
      exact ⟨false, this, fun _ => rfl⟩
  · simp only [if_neg h1]
    exact reply_done_run st E cmd { n with trans_root := p.1 } p.2

theorem search_trace (n : dnet_node) (route : Nat) :
    (dnet_state_search n route).trace
      = n.trace ++ (if route = 0 then [] else [event.lock route, event.unlock route]) := by
  unfold dnet_state_search; split_ifs <;> simp

theorem insert_trace (n : dnet_node) (t : dnet_trans) :
    (dnet_trans_insert n t).2.1.trace = n.trace := rfl

theorem request_done_run (st : Nat) (E : env) (cmd : el_cmd) (need_drop : Bool)
    (n : dnet_node) (t : dnet_trans) :
    ∃ h, lock_run st true n.trace (process_request_done st E cmd need_drop n t).n.trace h ∧
      ((process_request_done st E cmd need_drop n t).ret ≠ none → h = false) := by
  have r1 : lock_run st true n.trace (n.emit [event.unlock st]).trace false :=
    lock_run_emit st true false n [event.unlock st] (by simp [lock_trace, lock_step])
  unfold process_request_done
  by_cases hd : need_drop = true
  · simp only [if_pos hd]
    exact ⟨false, lock_run_trans st _ _ _ _ _ _ r1 (destroy_run st _ _), fun _ => rfl⟩
  simp only [if_neg hd]
  have r2 : lock_run st true n.trace
      (dnet_state_search (n.emit [event.unlock st]) E.route).trace false := by
    exact lock_run_trans st _ _ _ _ _ _ r1 (search_run st _ _)
  by_cases hl : E.route = 0 ∨ E.route = st ∨
      E.route = (dnet_state_search (n.emit [event.unlock st]) E.route).st
  · simp only [if_pos hl]
    have r3 := lock_run_trans st _ _ _ _ _ _ r2
      (lock_run_emit st false false (dnet_state_search (n.emit [event.unlock st]) E.route)
        [event.process_cmd st cmd t.data] rfl)
    split_ifs
    · exact ⟨false, lock_run_trans st _ _ _ _ _ _ r3 (err_out_destroy_run st _ _ _),
        fun _ => rfl⟩
    · exact ⟨false, lock_run_trans st _ _ _ _ _ _ r3 (destroy_run st _ _), fun _ => rfl⟩
  · simp only [if_neg hl]
    generalize hi : dnet_trans_insert
      (dnet_state_get (dnet_state_search (n.emit [event.unlock st]) E.route) st)
      { t with st := st, cmd := cmd } = i
    have r3 : lock_run st true n.trace i.2.1.trace false := by
      rw [← hi, insert_trace]
      exact lock_run_trans st _ _ _ _ _ _ r2 (get_run st _ _)
    by_cases he : i.1 ≠ 0
    · simp only [if_pos he]
      exact ⟨false, lock_run_trans st _ _ _ _ _ _
        (lock_run_trans st _ _ _ _ _ _ r3 (put_run st _ E.route))
        (err_out_destroy_run st _ _ _), fun _ => rfl⟩
    · simp only [if_neg he]
      generalize ({ i.2.2 with
        recv_trans := i.2.2.cmd.trans
        cmd := { i.2.2.cmd with trans := i.2.2.trans } } : dnet_trans) = t4
      obtain ⟨h, f1, f2⟩ := forward_run st (i.2.1.store t4) E.tx t4 E.route
      rw [store_trace] at f1
      have f3 := lock_run_trans st _ _ _ _ _ _ r3 f1
      cases hr : (dnet_trans_forward (i.2.1.store t4) E.tx t4 E.route).ret with
      | none => exact ⟨h, f3, fun hn => (hn hr).elim⟩
      | some e =>
        have hf : h = false := f2 (by rw [hr]; simp)
        subst hf
        simp only []
        have f4 := lock_run_trans st _ _ _ _ _ _ f3
          (put_run st (dnet_trans_forward (i.2.1.store t4) E.tx t4 E.route).n E.route)
        split_ifs
        · exact ⟨false, lock_run_trans st _ _ _ _ _ _ f4 (err_out_destroy_run st _ _ _),
            fun _ => rfl⟩
        · exact ⟨false, f4, fun _ => rfl⟩

theorem process_request_run (st : Nat) (E : env) (rx : List io_outcome) (cmd : el_cmd)
    (need_drop : Bool) (n : dnet_node) :
    ∃ h, lock_run st true n.trace (process_request st E rx cmd need_drop n).n.trace h ∧
      ((process_request st E rx cmd need_drop n).ret ≠ none → h = false) := by
  unfold process_request
  by_cases h0 : E.malloc_trans = true
  · simp only [if_pos h0]
    by_cases h1 : cmd.size ≠ 0
    · simp only [if_pos h1]
      by_cases h2 : E.malloc_data = true
      · simp only [if_pos h2]
        have r1 := lock_run_emit st true true n (rx_events st (dnet_recv rx cmd.size).log)
          (lock_trace_rx st _)
        cases hr : (dnet_recv rx cmd.size).ret with
        | none => exact ⟨true, r1, fun hn => (hn rfl).elim⟩
        | some e =>
          simp only []
          split_ifs
          · exact ⟨false, lock_run_trans st _ _ _ _ _ _ r1 (err_out_unlock_run st _ _ _),
              fun _ => rfl⟩
          · obtain ⟨h, f1, f2⟩ := request_done_run st E cmd need_drop
              (n.emit (rx_events st (dnet_recv rx cmd.size).log))
              { dnet_trans_zero with data := some cmd.size }
            exact ⟨h, lock_run_trans st _ _ _ _ _ _ r1 f1, f2⟩
      · simp only [if_neg h2]
        exact ⟨false, err_out_unlock_run st _ _ _, fun _ => rfl⟩
    · simp only [if_neg h1]
      exact request_done_run st E cmd need_drop n dnet_trans_zero
  · simp only [if_neg h0]
    exact ⟨false, err_out_unlock_run st _ _ _, fun _ => rfl⟩

/-! ## C17: the peer lock in `dnet_trans_process` -/

theorem process_lock_run (st : Nat) (E : env) (n : dnet_node) :
    ∃ h, lock_run st false n.trace (dnet_trans_process st E n).n.trace h ∧
      ((dnet_trans_process st E n).ret ≠ none → h = false) := by
  unfold dnet_trans_process
  cases hrx : E.rx with
  | nil => exact ⟨false, lock_run_refl st false _, fun _ => rfl⟩
  | cons o rx =>
    simp only []
    by_cases hw : dnet_wait_fd o ≠ 0
    · simp only [if_pos hw]
      exact ⟨false, lock_run_refl st false _, fun _ => rfl⟩
    simp only [if_neg hw]
    have r1 : lock_run st false n.trace
        ((n.emit [event.lock st]).emit (rx_events st (dnet_recv rx sizeof_el_cmd).log)).trace
        true :=
      lock_run_trans st _ _ _ _ _ _
        (lock_run_emit st false true n [event.lock st] (by simp [lock_trace, lock_step]))
        (lock_run_emit st true true _ _ (lock_trace_rx st _))
    cases hr : (dnet_recv rx sizeof_el_cmd).ret with
    | none => exact ⟨true, r1, fun hn => (hn rfl).elim⟩
    | some err =>
      simp only []
      by_cases he : err < 0
      · simp only [if_pos he]
        exact ⟨false, lock_run_trans st _ _ _ _ _ _ r1 (err_out_unlock_run st _ _ _),
          fun _ => rfl⟩
      simp only [if_neg he]
      by_cases hb : (el_convert_cmd E.cmd).trans &&& DNET_TRANS_REPLY ≠ 0
      · simp only [if_pos hb]
        cases hs : dnet_trans_search
            ((n.emit [event.lock st]).emit
              (rx_events st (dnet_recv rx sizeof_el_cmd).log)).trans_root
            ((el_convert_cmd E.cmd).trans &&& DNET_TRANS_MASK) with
        | none =>
          simp only []
          obtain ⟨h, f1, f2⟩ := process_request_run st E (dnet_recv rx sizeof_el_cmd).rest
            (el_convert_cmd E.cmd) true
            ((n.emit [event.lock st]).emit (rx_events st (dnet_recv rx sizeof_el_cmd).log))
          exact ⟨h, lock_run_trans st _ _ _ _ _ _ r1 f1, f2⟩
        | some t =>
          simp only []
          obtain ⟨h, f1, f2⟩ := process_reply_run st E (dnet_recv rx sizeof_el_cmd).rest
            (el_convert_cmd E.cmd) err
            ((n.emit [event.lock st]).emit (rx_events st (dnet_recv rx sizeof_el_cmd).log)) t
          exact ⟨h, lock_run_trans st _ _ _ _ _ _ r1 f1, f2⟩
      · simp only [if_neg hb]
        obtain ⟨h, f1, f2⟩ := process_request_run st E (dnet_recv rx sizeof_el_cmd).rest
          (el_convert_cmd E.cmd) false
          ((n.emit [event.lock st]).emit (rx_events st (dnet_recv rx sizeof_el_cmd).log))
        exact ⟨h, lock_run_trans st _ _ _ _ _ _ r1 f1, f2⟩

theorem process_wait_fails (st : Nat) (E : env) (n : dnet_node) (o : io_outcome)
    (rx : List io_outcome) (hrx : E.rx = o :: rx) (hw : dnet_wait_fd o ≠ 0) :
    (dnet_trans_process st E n).n.trace = n.trace ∧
    (dnet_trans_process st E n).ret = some (dnet_wait_fd o) := by
  unfold dnet_trans_process
  simp [hrx, hw]

/-- C17 (amended): what a `dnet_trans_process` call on peer `st` adds to the
trace keeps the lock discipline of `st`, starting with the lock free: the
header and every payload byte are read with the lock held; the lock is free
when a completion or the local request handler is called, when
`dnet_trans_forward` takes the lock of the peer it writes to, and when
`dnet_state_get` or `dnet_state_put` take a peer lock; the lock is never taken
while held and never released while free; and when the call returns, with 0
or with an error, the lock is free again. A call whose wait fails returns
without touching the lock. -/
theorem lock_discipline (st : Nat) (E : env) (n : dnet_node) :
    (∃ h, lock_run st false n.trace (dnet_trans_process st E n).n.trace h ∧
      ((dnet_trans_process st E n).ret ≠ none → h = false)) ∧
    (∀ (o : io_outcome) (rx : List io_outcome), E.rx = o :: rx → dnet_wait_fd o ≠ 0 →
      (dnet_trans_process st E n).n.trace = n.trace ∧
      (dnet_trans_process st E n).ret = some (dnet_wait_fd o)) :=
  ⟨process_lock_run st E n, process_wait_fails st E n⟩

/-- Witness of C17 (amended): a request with 4 payload bytes is handled
locally (lock, two reads, unlock, the handler call, the release of the
transaction), and a call whose wait times out leaves the trace as it is. -/
theorem lock_discipline_witness :
    (dnet_trans_process 7 (ex_env (ex_cmd 40 0 4) 0) (ex_node 12)).n.trace
      = [event.lock 7, event.rx 7 0 88, event.rx 7 0 4, event.unlock 7,
          event.process_cmd 7 (ex_cmd 40 0 4) (some 4),
          event.free_trans { dnet_trans_zero with data := some 4, cmd := ex_cmd 40 0 4 }] ∧
    (∃ h, lock_run 7 false (ex_node 12).trace
        (dnet_trans_process 7 (ex_env (ex_cmd 40 0 4) 0) (ex_node 12)).n.trace h ∧
      ((dnet_trans_process 7 (ex_env (ex_cmd 40 0 4) 0) (ex_node 12)).ret ≠ none →
        h = false)) ∧
    ex_env_timeout.rx = [ex_eagain] ∧ dnet_wait_fd ex_eagain ≠ 0 ∧
    (dnet_trans_process 7 ex_env_timeout (ex_node 12)).n.trace = (ex_node 12).trace :=
  ⟨by decide, (lock_discipline 7 (ex_env (ex_cmd 40 0 4) 0) (ex_node 12)).1, rfl, by decide,
    ((lock_discipline 7 ex_env_timeout (ex_node 12)).2 ex_eagain [] rfl (by decide)).1⟩

/-- C17 (counterexample): the lock of peer 7 is not released exactly once on
every return path. A reply from peer 7 to transaction 5, which peer 7 issued,
with MORE clear: after the release that follows the reads the completion runs,
and `dnet_trans_destroy` drops the transaction's reference on peer 7 through
`dnet_state_put`, which takes and releases the lock a second time. A call
whose wait times out returns `-EAGAIN` and has not taken the lock at all. -/
theorem lock_released_twice_or_never :
    (dnet_trans_process 7 (ex_env (ex_cmd (2 ^ 63 + 5) 0 4) 0) (ex_node 12)).ret = some 0 ∧
    (dnet_trans_process 7 (ex_env (ex_cmd (2 ^ 63 + 5) 0 4) 0) (ex_node 12)).n.trace
      = [event.lock 7, event.rx 7 0 88, event.rx 7 0 4, event.unlock 7,
          event.complete (reply_view (ex_t 5) (ex_cmd (2 ^ 63 + 5) 0 4)),
          event.lock 7, event.unlock 7,
          event.free_trans (reply_view (ex_t 5) (ex_cmd (2 ^ 63 + 5) 0 4))] ∧
    ((dnet_trans_process 7 (ex_env (ex_cmd (2 ^ 63 + 5) 0 4) 0) (ex_node 12)).n.trace).count
      (event.unlock 7) = 2 ∧
    (dnet_trans_process 7 ex_env_timeout (ex_node 12)).ret = some (-EAGAIN) ∧
    ((dnet_trans_process 7 ex_env_timeout (ex_node 12)).n.trace).count (event.unlock 7) = 0 := by
  decide

/-! ## Bytes taken from the connection by `dnet_trans_process` -/

theorem covers_bytes : ∀ (log : List (Nat × Nat)) (off size : Nat),
    covers off size log = true → log_bytes log = size := by
  intro log
  induction log with
  | nil =>
    intro off size h
    simp only [covers, decide_eq_true_eq] at h
    simp [log_bytes, h]
  | cons p log ih =>
    intro off size h
    simp only [covers, Bool.and_eq_true, decide_eq_true_eq] at h
    have := ih _ _ h.2
    simp only [log_bytes, List.map_cons, List.sum_cons] at this ⊢
    omega

theorem forward_rx_bytes (st : Nat) (n : dnet_node) (os : List io_outcome) (t : dnet_trans)
    (p : Nat) : rx_bytes st (dnet_trans_forward n os t p).n.trace = rx_bytes st n.trace := by
  unfold dnet_trans_forward
  rcases send_ret os sizeof_el_cmd with h1 | h1
  · simp [h1, rx_bytes]
  · rcases send_ret (dnet_send os sizeof_el_cmd).rest (t.cmd.size % 4294967296) with h2 | h2
    · simp [h1, h2, rx_bytes]
    · simp [h1, h2, rx_bytes]

theorem reply_done_rx_bytes (st : Nat) (E : env) (cmd : el_cmd) (n : dnet_node)
    (t : dnet_trans) :
    rx_bytes st (process_reply_done st E cmd n t).n.trace = rx_bytes st n.trace := by
  unfold process_reply_done
  generalize ({ t with cmd := { cmd with trans := t.recv_trans ||| DNET_TRANS_REPLY } }
    : dnet_trans) = t1
  by_cases hc : t1.complete ≠ 0
  · simp only [if_pos hc]
    split_ifs <;> simp [destroy_rx_bytes, rx_bytes]
  · simp only [if_neg hc]
    have hf := forward_rx_bytes st ((n.emit [event.unlock st]).store t1) E.tx t1 t1.st
    cases hr : (dnet_trans_forward ((n.emit [event.unlock st]).store t1) E.tx t1 t1.st).ret with
    | none => rw [hf]; simp [rx_bytes]
    | some e =>
      simp only []
      split_ifs
      · rw [destroy_rx_bytes, hf]; simp [rx_bytes]
      · rw [hf]; simp [rx_bytes]

theorem request_done_rx_bytes (st : Nat) (E : env) (cmd : el_cmd) (need_drop : Bool)
    (n : dnet_node) (t : dnet_trans) :
    rx_bytes st (process_request_done st E cmd need_drop n t).n.trace
      = rx_bytes st n.trace := by
  unfold process_request_done
  by_cases hd : need_drop = true
  · simp [hd, destroy_rx_bytes, rx_bytes]
  simp only [if_neg hd]
  have hs : rx_bytes st (dnet_state_search (n.emit [event.unlock st]) E.route).trace
      = rx_bytes st n.trace := by
    rw [search_trace]; split_ifs <;> simp [rx_bytes]
  by_cases hl : E.route = 0 ∨ E.route = st ∨
      E.route = (dnet_state_search (n.emit [event.unlock st]) E.route).st
  · simp only [if_pos hl]
    split_ifs <;> simp [err_out_destroy, destroy_rx_bytes, rx_bytes, hs]
  · simp only [if_neg hl]
    generalize hi : dnet_trans_insert
      (dnet_state_get (dnet_state_search (n.emit [event.unlock st]) E.route) st)
      { t with st := st, cmd := cmd } = i
    have r3 : rx_bytes st i.2.1.trace = rx_bytes st n.trace := by
      rw [← hi, insert_trace, get_trace, rx_bytes_append, hs]; simp [rx_bytes]
    by_cases he : i.1 ≠ 0
    · simp only [if_pos he]
      simp [err_out_destroy, destroy_rx_bytes, put_rx_bytes, r3]
    · simp only [if_neg he]
      generalize ({ i.2.2 with
        recv_trans := i.2.2.cmd.trans
        cmd := { i.2.2.cmd with trans := i.2.2.trans } } : dnet_trans) = t4
      have hf := forward_rx_bytes st (i.2.1.store t4) E.tx t4 E.route
      rw [store_trace, r3] at hf
      cases hr : (dnet_trans_forward (i.2.1.store t4) E.tx t4 E.route).ret with
      | none => exact hf
      | some e =>
        simp only []
        split_ifs
        · simp [err_out_destroy, destroy_rx_bytes, put_rx_bytes, hf]
        · simp [put_rx_bytes, hf]

theorem recv_zero_bytes (os : List io_outcome) (size : Nat) (e : Int)
    (hs : size < 4294967296) (hb : recv_bounded os size = true)
    (hr : (dnet_recv os size).ret = some e) (he : ¬ e < 0) :
    log_bytes (dnet_recv os size).log = size := by
  have := recv_ret_nonpos os size e hr
  have h0 : e = 0 := by omega
  rw [h0] at hr
  exact recv_bytes os size hs hb hr

theorem request_framing (st : Nat) (E : env) (rx : List io_outcome) (cmd : el_cmd)
    (need_drop : Bool) (n : dnet_node) (hs : cmd.size < 4294967296)
    (hb : recv_bounded rx cmd.size = true)
    (h : (process_request st E rx cmd need_drop n).ret = some 0) :
    rx_bytes st (process_request st E rx cmd need_drop n).n.trace
      = rx_bytes st n.trace + cmd.size := by
  unfold process_request at h ⊢
  by_cases h0 : E.malloc_trans = true
  · simp only [if_pos h0] at h ⊢
    by_cases h1 : cmd.size ≠ 0
    · simp only [if_pos h1] at h ⊢
      by_cases h2 : E.malloc_data = true
      · simp only [if_pos h2] at h ⊢
        cases hr : (dnet_recv rx cmd.size).ret with
        | none => simp [hr] at h
        | some e =>
          simp only [hr] at h ⊢
          by_cases he : e < 0
          · simp only [if_pos he, err_out_unlock, err_out_destroy, Option.some.injEq] at h
            omega
          · simp only [if_neg he] at h ⊢
            rw [request_done_rx_bytes]
            simp [recv_zero_bytes rx cmd.size e hs hb hr he]
      · simp [h2, err_out_unlock, err_out_destroy, ENOMEM] at h
    · simp only [if_neg h1] at h ⊢
      rw [request_done_rx_bytes]
      have : cmd.size = 0 := by simpa using h1
      omega
  · simp [h0, err_out_unlock, err_out_destroy, ENOMEM] at h

theorem reply_framing (st : Nat) (E : env) (rx : List io_outcome) (cmd : el_cmd) (err0 : Int)
    (n : dnet_node) (t : dnet_trans) (hs : cmd.size < 4294967296)
    (hb : recv_bounded rx cmd.size = true)
    (h : (process_reply st E rx cmd err0 n t).ret ≠ none) :
    rx_bytes st (process_reply st E rx cmd err0 n t).n.trace = rx_bytes st n.trace + cmd.size ∨
    (cmd.size ≠ 0 ∧ (E.malloc_data = false ∨
      ∃ e, (dnet_recv rx cmd.size).ret = some e ∧ e < 0)) := by
  unfold process_reply at h ⊢
  generalize (if cmd.flags &&& DNET_FLAGS_MORE = 0 then dnet_trans_remove_nolock n.trans_root t
    else (n.trans_root, t)) = p at h ⊢
  by_cases h1 : cmd.size ≠ 0
  · simp only [if_pos h1] at h ⊢
    by_cases h2 : E.malloc_data = true
    · simp only [if_pos h2] at h ⊢
      cases hr : (dnet_recv rx cmd.size).ret with
      | none => simp [hr] at h
      | some e =>
        simp only [hr] at h ⊢
        by_cases he : e < 0
        · exact Or.inr ⟨h1, Or.inr ⟨e, rfl, he⟩⟩
        · left
          simp only [if_neg he]
          rw [reply_done_rx_bytes]
          simp [recv_zero_bytes rx cmd.size e hs hb hr he]
    · exact Or.inr ⟨h1, Or.inl (by simpa using h2)⟩
  · left
    simp only [if_neg h1]
    rw [reply_done_rx_bytes]
    have : cmd.size = 0 := by simpa using h1
    simp [this]

theorem header_ok_ret (E : env) (h : header_ok E = true) : (header_read E).ret = some 0 := by
  unfold header_ok at h
  cases hrx : E.rx with
  | nil => simp [hrx] at h
  | cons o rx =>
    simp only [hrx, Bool.and_eq_true, decide_eq_true_eq] at h
    exact h.2

theorem after_header_rx_bytes (st : Nat) (E : env) (n : dnet_node) (h : header_ok E = true)
    (hb : recv_bounded E.rx.tail sizeof_el_cmd = true) :
    rx_bytes st (after_header st E n).trace = rx_bytes st n.trace + sizeof_el_cmd := by
  have := recv_bytes E.rx.tail sizeof_el_cmd (by decide) hb (header_ok_ret E h)
  simp only [after_header, emit_trace, rx_bytes_append, rx_bytes_rx, header_read, this]
  simp [rx_bytes]

theorem process_framing (st : Nat) (E : env) (n : dnet_node) (hh : header_ok E = true)
    (hb1 : recv_bounded E.rx.tail sizeof_el_cmd = true) (hs : E.cmd.size < 4294967296)
    (hb2 : recv_bounded (header_read E).rest E.cmd.size = true)
    (h : (dnet_trans_process st E n).ret = some 0) :
    rx_bytes st (dnet_trans_process st E n).n.trace
      = rx_bytes st n.trace + sizeof_el_cmd + E.cmd.size ∨
    (E.cmd.trans &&& DNET_TRANS_REPLY ≠ 0 ∧
      dnet_trans_search n.trans_root (E.cmd.trans &&& DNET_TRANS_MASK) ≠ none ∧
      payload_fails E = true) := by
  have ha := after_header_rx_bytes st E n hh hb1
  rw [process_of_header st E n hh] at h ⊢
  by_cases hb : E.cmd.trans &&& DNET_TRANS_REPLY ≠ 0
  · simp only [if_pos hb] at h ⊢
    cases hsr : dnet_trans_search n.trans_root (E.cmd.trans &&& DNET_TRANS_MASK) with
    | none =>
      simp only [hsr] at h ⊢
      left
      rw [request_framing st E _ E.cmd true _ hs hb2 h, ha]
    | some t =>
      simp only [hsr] at h ⊢
      rcases reply_framing st E _ E.cmd 0 (after_header st E n) t hs hb2 (by rw [h]; simp)
        with hx | ⟨h0, hx⟩
      · left; rw [hx, ha]
      · right
        refine ⟨hb, by simp, ?_⟩
        rcases hx with hx | ⟨e, hx, he⟩
        · simp [payload_fails, h0, hx]
        · simp [payload_fails, h0, payload_read, hx, he]
  · simp only [if_neg hb] at h ⊢
    left
    rw [request_framing st E _ E.cmd false _ hs hb2 h, ha]

theorem forward_framing (n : dnet_node) (os : List io_outcome) (t : dnet_trans) (p : Nat)
    (hs : t.cmd.size < 4294967296)
    (hb1 : send_bounded sizeof_el_cmd os sizeof_el_cmd = true)
    (hb2 : send_bounded t.cmd.size (dnet_send os sizeof_el_cmd).rest t.cmd.size = true)
    (h : (dnet_trans_forward n os t p).ret = some 0) :
    sends (dnet_trans_forward n os t p).n.trace
      = sends n.trace ++
        (dnet_send os sizeof_el_cmd).log.map (fun q => (p, buf.cmd t.cmd, q.1, q.2)) ++
        (dnet_send (dnet_send os sizeof_el_cmd).rest t.cmd.size).log.map
          (fun q => (p, buf.data t.data, q.1, q.2)) ∧
    (∃ pre pass, (dnet_send os sizeof_el_cmd).log = pre ++ pass ∧
      covers 0 sizeof_el_cmd pass = true) ∧
    (∃ pre pass, (dnet_send (dnet_send os sizeof_el_cmd).rest t.cmd.size).log = pre ++ pass ∧
      covers 0 t.cmd.size pass = true) ∧
    (send_clean (dnet_send os sizeof_el_cmd).rest t.cmd.size = true →
      log_bytes (dnet_send (dnet_send os sizeof_el_cmd).rest t.cmd.size).log = t.cmd.size) := by
  have hmod : t.cmd.size % 4294967296 = t.cmd.size := Nat.mod_eq_of_lt hs
  rw [forward_ret, hmod] at h
  have h1 : (dnet_send os sizeof_el_cmd).ret = some 0 := by
    by_cases hx : (dnet_send os sizeof_el_cmd).ret = some 0
    · exact hx
    · rw [if_neg hx] at h; simp at h
  rw [if_pos h1] at h
  have he := (forward_effects n os t p).2.2.2.2.2.2.2.2
  rw [if_pos h1, hmod] at he
  refine ⟨he, send_last_pass os sizeof_el_cmd (by decide) hb1 h1,
    send_last_pass _ t.cmd.size hs hb2 h, ?_⟩
  intro hc
  unfold dnet_send at h ⊢
  rw [hmod] at h ⊢
  exact covers_bytes _ 0 _ (send_at_clean _ _ _ 0 hs hc h)

/-! ## C14: framing -/

/-- C14 (amended): for a header whose size field is below `2^32` (and `recv`
calls that return no more than asked for), a `dnet_trans_process` call that
returns 0 has taken from the connection the 88 header bytes and exactly `size`
payload bytes, unless the header is a reply to a registered transaction whose
payload could not be read: that call returns 0 as well and has taken fewer
payload bytes. A `recv` or `send` that moves `2^31` bytes or more at once is
an error for the loops, which keep its result in an `int`. A `dnet_trans_forward` that returns has sent the header and
then the body, each ending with one pass over the whole buffer, `t.cmd.size`
bytes for the body; when no round of the body send fails, these are all the
body bytes sent. -/
theorem framing_exact (st : Nat) (E : env) (n : dnet_node) (os : List io_outcome)
    (t : dnet_trans) (p : Nat) :
    (header_ok E = true → recv_bounded E.rx.tail sizeof_el_cmd = true →
      E.cmd.size < 4294967296 → recv_bounded (header_read E).rest E.cmd.size = true →
      (dnet_trans_process st E n).ret = some 0 →
      rx_bytes st (dnet_trans_process st E n).n.trace
        = rx_bytes st n.trace + sizeof_el_cmd + E.cmd.size ∨
      (E.cmd.trans &&& DNET_TRANS_REPLY ≠ 0 ∧
        dnet_trans_search n.trans_root (E.cmd.trans &&& DNET_TRANS_MASK) ≠ none ∧
        payload_fails E = true)) ∧
    (t.cmd.size < 4294967296 → send_bounded sizeof_el_cmd os sizeof_el_cmd = true →
      send_bounded t.cmd.size (dnet_send os sizeof_el_cmd).rest t.cmd.size = true →
      (dnet_trans_forward n os t p).ret = some 0 →
      sends (dnet_trans_forward n os t p).n.trace
        = sends n.trace ++
          (dnet_send os sizeof_el_cmd).log.map (fun q => (p, buf.cmd t.cmd, q.1, q.2)) ++
          (dnet_send (dnet_send os sizeof_el_cmd).rest t.cmd.size).log.map
            (fun q => (p, buf.data t.data, q.1, q.2)) ∧
      (∃ pre pass, (dnet_send os sizeof_el_cmd).log = pre ++ pass ∧
        covers 0 sizeof_el_cmd pass = true) ∧
      (∃ pre pass,
        (dnet_send (dnet_send os sizeof_el_cmd).rest t.cmd.size).log = pre ++ pass ∧
        covers 0 t.cmd.size pass = true) ∧
      (send_clean (dnet_send os sizeof_el_cmd).rest t.cmd.size = true →
        log_bytes (dnet_send (dnet_send os sizeof_el_cmd).rest t.cmd.size).log
          = t.cmd.size)) :=
  ⟨process_framing st E n, forward_framing n os t p⟩

/-- Witness of C14 (amended): a request with 4 payload bytes is handled
locally, and a transaction with 4 payload bytes is forwarded to peer 8. -/
theorem framing_exact_witness :
    (dnet_trans_process 7 (ex_env (ex_cmd 40 0 4) 0) (ex_node 12)).ret = some 0 ∧
    (rx_bytes 7 (dnet_trans_process 7 (ex_env (ex_cmd 40 0 4) 0) (ex_node 12)).n.trace
        = rx_bytes 7 (ex_node 12).trace + sizeof_el_cmd + (ex_env (ex_cmd 40 0 4) 0).cmd.size ∨
      ((ex_env (ex_cmd 40 0 4) 0).cmd.trans &&& DNET_TRANS_REPLY ≠ 0 ∧
        dnet_trans_search (ex_node 12).trans_root
          ((ex_env (ex_cmd 40 0 4) 0).cmd.trans &&& DNET_TRANS_MASK) ≠ none ∧
        payload_fails (ex_env (ex_cmd 40 0 4) 0) = true)) ∧
    (dnet_trans_forward (ex_node 12) [ex_ok 88, ex_ok 4]
      { ex_fwd 9 with data := some 4, cmd := ex_cmd 9 0 4 } 8).ret = some 0 ∧
    ∃ pre pass,
      (dnet_send (dnet_send [ex_ok 88, ex_ok 4] sizeof_el_cmd).rest
        ({ ex_fwd 9 with data := some 4, cmd := ex_cmd 9 0 4 } : dnet_trans).cmd.size).log
        = pre ++ pass ∧
      covers 0 ({ ex_fwd 9 with data := some 4, cmd := ex_cmd 9 0 4 } : dnet_trans).cmd.size
        pass = true :=
  have h := framing_exact 7 (ex_env (ex_cmd 40 0 4) 0) (ex_node 12) [ex_ok 88, ex_ok 4]
    { ex_fwd 9 with data := some 4, cmd := ex_cmd 9 0 4 } 8
  ⟨by decide, h.1 (by decide) (by decide) (by decide) (by decide) (by decide), by decide,
    (h.2 (by decide) (by decide) (by decide) (by decide)).2.2.1⟩

/-- C14 (counterexample): a reply with 4 payload bytes matches transaction 5 of
the example node and the payload buffer cannot be allocated: the call returns
0 and has taken only the 88 header bytes from the connection, so the 4 payload
bytes are still in the stream where the next header is read. -/
theorem reply_nomem_leaves_payload :
    (ex_env_nomem (ex_cmd (2 ^ 63 + 5) 1 4) 0).cmd.size = 4 ∧
    (dnet_trans_process 7 (ex_env_nomem (ex_cmd (2 ^ 63 + 5) 1 4) 0) (ex_node 12)).ret
      = some 0 ∧
    rx_bytes 7
      (dnet_trans_process 7 (ex_env_nomem (ex_cmd (2 ^ 63 + 5) 1 4) 0) (ex_node 12)).n.trace
      = 88 := by
  decide

/-! ## C15: headers above the size cap -/

theorem search_st (n : dnet_node) (route : Nat) : (dnet_state_search n route).st = n.st := by
  unfold dnet_state_search; split_ifs <;> rfl

theorem request_local (st : Nat) (E : env) (n : dnet_node)
    (hh : header_ok E = true) (hb1 : recv_bounded E.rx.tail sizeof_el_cmd = true)
    (hreq : E.cmd.trans &&& DNET_TRANS_REPLY = 0) (h0 : E.cmd.size ≠ 0)
    (hs : E.cmd.size < 4294967296) (hm : E.malloc_trans = true) (hp : payload_ok E = true)
    (hb2 : recv_bounded (header_read E).rest E.cmd.size = true)
    (hl : E.route = 0 ∨ E.route = st ∨ E.route = n.st) :
    (dnet_trans_process st E n).ret = some E.process_cmd ∧
    rx_bytes st (dnet_trans_process st E n).n.trace
      = rx_bytes st n.trace + sizeof_el_cmd + E.cmd.size ∧
    event.process_cmd st E.cmd (some E.cmd.size) ∈ (dnet_trans_process st E n).n.trace := by
  have ha := after_header_rx_bytes st E n hh hb1
  rcases payload_ok_cases E hp with hz | ⟨_, hma, hrd⟩
  · exact (h0 hz).elim
  have hbytes := recv_bytes _ _ hs hb2 hrd
  have hx : rx_bytes st (rx_events st (dnet_recv (header_read E).rest E.cmd.size).log)
      = E.cmd.size := by rw [rx_bytes_rx, hbytes]
  rw [process_of_header st E n hh, if_neg (by simpa using hreq)]
  simp only [process_request, hm, h0, hma, hrd, if_true, ne_eq, not_false_eq_true,
    process_request_done, Bool.false_eq_true, if_false, lt_irrefl, search_st, emit_st]
  have hst : (after_header st E n).st = n.st := rfl
  rw [hst, if_pos hl]
  by_cases hc : E.process_cmd = 0
  · simp only [hc, not_true_eq_false, if_false]
    refine ⟨trivial, ?_, ?_⟩
    · rw [destroy_rx_bytes]
      simp only [emit_trace, rx_bytes_append, search_trace, hx, ha]
      split_ifs <;> simp [rx_bytes]
    · obtain ⟨es, he, _⟩ := destroy_run st
        ((dnet_state_search (((after_header st E n).emit
          (rx_events st (dnet_recv (header_read E).rest E.cmd.size).log)).emit
          [event.unlock st]) E.route).emit [event.process_cmd st E.cmd (some E.cmd.size)])
        (some { dnet_trans_zero with st := E.route, cmd := E.cmd, data := some E.cmd.size })
      rw [he]
      simp
  · simp only [hc, not_false_eq_true, if_true, err_out_destroy]
    refine ⟨trivial, ?_, ?_⟩
    · rw [destroy_rx_bytes]
      simp only [emit_trace, rx_bytes_append, search_trace, hx, ha]
      split_ifs <;> simp [rx_bytes]
    · obtain ⟨es, he, _⟩ := destroy_run st
        ((dnet_state_search (((after_header st E n).emit
          (rx_events st (dnet_recv (header_read E).rest E.cmd.size).log)).emit
          [event.unlock st]) E.route).emit [event.process_cmd st E.cmd (some E.cmd.size)])
        (some { dnet_trans_zero with st := E.route, cmd := E.cmd, data := some E.cmd.size })
      rw [he]
      simp

theorem request_big_recv (st : Nat) (E : env) (n : dnet_node) (o : io_outcome)
    (os : List io_outcome) (hh : header_ok E = true)
    (hreq : E.cmd.trans &&& DNET_TRANS_REPLY = 0) (h0 : E.cmd.size ≠ 0)
    (hs : E.cmd.size < 4294967296) (hm : E.malloc_trans = true) (hma : E.malloc_data = true)
    (hrest : (header_read E).rest = o :: os) (hx : o.need_exit = false)
    (hw : dnet_wait_fd o = 0) (h1 : 2147483648 ≤ o.ret) (h2 : o.ret < 4294967296) :
    (dnet_trans_process st E n).ret = some (o.ret - 4294967296) ∧
    handler_calls (dnet_trans_process st E n).n.trace = handler_calls n.trace := by
  have hrd : dnet_recv (header_read E).rest E.cmd.size
      = ⟨some (o.ret - 4294967296), os, []⟩ := by
    rw [hrest]
    unfold dnet_recv
    rw [Nat.mod_eq_of_lt hs]
    exact recv_at_narrow o os E.cmd.size 0 h0 hx hw h1 h2
  have hneg : o.ret - 4294967296 < 0 := by omega
  rw [process_of_header st E n hh, if_neg (by simpa using hreq)]
  simp only [process_request, hm, h0, hma, hrd, if_true, ne_eq, not_false_eq_true, hneg,
    err_out_unlock, err_out_destroy, destroy_handler_calls]
  refine ⟨trivial, ?_⟩
  simp [after_header, handler_calls]

/-- C15 (amended): `dnet_trans_process` has no cap on the size field. A request
header whose size is above `2^30` (and below `2^32`) is handled like any
other: when the allocations succeed and the payload arrives, the call has read
the 88 header bytes and all `size` payload bytes into a buffer of `size` bytes
and, for a request the node handles itself, hands that buffer to the local
request handler and returns what the handler returns. The read of such a
payload fails when a single `recv` delivers `2^31` bytes or more: its result
does not fit the `int` it is stored in, and the call returns that negative
value without calling the handler. -/
theorem oversized_header_processed (st : Nat) (E : env) (n : dnet_node)
    (hh : header_ok E = true) (hb1 : recv_bounded E.rx.tail sizeof_el_cmd = true)
    (hreq : E.cmd.trans &&& DNET_TRANS_REPLY = 0) (hbig : 1073741824 < E.cmd.size)
    (hs : E.cmd.size < 4294967296) (hm : E.malloc_trans = true)
    (hl : E.route = 0 ∨ E.route = st ∨ E.route = n.st) :
    (payload_ok E = true → recv_bounded (header_read E).rest E.cmd.size = true →
      (dnet_trans_process st E n).ret = some E.process_cmd ∧
      rx_bytes st (dnet_trans_process st E n).n.trace
        = rx_bytes st n.trace + sizeof_el_cmd + E.cmd.size ∧
      event.process_cmd st E.cmd (some E.cmd.size) ∈ (dnet_trans_process st E n).n.trace) ∧
    (∀ (o : io_outcome) (os : List io_outcome), E.malloc_data = true →
      (header_read E).rest = o :: os → o.need_exit = false → dnet_wait_fd o = 0 →
      2147483648 ≤ o.ret → o.ret < 4294967296 →
      (dnet_trans_process st E n).ret = some (o.ret - 4294967296) ∧
      handler_calls (dnet_trans_process st E n).n.trace = handler_calls n.trace) :=
  ⟨fun hp hb2 => request_local st E n hh hb1 hreq (by omega) hs hm hp hb2 hl,
   fun o os hma hrest hx hw h1 h2 =>
    request_big_recv st E n o os hh hreq (by omega) hs hm hma hrest hx hw h1 h2⟩

/-- Witness of C15 (amended): a request with `2^30 + 1` payload bytes that the
node handles itself. -/
theorem oversized_header_processed_witness :
    header_ok (ex_env (ex_cmd 40 0 1073741825) 0) = true ∧
    1073741824 < (ex_env (ex_cmd 40 0 1073741825) 0).cmd.size ∧
    payload_ok (ex_env (ex_cmd 40 0 1073741825) 0) = true ∧
    (dnet_trans_process 7 (ex_env (ex_cmd 40 0 1073741825) 0) (ex_node 12)).ret
      = some (ex_env (ex_cmd 40 0 1073741825) 0).process_cmd ∧
    rx_bytes 7 (dnet_trans_process 7 (ex_env (ex_cmd 40 0 1073741825) 0) (ex_node 12)).n.trace
      = rx_bytes 7 (ex_node 12).trace + sizeof_el_cmd
        + (ex_env (ex_cmd 40 0 1073741825) 0).cmd.size :=
  have h := (oversized_header_processed 7 (ex_env (ex_cmd 40 0 1073741825) 0) (ex_node 12)
    (by decide) (by decide) (by decide) (by decide) (by decide) rfl (Or.inl rfl)).1
    (by decide) (by decide)
  ⟨by decide, by decide, by decide, h.1, h.2.1⟩

/-- C15 (counterexample): a request header with a size field of `2^30 + 1`,
one byte above the cap. The call does not fail: it allocates the buffer, takes
the 88 header bytes and all `2^30 + 1` payload bytes from the connection,
calls the local request handler once and returns 0. -/
theorem oversized_header_accepted :
    1073741824 < (ex_env (ex_cmd 40 0 1073741825) 0).cmd.size ∧
    (dnet_trans_process 7 (ex_env (ex_cmd 40 0 1073741825) 0) (ex_node 12)).ret = some 0 ∧
    rx_bytes 7 (dnet_trans_process 7 (ex_env (ex_cmd 40 0 1073741825) 0) (ex_node 12)).n.trace
      = 88 + 1073741825 ∧
    (dnet_trans_process 7 (ex_env (ex_cmd 40 0 1073741825) 0) (ex_node 12)).n.trace
      = [event.lock 7, event.rx 7 0 88, event.rx 7 0 1073741825, event.unlock 7,
          event.process_cmd 7 (ex_cmd 40 0 1073741825) (some 1073741825),
          event.free_trans
            { dnet_trans_zero with data := some 1073741825, cmd := ex_cmd 40 0 1073741825 }] := by
  decide

end Elliptics
